import Mathlib

/-!
# JSON writer (`src/core/lib/json/json_writer.cc`)

A shallow embedding of the gRPC JSON writer and a verification of its
specification.

Conventions of the embedding.

* A byte is a `Nat`; a `uint8_t` read is taken `% 256`, a `uint32_t` value `% 2 ^ 32`,
  a `size_t` value `% 2 ^ 64`.
* A `const char*` argument is the list of bytes found in memory from the pointer on.
  Reading past the end of that list is a read outside the buffer and yields `none`.
  The strings of a tree node are kept by content; the memory the writer is handed is
  the content followed by the terminating `0x00` (`cstr`).
* `output` holds the bytes stored so far in `output[0 .. string_len)`, in the order in
  which they were stored; the three counters are kept as the source keeps them.
* The `int` fields of the writer are `Int`. `depth` changes by one per container and is not
  wrapped; the product `depth * indent` is reduced modulo `2 ^ 32` where the source converts
  it to `unsigned`.
* A null `grpc_json*` is `grpc_json.nil`. The type tags are the seven values the walker's
  `switch` handles, so its `default:` branch (`abort`) has no counterpart.
* Loops are recursive functions with a bound on the number of iterations; the bound passed
  by the callers is never reached.
-/

namespace JsonWriter

/-! ## Data model -/

/-- Node type tags (`grpc_json_type`), as used by the walker's `switch`. -/
inductive grpc_json_type where
  | GRPC_JSON_OBJECT
  | GRPC_JSON_ARRAY
  | GRPC_JSON_STRING
  | GRPC_JSON_NUMBER
  | GRPC_JSON_TRUE
  | GRPC_JSON_FALSE
  | GRPC_JSON_NULL
  deriving DecidableEq, Repr

open grpc_json_type

/-- Input tree (`grpc_json`): `nil` is the null pointer, `node type key value child next`
a node with its first child and its following sibling. -/
inductive grpc_json where
  | nil : grpc_json
  | node (type : grpc_json_type) (key : List Nat) (value : List Nat)
      (child : grpc_json) (next : grpc_json) : grpc_json
  deriving DecidableEq, Repr

/-- The test `json == NULL` on a node pointer. -/
def grpc_json.isNull : grpc_json → Bool
  | .nil => true
  | .node _ _ _ _ _ => false

/-- Writer state (`struct grpc_json_writer`). -/
structure grpc_json_writer where
  indent : Int
  depth : Int
  container_empty : Int
  got_key : Int
  output : List Nat
  free_space : Nat
  string_len : Nat
  allocated : Nat
  deriving DecidableEq, Repr

/-- Memory image of a NUL-terminated string with the given content. -/
def cstr (s : List Nat) : List Nat := s ++ [0]

/-- The C library `strlen`: number of bytes before the first `0x00`; `none` when the
buffer holds no terminator. -/
def strlen : List Nat → Option Nat
  | [] => none
  | b :: rest => if b % 256 = 0 then some 0 else (strlen rest).map (· + 1)

/-! ## Output buffer -/

/-- Source: `json_writer_output_check`. The mask `~0xffU` is an `unsigned int`
(`0xffffff00`) widened to `size_t`. -/
def json_writer_output_check (writer : grpc_json_writer) (needed : Nat) : grpc_json_writer :=
  if writer.free_space ≥ needed then writer
  else
    let needed := needed - writer.free_space
    let needed := ((needed + 0xff) % 2 ^ 64) &&& 0xffffff00
    { writer with
      free_space := (writer.free_space + needed) % 2 ^ 64
      allocated := (writer.allocated + needed) % 2 ^ 64 }

/-- Source: `json_writer_output_char`. -/
def json_writer_output_char (writer : grpc_json_writer) (c : Nat) : grpc_json_writer :=
  let writer := json_writer_output_check writer 1
  { writer with
    output := writer.output ++ [c]
    string_len := (writer.string_len + 1) % 2 ^ 64
    free_space := (writer.free_space + (2 ^ 64 - 1)) % 2 ^ 64 }

/-- Source: `json_writer_output_string_with_len` (`memcpy` of `len` bytes of `str`). The
function is total on the counters: `free_space -= len` wraps when the check left less than
`len` free bytes, and the `memcpy` then writes past the allocation. In every state the check
leaves `len` free bytes when `len + 0xff < 2^32`, which holds at every call with a constant
length; the call with the length of a string of the tree is `json_writer_output_string`. -/
def json_writer_output_string_with_len (writer : grpc_json_writer) (str : List Nat)
    (len : Nat) : grpc_json_writer :=
  let writer := json_writer_output_check writer len
  { writer with
    output := writer.output ++ str.take len
    string_len := (writer.string_len + len) % 2 ^ 64
    free_space := (writer.free_space + (2 ^ 64 - len % 2 ^ 64)) % 2 ^ 64 }

/-- Source: `json_writer_output_string`. The result is `none` when `str` holds no
terminator, and when the capacity check leaves fewer than `strlen(str)` free bytes, in which
case the `memcpy` of `json_writer_output_string_with_len` writes past the allocation. -/
def json_writer_output_string (writer : grpc_json_writer) (str : List Nat) :
    Option grpc_json_writer :=
  (strlen str).bind fun len =>
    if (json_writer_output_check writer len).free_space < len then none
    else some (json_writer_output_string_with_len writer str len)

/-! ## Formatting state machine -/

/-- The 64 blanks of `spacesstr`, with the terminator of the literal. -/
def spacesstr : List Nat := List.replicate 64 32 ++ [0]

/-- The `while (spaces >= sizeof(spacesstr) - 1)` loop of `json_writer_output_indent`;
the first argument bounds the number of iterations. -/
def json_writer_output_indent_loop : Nat → grpc_json_writer → Nat → grpc_json_writer × Nat
  | 0, writer, spaces => (writer, spaces)
  | fuel + 1, writer, spaces =>
    if spaces ≥ 64 then
      json_writer_output_indent_loop fuel
        (json_writer_output_string_with_len writer spacesstr 64) ((spaces - 64) % 2 ^ 32)
    else (writer, spaces)

/-- Source: `json_writer_output_indent`. The product `depth * indent` is an `int`
converted to `unsigned`. -/
def json_writer_output_indent (writer : grpc_json_writer) : grpc_json_writer :=
  let spaces : Nat := ((writer.depth * writer.indent) % 2 ^ 32).toNat
  if writer.indent = 0 then writer
  else if writer.got_key ≠ 0 then json_writer_output_char writer 32
  else
    let r := json_writer_output_indent_loop spaces writer spaces
    let writer := r.1
    let spaces := r.2
    if spaces = 0 then writer
    else json_writer_output_string_with_len writer (spacesstr.drop (65 - 1 - spaces)) spaces

/-- Source: `json_writer_value_end`. -/
def json_writer_value_end (writer : grpc_json_writer) : grpc_json_writer :=
  if writer.container_empty ≠ 0 then
    let writer := { writer with container_empty := 0 }
    if writer.indent = 0 ∨ writer.depth = 0 then writer
    else json_writer_output_char writer 10
  else
    let writer := json_writer_output_char writer 44
    if writer.indent = 0 then writer
    else json_writer_output_char writer 10

/-! ## String escaper -/

/-- The digit table `hex` of `json_writer_escape_utf16`. -/
def hex : List Nat := [48, 49, 50, 51, 52, 53, 54, 55, 56, 57, 97, 98, 99, 100, 101, 102]

/-- Source: `json_writer_escape_utf16`. -/
def json_writer_escape_utf16 (writer : grpc_json_writer) (utf16 : Nat) : grpc_json_writer :=
  let writer := json_writer_output_string_with_len writer [92, 117] 2
  let writer := json_writer_output_char writer (hex.getD ((utf16 >>> 12) &&& 0x0f) 0)
  let writer := json_writer_output_char writer (hex.getD ((utf16 >>> 8) &&& 0x0f) 0)
  let writer := json_writer_output_char writer (hex.getD ((utf16 >>> 4) &&& 0x0f) 0)
  json_writer_output_char writer (hex.getD (utf16 &&& 0x0f) 0)

/-- The `for (i = 0; i < extra; i++)` loop of `json_writer_escape_string`: reads up to
`extra` continuation bytes. The result is `(valid, utf32, string)` at the exit of the loop;
`none` is a read outside the buffer. -/
def json_writer_escape_continuation : Nat → Nat → List Nat → Option (Bool × Nat × List Nat)
  | 0, utf32, string => some (true, utf32, string)
  | extra + 1, utf32, string =>
    let utf32 := (utf32 <<< 6) % 2 ^ 32
    match string with
    | [] => none
    | b :: string =>
      let c := b % 256
      if c &&& 0xc0 ≠ 0x80 then some (false, utf32, string)
      else json_writer_escape_continuation extra (utf32 ||| (c &&& 0x3f)) string

/-- The `for (;;)` loop of `json_writer_escape_string`; the first argument bounds the number
of iterations. The result is the writer at the exit of the loop together with a flag that
tells whether the loop was left at the terminator test `c == 0` (`true`) or at one of the
other `break`s (`false`); `none` is a read outside the buffer. -/
def json_writer_escape_loop : Nat → grpc_json_writer → List Nat →
    Option (grpc_json_writer × Bool)
  | 0, _, _ => none
  | _ + 1, _, [] => none
  | fuel + 1, writer, b :: string =>
    let c := b % 256
    if c = 0 then some (writer, true)
    else if c ≥ 32 ∧ c ≤ 126 then
      let writer := if c = 92 ∨ c = 34 then json_writer_output_char writer 92 else writer
      json_writer_escape_loop fuel (json_writer_output_char writer c) string
    else if c < 32 ∨ c = 127 then
      let writer :=
        if c = 8 then json_writer_output_string_with_len writer [92, 98] 2
        else if c = 12 then json_writer_output_string_with_len writer [92, 102] 2
        else if c = 10 then json_writer_output_string_with_len writer [92, 110] 2
        else if c = 13 then json_writer_output_string_with_len writer [92, 114] 2
        else if c = 9 then json_writer_output_string_with_len writer [92, 116] 2
        else json_writer_escape_utf16 writer c
      json_writer_escape_loop fuel writer string
    else
      let lead : Option (Nat × Nat) :=
        if c &&& 0xe0 = 0xc0 then some (c &&& 0x1f, 1)
        else if c &&& 0xf0 = 0xe0 then some (c &&& 0x0f, 2)
        else if c &&& 0xf8 = 0xf0 then some (c &&& 0x07, 3)
        else none
      match lead with
      | none => some (writer, false)
      | some (utf32, extra) =>
        match json_writer_escape_continuation extra utf32 string with
        | none => none
        | some (valid, utf32, string) =>
          if !valid then some (writer, false)
          else if (utf32 ≥ 0xd800 ∧ utf32 ≤ 0xdfff) ∨ utf32 ≥ 0x110000 then
            some (writer, false)
          else if utf32 ≥ 0x10000 then
            let utf32 := utf32 - 0x10000
            let writer := json_writer_escape_utf16 writer ((0xd800 ||| (utf32 >>> 10)) % 2 ^ 16)
            let writer :=
              json_writer_escape_utf16 writer ((0xdc00 ||| (utf32 &&& 0x3ff)) % 2 ^ 16)
            json_writer_escape_loop fuel writer string
          else
            json_writer_escape_loop fuel (json_writer_escape_utf16 writer (utf32 % 2 ^ 16)) string

/-- Source: `json_writer_escape_string`. Every iteration of the loop reads at least one
byte, so the length of the buffer bounds the number of iterations. -/
def json_writer_escape_string (writer : grpc_json_writer) (string : List Nat) :
    Option grpc_json_writer :=
  let writer := json_writer_output_char writer 34
  (json_writer_escape_loop string.length writer string).map fun r =>
    json_writer_output_char r.1 34

/-! ## Writer operations -/

/-- Source: `grpc_json_writer_container_begins`. -/
def grpc_json_writer_container_begins (writer : grpc_json_writer) (type : grpc_json_type) :
    grpc_json_writer :=
  let writer := if writer.got_key = 0 then json_writer_value_end writer else writer
  let writer := json_writer_output_indent writer
  let writer := json_writer_output_char writer (if type = GRPC_JSON_OBJECT then 123 else 91)
  { writer with container_empty := 1, got_key := 0, depth := writer.depth + 1 }

/-- Source: `grpc_json_writer_container_ends`. -/
def grpc_json_writer_container_ends (writer : grpc_json_writer) (type : grpc_json_type) :
    grpc_json_writer :=
  let writer :=
    if writer.indent ≠ 0 ∧ writer.container_empty = 0 then json_writer_output_char writer 10
    else writer
  let writer := { writer with depth := writer.depth - 1 }
  let writer := if writer.container_empty = 0 then json_writer_output_indent writer else writer
  let writer := json_writer_output_char writer (if type = GRPC_JSON_OBJECT then 125 else 93)
  { writer with container_empty := 0, got_key := 0 }

/-- Source: `grpc_json_writer_object_key`. -/
def grpc_json_writer_object_key (writer : grpc_json_writer) (string : List Nat) :
    Option grpc_json_writer :=
  let writer := json_writer_value_end writer
  let writer := json_writer_output_indent writer
  (json_writer_escape_string writer string).map fun writer =>
    let writer := json_writer_output_char writer 58
    { writer with got_key := 1 }

/-- Source: `grpc_json_writer_value_raw`. -/
def grpc_json_writer_value_raw (writer : grpc_json_writer) (string : List Nat) :
    Option grpc_json_writer :=
  let writer := if writer.got_key = 0 then json_writer_value_end writer else writer
  let writer := json_writer_output_indent writer
  (json_writer_output_string writer string).map fun writer => { writer with got_key := 0 }

/-- Source: `grpc_json_writer_value_raw_with_len`. -/
def grpc_json_writer_value_raw_with_len (writer : grpc_json_writer) (string : List Nat)
    (len : Nat) : grpc_json_writer :=
  let writer := if writer.got_key = 0 then json_writer_value_end writer else writer
  let writer := json_writer_output_indent writer
  let writer := json_writer_output_string_with_len writer string len
  { writer with got_key := 0 }

/-- Source: `grpc_json_writer_value_string`. -/
def grpc_json_writer_value_string (writer : grpc_json_writer) (string : List Nat) :
    Option grpc_json_writer :=
  let writer := if writer.got_key = 0 then json_writer_value_end writer else writer
  let writer := json_writer_output_indent writer
  (json_writer_escape_string writer string).map fun writer => { writer with got_key := 0 }

/-! ## Tree walker and driver -/

/-- Source: `json_dump_recursive`. The `while (json)` loop over the sibling chain is the
recursion on `next`; `none` is a read outside a string buffer. -/
def json_dump_recursive (writer : grpc_json_writer) :
    grpc_json → Bool → Option grpc_json_writer
  | .nil, _ => some writer
  | .node type key value child next, in_object =>
    (if in_object then grpc_json_writer_object_key writer (cstr key) else some writer).bind
      fun writer =>
        (match type with
          | GRPC_JSON_OBJECT =>
            let writer := grpc_json_writer_container_begins writer GRPC_JSON_OBJECT
            (if child.isNull then some writer
              else json_dump_recursive writer child true).map
              fun writer => grpc_json_writer_container_ends writer GRPC_JSON_OBJECT
          | GRPC_JSON_ARRAY =>
            let writer := grpc_json_writer_container_begins writer GRPC_JSON_ARRAY
            (if child.isNull then some writer
              else json_dump_recursive writer child false).map
              fun writer => grpc_json_writer_container_ends writer GRPC_JSON_ARRAY
          | GRPC_JSON_STRING => grpc_json_writer_value_string writer (cstr value)
          | GRPC_JSON_NUMBER => grpc_json_writer_value_raw writer (cstr value)
          | GRPC_JSON_TRUE =>
            some (grpc_json_writer_value_raw_with_len writer [116, 114, 117, 101, 0] 4)
          | GRPC_JSON_FALSE =>
            some (grpc_json_writer_value_raw_with_len writer [102, 97, 108, 115, 101, 0] 5)
          | GRPC_JSON_NULL =>
            some (grpc_json_writer_value_raw_with_len writer [110, 117, 108, 108, 0] 4)).bind
          fun writer => json_dump_recursive writer next in_object

/-- The zeroed writer of `grpc_json_dump_to_string` (`memset`), with `container_empty = 1`
and the requested `indent`. -/
def initial_writer (indent : Int) : grpc_json_writer :=
  { indent := indent, depth := 0, container_empty := 1, got_key := 0, output := [],
    free_space := 0, string_len := 0, allocated := 0 }

/-- Source: `grpc_json_dump_to_string`: the bytes of the returned buffer, terminator
included. -/
def grpc_json_dump_to_string (json : grpc_json) (indent : Int) : Option (List Nat) :=
  (json_dump_recursive (initial_writer indent) json false).map fun writer =>
    (json_writer_output_char writer 0).output

/-! ## Specification-level definitions -/

/-- The part of the writer state that the formatter reads and the bytes written so far. -/
structure View where
  indent : Int
  depth : Int
  container_empty : Int
  got_key : Int
  output : List Nat
  deriving DecidableEq

def view (w : grpc_json_writer) : View :=
  { indent := w.indent, depth := w.depth, container_empty := w.container_empty,
    got_key := w.got_key, output := w.output }

def View.put (v : View) (bs : List Nat) : View := { v with output := v.output ++ bs }

/-- Bytes written by `json_writer_output_indent` in a state with the given `indent`,
`depth` and `got_key`. -/
def indentBytes (indent depth got_key : Int) : List Nat :=
  if indent = 0 then []
  else if got_key ≠ 0 then [32]
  else List.replicate ((depth * indent) % 2 ^ 32).toNat 32

/-- Bytes written by `json_writer_value_end`. -/
def valueEndBytes (indent depth container_empty : Int) : List Nat :=
  if container_empty ≠ 0 then (if indent = 0 ∨ depth = 0 then [] else [10])
  else if indent = 0 then [44] else [44, 10]

/-- Bytes written by `json_writer_escape_utf16`. -/
def utf16Bytes (utf16 : Nat) : List Nat :=
  [92, 117, hex.getD ((utf16 >>> 12) &&& 0x0f) 0, hex.getD ((utf16 >>> 8) &&& 0x0f) 0,
    hex.getD ((utf16 >>> 4) &&& 0x0f) 0, hex.getD (utf16 &&& 0x0f) 0]

/-- Bytes written by the `for (;;)` loop of `json_writer_escape_string` on the given
memory, with the exit flag of the loop, obtained by running the loop on an empty buffer. -/
def escapeScan (fuel : Nat) (string : List Nat) : Option (List Nat × Bool) :=
  (json_writer_escape_loop fuel (initial_writer 0) string).map fun r => (r.1.output, r.2)

/-- Prepends bytes to the result of a scan. -/
def scanCons (bs : List Nat) (r : Option (List Nat × Bool)) : Option (List Nat × Bool) :=
  r.map fun p => (bs ++ p.1, p.2)

/-- Escape of one printable ASCII byte. -/
def asciiBytes (c : Nat) : List Nat := (if c = 92 ∨ c = 34 then [92] else []) ++ [c]

/-- Escape of one control byte. -/
def controlBytes (c : Nat) : List Nat :=
  if c = 8 then [92, 98]
  else if c = 12 then [92, 102]
  else if c = 10 then [92, 110]
  else if c = 13 then [92, 114]
  else if c = 9 then [92, 116]
  else utf16Bytes c

/-- Escape of a decoded code point. -/
def codepointBytes (utf32 : Nat) : List Nat :=
  if utf32 ≥ 0x10000 then
    utf16Bytes ((0xd800 ||| ((utf32 - 0x10000) >>> 10)) % 2 ^ 16)
      ++ utf16Bytes ((0xdc00 ||| ((utf32 - 0x10000) &&& 0x3ff)) % 2 ^ 16)
  else utf16Bytes (utf32 % 2 ^ 16)

/-- Lead-byte classification of `json_writer_escape_string`. -/
def leadInfo (c : Nat) : Option (Nat × Nat) :=
  if c &&& 0xe0 = 0xc0 then some (c &&& 0x1f, 1)
  else if c &&& 0xf0 = 0xe0 then some (c &&& 0x0f, 2)
  else if c &&& 0xf8 = 0xf0 then some (c &&& 0x07, 3)
  else none

/-- One step of the loop, on the level of emitted bytes. -/
def scanStep (scan : List Nat → Option (List Nat × Bool)) (b : Nat) (string : List Nat) :
    Option (List Nat × Bool) :=
  let c := b % 256
  if c = 0 then some ([], true)
  else if c ≥ 32 ∧ c ≤ 126 then scanCons (asciiBytes c) (scan string)
  else if c < 32 ∨ c = 127 then scanCons (controlBytes c) (scan string)
  else
    match leadInfo c with
    | none => some ([], false)
    | some (utf32, extra) =>
      match json_writer_escape_continuation extra utf32 string with
      | none => none
      | some (valid, utf32, string) =>
        if !valid then some ([], false)
        else if (utf32 ≥ 0xd800 ∧ utf32 ≤ 0xdfff) ∨ utf32 ≥ 0x110000 then some ([], false)
        else scanCons (codepointBytes utf32) (scan string)

/-- Bytes written by the loop of `json_writer_escape_string` on the given memory, with the
exit flag of the loop. -/
def scan (string : List Nat) : Option (List Nat × Bool) := escapeScan string.length string

/-- The literal written by `json_writer_escape_string` for a string with the given
content, obtained by running the escaper on an empty buffer. -/
def escaped (s : List Nat) : List Nat :=
  ((json_writer_escape_string (initial_writer 0) (cstr s)).map (·.output)).getD []

/-- Bytes written between the quotes for a string with the given content. -/
def escapedBody (s : List Nat) : List Nat := ((scan (cstr s)).map (·.1)).getD []

/-- Content of a C string: the bytes before the first `0x00`. -/
def cbytes (s : List Nat) : List Nat := s.takeWhile (fun b => b % 256 ≠ 0)

/-- Bytes that precede a value: separator, indentation and, inside an object, the key. -/
def leadBytes (k d ce : Int) (in_object : Bool) (key : List Nat) : List Nat :=
  valueEndBytes k d ce ++ indentBytes k d 0
    ++ (if in_object then escaped key ++ [58] ++ indentBytes k d 1 else [])

/-- Bytes written by `grpc_json_writer_container_ends` before the closing bracket, for a
container with the given `child`. -/
def closeBytes (k d : Int) (child : grpc_json) : List Nat :=
  match child with
  | .nil => []
  | _ => (if k = 0 then [] else [10]) ++ indentBytes k d 0

/-- Value of `container_empty` after the walk of a sibling chain. -/
def ceAfter (ce : Int) (t : grpc_json) : Int :=
  match t with
  | .nil => ce
  | _ => 0

/-- Bytes written by `json_dump_recursive` for the sibling chain `t`, started with the given
`indent`, `depth`, `in_object` and `container_empty` (and `got_key = 0`). -/
def emitted (k : Int) : Int → Bool → Int → grpc_json → List Nat
  | _, _, _, .nil => []
  | d, io, ce, .node ty key value child next =>
    leadBytes k d ce io key
      ++ (match ty with
        | GRPC_JSON_OBJECT =>
          [123] ++ emitted k (d + 1) true 1 child ++ closeBytes k d child ++ [125]
        | GRPC_JSON_ARRAY =>
          [91] ++ emitted k (d + 1) false 1 child ++ closeBytes k d child ++ [93]
        | GRPC_JSON_STRING => escaped value
        | GRPC_JSON_NUMBER => cbytes value
        | GRPC_JSON_TRUE => [116, 114, 117, 101]
        | GRPC_JSON_FALSE => [102, 97, 108, 115, 101]
        | GRPC_JSON_NULL => [110, 117, 108, 108])
      ++ emitted k d io 0 next

/-- The NUMBER values of the nodes that the walker visits are shorter than `2^32 - 0xff`
bytes: the lengths for which `json_writer_output_check` grows the buffer by the whole
deficit. -/
def numbersShort : grpc_json → Bool
  | .nil => true
  | .node ty _ value child next =>
    (match ty with
      | GRPC_JSON_OBJECT => numbersShort child
      | GRPC_JSON_ARRAY => numbersShort child
      | GRPC_JSON_NUMBER => decide ((cbytes value).length + 0xff < 2 ^ 32)
      | _ => true) && numbersShort next

/-- Compact rendering of a sibling chain: the nodes' renderings joined by a bare `,`;
inside an object each node is preceded by its escaped key and `:`. -/
def compact (in_object : Bool) : grpc_json → List Nat
  | .nil => []
  | .node ty key value child next =>
    (if in_object then escaped key ++ [58] else [])
      ++ (match ty with
        | GRPC_JSON_OBJECT => [123] ++ compact true child ++ [125]
        | GRPC_JSON_ARRAY => [91] ++ compact false child ++ [93]
        | GRPC_JSON_STRING => escaped value
        | GRPC_JSON_NUMBER => cbytes value
        | GRPC_JSON_TRUE => [116, 114, 117, 101]
        | GRPC_JSON_FALSE => [102, 97, 108, 115, 101]
        | GRPC_JSON_NULL => [110, 117, 108, 108])
      ++ (if next.isNull then [] else [44] ++ compact in_object next)

/-- Pretty rendering of a sibling chain at nesting depth `d` with `k` blanks per level. -/
def pretty (k : Nat) : Nat → Bool → grpc_json → List Nat
  | _, _, .nil => []
  | d, in_object, .node ty key value child next =>
    List.replicate (d * k) 32
      ++ (if in_object then escaped key ++ [58, 32] else [])
      ++ (match ty with
        | GRPC_JSON_OBJECT =>
          if child.isNull then [123, 125]
          else [123, 10] ++ pretty k (d + 1) true child ++ [10]
            ++ List.replicate (d * k) 32 ++ [125]
        | GRPC_JSON_ARRAY =>
          if child.isNull then [91, 93]
          else [91, 10] ++ pretty k (d + 1) false child ++ [10]
            ++ List.replicate (d * k) 32 ++ [93]
        | GRPC_JSON_STRING => escaped value
        | GRPC_JSON_NUMBER => cbytes value
        | GRPC_JSON_TRUE => [116, 114, 117, 101]
        | GRPC_JSON_FALSE => [102, 97, 108, 115, 101]
        | GRPC_JSON_NULL => [110, 117, 108, 108])
      ++ (if next.isNull then [] else [44, 10] ++ pretty k d in_object next)

/-- Greatest nesting depth at which a node of the sibling chain is written. -/
def nesting : grpc_json → Nat
  | .nil => 0
  | .node ty _ _ child next =>
    max (match ty with
        | GRPC_JSON_OBJECT => if child.isNull then 0 else nesting child + 1
        | GRPC_JSON_ARRAY => if child.isNull then 0 else nesting child + 1
        | _ => 0)
      (nesting next)

/-- The tree `{"a": 1, "b": [true, null]}`. -/
def exampleTree : grpc_json :=
  .node GRPC_JSON_OBJECT [] []
    (.node GRPC_JSON_NUMBER [97] [49] .nil
      (.node GRPC_JSON_ARRAY [98] []
        (.node GRPC_JSON_TRUE [] [] .nil (.node GRPC_JSON_NULL [] [] .nil .nil)) .nil))
    .nil

/-- The tree `[[[[null]]]]`. -/
def deepTree : grpc_json :=
  .node GRPC_JSON_ARRAY [] []
    (.node GRPC_JSON_ARRAY [] []
      (.node GRPC_JSON_ARRAY [] []
        (.node GRPC_JSON_ARRAY [] [] (.node GRPC_JSON_NULL [] [] .nil .nil) .nil) .nil) .nil)
    .nil

/-- Lowercase hexadecimal digit of a value below 16. -/
def hexDigit (n : Nat) : Nat := if n < 10 then 48 + n else 87 + n

/-- The six characters `\uXXXX` for a 16-bit value, in lowercase hexadecimal. -/
def uEscape (x : Nat) : List Nat :=
  [92, 117, hexDigit (x / 4096 % 16), hexDigit (x / 256 % 16), hexDigit (x / 16 % 16),
    hexDigit (x % 16)]

/-- Escape of a control byte: the two-character escapes for `\b \f \n \r \t`, otherwise
`\u00XX`. -/
def controlEscape (c : Nat) : List Nat :=
  if c = 8 then [92, 98]
  else if c = 12 then [92, 102]
  else if c = 10 then [92, 110]
  else if c = 13 then [92, 114]
  else if c = 9 then [92, 116]
  else [92, 117, 48, 48, hexDigit (c / 16), hexDigit (c % 16)]

/-- Escape of a printable ASCII byte: verbatim, with a backslash before `"` and `\`. -/
def asciiEscape (c : Nat) : List Nat := if c = 34 ∨ c = 92 then [92, c] else [c]

/-- UTF-8 encoding of a code point (1 to 4 bytes). -/
def utf8Encode (cp : Nat) : List Nat :=
  if cp < 0x80 then [cp]
  else if cp < 0x800 then [0xC0 + cp / 64, 0x80 + cp % 64]
  else if cp < 0x10000 then [0xE0 + cp / 4096, 0x80 + cp / 64 % 64, 0x80 + cp % 64]
  else [0xF0 + cp / 262144, 0x80 + cp / 4096 % 64, 0x80 + cp / 64 % 64, 0x80 + cp % 64]

/-- High surrogate of a code point above `0xFFFF`. -/
def highSurrogate (cp : Nat) : Nat := 0xD800 ||| ((cp - 0x10000) >>> 10)

/-- Low surrogate of a code point above `0xFFFF`. -/
def lowSurrogate (cp : Nat) : Nat := 0xDC00 ||| ((cp - 0x10000) &&& 0x3FF)

/-- Number of continuation bytes announced by a lead byte (`110xxxxx`, `1110xxxx`,
`11110xxx`). -/
def leadExtra (b : Nat) : Option Nat :=
  if 0xC0 ≤ b ∧ b ≤ 0xDF then some 1
  else if 0xE0 ≤ b ∧ b ≤ 0xEF then some 2
  else if 0xF0 ≤ b ∧ b ≤ 0xF7 then some 3
  else none

/-- A continuation byte (`10xxxxxx`). -/
def isContinuation (b : Nat) : Prop := 0x80 ≤ b ∧ b ≤ 0xBF

/-- The escaper consumes the string `p` completely: `p` holds no `0x00` and the loop, run on
`p` and its terminator, is left at the terminator test. -/
def ConsumedCompletely (p : List Nat) : Prop :=
  (∀ b ∈ p, b % 256 ≠ 0)
    ∧ ∃ r, json_writer_escape_loop (p.length + 1) (initial_writer 0) (cstr p) = some (r, true)

/-- The string `q` begins with a defective sequence: a byte `0x80..0xBF` or `0xF8..0xFF` in
lead position, or a lead byte followed by too few continuation bytes and then a byte that
is no continuation byte, or a lead byte whose sequence is cut by the end of the string. -/
def Defective (q : List Nat) : Prop :=
  (∃ b tail, q = b :: tail ∧ ((0x80 ≤ b ∧ b ≤ 0xBF) ∨ (0xF8 ≤ b ∧ b ≤ 0xFF)))
    ∨ (∃ l e conts x tail, q = l :: (conts ++ x :: tail) ∧ leadExtra l = some e
        ∧ conts.length < e ∧ (∀ c ∈ conts, isContinuation c) ∧ ¬isContinuation (x % 256))
    ∨ (∃ l e conts, q = l :: conts ∧ leadExtra l = some e
        ∧ conts.length < e ∧ (∀ c ∈ conts, isContinuation c))

/-- A non-zero Unicode scalar value. -/
def isScalar (cp : Nat) : Prop := 1 ≤ cp ∧ cp ≤ 0x10FFFF ∧ ¬(0xD800 ≤ cp ∧ cp ≤ 0xDFFF)

instance (cp : Nat) : Decidable (isScalar cp) := by
  unfold isScalar
  infer_instance

/-- Value of a hexadecimal digit character. -/
def hexValue (c : Nat) : Option Nat :=
  if 48 ≤ c ∧ c ≤ 57 then some (c - 48)
  else if 97 ≤ c ∧ c ≤ 102 then some (c - 87)
  else if 65 ≤ c ∧ c ≤ 70 then some (c - 55)
  else none

/-- Value of four hexadecimal digit characters. -/
def hexValue4 (a b c d : Nat) : Option Nat :=
  match hexValue a, hexValue b, hexValue c, hexValue d with
  | some a, some b, some c, some d => some (a * 4096 + b * 256 + c * 16 + d)
  | _, _, _, _ => none

/-- Character denoted by a two-character escape `\c`. -/
def simpleEscape (c : Nat) : Option Nat :=
  if c = 34 then some 34
  else if c = 92 then some 92
  else if c = 47 then some 47
  else if c = 98 then some 8
  else if c = 102 then some 12
  else if c = 110 then some 10
  else if c = 114 then some 13
  else if c = 116 then some 9
  else none

/-- One step of the JSON string decoder for ASCII text: the code point denoted by the
character or escape at the front of the text (two-character escapes, `\uXXXX`, surrogate
pairs combined), with the text that follows it. -/
def jsonDecodeStep : List Nat → Option (Nat × List Nat)
  | [] => none
  | c :: rest =>
    if c = 92 then
      match rest with
      | [] => none
      | e :: rest1 =>
        if e = 117 then
          match rest1 with
          | h1 :: h2 :: h3 :: h4 :: rest2 =>
            match hexValue4 h1 h2 h3 h4 with
            | none => none
            | some hi =>
              if 0xD800 ≤ hi ∧ hi ≤ 0xDBFF then
                match rest2 with
                | b :: u :: l1 :: l2 :: l3 :: l4 :: rest3 =>
                  if b = 92 ∧ u = 117 then
                    match hexValue4 l1 l2 l3 l4 with
                    | none => none
                    | some lo =>
                      if 0xDC00 ≤ lo ∧ lo ≤ 0xDFFF then
                        some (0x10000 + (hi - 0xD800) * 1024 + (lo - 0xDC00), rest3)
                      else none
                  else none
                | _ => none
              else if 0xDC00 ≤ hi ∧ hi ≤ 0xDFFF then none
              else some (hi, rest2)
          | _ => none
        else
          match simpleEscape e with
          | none => none
          | some x => some (x, rest1)
    else if 0x20 ≤ c ∧ c ≤ 0x7F ∧ c ≠ 34 then some (c, rest)
    else none

/-- JSON string decoder for ASCII text, on the characters that follow the opening quote;
the text has to end with the closing quote. The first argument bounds the number of
steps. -/
def jsonDecodeBody : Nat → List Nat → Option (List Nat)
  | 0, _ => none
  | fuel + 1, s =>
    if s = [34] then some []
    else
      match jsonDecodeStep s with
      | none => none
      | some (cp, rest) => (jsonDecodeBody fuel rest).map (fun t => cp :: t)

/-- JSON string decoder: the code points denoted by a string literal. -/
def jsonDecode : List Nat → Option (List Nat)
  | [] => none
  | c :: rest => if c = 34 then jsonDecodeBody rest.length rest else none

/-- What the escaper writes for one code point. -/
def cpEscape (cp : Nat) : List Nat :=
  if cp < 0x80 then (if 0x20 ≤ cp ∧ cp ≤ 0x7E then asciiEscape cp else controlEscape cp)
  else if cp < 0x10000 then uEscape cp
  else uEscape (highSurrogate cp) ++ uEscape (lowSurrogate cp)

/-- What the escaper can write between the quotes for the memory `s`: a sequence of
escapes of printable bytes of `s`, of control bytes, and `\uXXXX` escapes. -/
inductive EscapedText (s : List Nat) : List Nat → Prop where
  | nil : EscapedText s []
  | ascii (c : Nat) (t : List Nat) : c ∈ s → 32 ≤ c % 256 → c % 256 ≤ 126 →
      EscapedText s t → EscapedText s (asciiEscape (c % 256) ++ t)
  | control (c : Nat) (t : List Nat) : c % 256 < 32 ∨ c % 256 = 127 →
      EscapedText s t → EscapedText s (controlEscape (c % 256) ++ t)
  | unicode (x : Nat) (t : List Nat) : EscapedText s t → EscapedText s (uEscape x ++ t)

/-- JSON whitespace: blank, tab, line feed, carriage return. -/
def IsWs (s : List Nat) : Prop := ∀ c ∈ s, c = 32 ∨ c = 9 ∨ c = 10 ∨ c = 13

/-- A run of decimal digits. -/
def IsDigits (s : List Nat) : Prop := ∀ c ∈ s, 48 ≤ c ∧ c ≤ 57

/-- JSON number text (RFC 8259): `[ - ] int [ frac ] [ exp ]`. -/
def IsJsonNumber (s : List Nat) : Prop :=
  ∃ sign int frac exp, s = sign ++ int ++ frac ++ exp
    ∧ (sign = [] ∨ sign = [45])
    ∧ (int = [48] ∨ ∃ d ds, int = d :: ds ∧ 49 ≤ d ∧ d ≤ 57 ∧ IsDigits ds)
    ∧ (frac = [] ∨ ∃ d ds, frac = 46 :: d :: ds ∧ IsDigits (d :: ds))
    ∧ (exp = [] ∨ ∃ e sg d ds, exp = e :: (sg ++ d :: ds) ∧ (e = 101 ∨ e = 69)
        ∧ (sg = [] ∨ sg = [43] ∨ sg = [45]) ∧ IsDigits (d :: ds))

/-- A hexadecimal digit character. -/
def IsHexChar (c : Nat) : Prop := (hexValue c).isSome = true

/-- The characters of a JSON string between the quotes (ASCII text): unescaped characters
other than `"`, `\` and control characters, two-character escapes, and `\uXXXX`. -/
inductive JChars : List Nat → Prop where
  | nil : JChars []
  | plain (c : Nat) (t : List Nat) : 0x20 ≤ c → c ≤ 0x7F → c ≠ 34 → c ≠ 92 → JChars t →
      JChars (c :: t)
  | esc (e : Nat) (t : List Nat) : e ∈ [34, 92, 47, 98, 102, 110, 114, 116] → JChars t →
      JChars (92 :: e :: t)
  | unicode (h1 h2 h3 h4 : Nat) (t : List Nat) : IsHexChar h1 → IsHexChar h2 → IsHexChar h3 →
      IsHexChar h4 → JChars t → JChars (92 :: 117 :: h1 :: h2 :: h3 :: h4 :: t)

/-- A JSON string literal. -/
def IsJsonString (s : List Nat) : Prop := ∃ body, s = [34] ++ body ++ [34] ∧ JChars body

mutual
/-- A JSON value (RFC 8259), on ASCII text. -/
inductive JValue : List Nat → Prop where
  | string (s : List Nat) : IsJsonString s → JValue s
  | number (s : List Nat) : IsJsonNumber s → JValue s
  | true : JValue [116, 114, 117, 101]
  | false : JValue [102, 97, 108, 115, 101]
  | null : JValue [110, 117, 108, 108]
  | emptyArray (w : List Nat) : IsWs w → JValue ([91] ++ w ++ [93])
  | array (e w : List Nat) : JElements e → IsWs w → JValue ([91] ++ e ++ w ++ [93])
  | emptyObject (w : List Nat) : IsWs w → JValue ([123] ++ w ++ [125])
  | object (m w : List Nat) : JMembers m → IsWs w → JValue ([123] ++ m ++ w ++ [125])
/-- The elements of a JSON array, separated by `,`. -/
inductive JElements : List Nat → Prop where
  | one (w v : List Nat) : IsWs w → JValue v → JElements (w ++ v)
  | more (w v w' rest : List Nat) : IsWs w → JValue v → IsWs w' → JElements rest →
      JElements (w ++ v ++ w' ++ [44] ++ rest)
/-- The members of a JSON object, separated by `,`. -/
inductive JMembers : List Nat → Prop where
  | one (w k w1 w2 v : List Nat) : IsWs w → IsJsonString k → IsWs w1 → IsWs w2 → JValue v →
      JMembers (w ++ k ++ w1 ++ [58] ++ w2 ++ v)
  | more (w k w1 w2 v w' rest : List Nat) : IsWs w → IsJsonString k → IsWs w1 → IsWs w2 →
      JValue v → IsWs w' → JMembers rest →
      JMembers (w ++ k ++ w1 ++ [58] ++ w2 ++ v ++ w' ++ [44] ++ rest)
end

/-- A JSON text: exactly one value, with optional whitespace around it. -/
def IsJsonText (s : List Nat) : Prop :=
  ∃ w v w', s = w ++ v ++ w' ∧ IsWs w ∧ JValue v ∧ IsWs w'

/-- The NUMBER values of the nodes that the walker visits are JSON number text. -/
def NumbersValid : grpc_json → Prop
  | .nil => True
  | .node ty _ value child next =>
    (ty = GRPC_JSON_NUMBER → IsJsonNumber (cbytes value))
      ∧ ((ty = GRPC_JSON_OBJECT ∨ ty = GRPC_JSON_ARRAY) → NumbersValid child)
      ∧ NumbersValid next

/-- Bytes written by `json_dump_recursive` for the value of one node. -/
def emittedValue (k d : Int) (ty : grpc_json_type) (value : List Nat) (child : grpc_json) :
    List Nat :=
  match ty with
  | GRPC_JSON_OBJECT => [123] ++ emitted k (d + 1) true 1 child ++ closeBytes k d child ++ [125]
  | GRPC_JSON_ARRAY => [91] ++ emitted k (d + 1) false 1 child ++ closeBytes k d child ++ [93]
  | GRPC_JSON_STRING => escaped value
  | GRPC_JSON_NUMBER => cbytes value
  | GRPC_JSON_TRUE => [116, 114, 117, 101]
  | GRPC_JSON_FALSE => [102, 97, 108, 115, 101]
  | GRPC_JSON_NULL => [110, 117, 108, 108]

/-- The separator written by `json_writer_value_end` before the whitespace. -/
def commaBytes (ce : Int) : List Nat := if ce ≠ 0 then [] else [44]

/-- JSON tokens: structural characters, string literals (by the text between the quotes)
and the runs of other characters (numbers and the literals `true`, `false`, `null`). -/
inductive Token where
  | punct (c : Nat)
  | string (body : List Nat)
  | atom (text : List Nat)
  deriving DecidableEq, Repr

/-- State of the tokenizer. -/
inductive LexState where
  | outside
  | inAtom (text : List Nat)
  | inString (body : List Nat) (escape : Bool)

/-- A whitespace character. -/
def isWsChar (c : Nat) : Bool := c == 32 || c == 9 || c == 10 || c == 13

/-- A structural character: braces, brackets, comma, colon. -/
def isPunctChar (c : Nat) : Bool :=
  c == 123 || c == 125 || c == 91 || c == 93 || c == 44 || c == 58

/-- JSON tokenizer: whitespace separates tokens, a `"` opens a string that runs to the next
`"` not preceded by a backslash escape. `none` is an unterminated string. -/
def lexer : LexState → List Nat → Option (List Token)
  | .outside, [] => some []
  | .inAtom a, [] => some [.atom a]
  | .inString _ _, [] => none
  | .outside, c :: s =>
    if isWsChar c then lexer .outside s
    else if isPunctChar c then (lexer .outside s).map (fun t => .punct c :: t)
    else if c = 34 then lexer (.inString [] false) s
    else lexer (.inAtom [c]) s
  | .inAtom a, c :: s =>
    if isWsChar c then (lexer .outside s).map (fun t => .atom a :: t)
    else if isPunctChar c then (lexer .outside s).map (fun t => .atom a :: .punct c :: t)
    else if c = 34 then (lexer (.inString [] false) s).map (fun t => .atom a :: t)
    else lexer (.inAtom (a ++ [c])) s
  | .inString b esc, c :: s =>
    if esc then lexer (.inString (b ++ [c]) false) s
    else if c = 92 then lexer (.inString (b ++ [c]) true) s
    else if c = 34 then (lexer .outside s).map (fun t => .string b :: t)
    else lexer (.inString (b ++ [c]) false) s

/-- The sequence of JSON tokens of a text. -/
def jsonTokens (s : List Nat) : Option (List Token) := lexer .outside s

/-- The text is empty or starts with a character that ends an atom. -/
def DelimStart (s : List Nat) : Prop :=
  s = [] ∨ ∃ d t, s = d :: t ∧ (isWsChar d = true ∨ isPunctChar d = true ∨ d = 34)

/-- A character of an atom: no whitespace, no structural character, no quote. -/
def IsAtomChar (c : Nat) : Prop := isWsChar c = false ∧ isPunctChar c = false ∧ c ≠ 34

/-- Prepends tokens to the result of the tokenizer. -/
def tokCons (toks : List Token) (r : Option (List Token)) : Option (List Token) :=
  r.map (fun t => toks ++ t)

/-- The string holds no blank (`0x20`) and no line feed (`0x0A`) byte. -/
def noBlank (s : List Nat) : Prop := ∀ b ∈ s, b % 256 ≠ 32 ∧ b % 256 ≠ 10

/-- No key, STRING value or NUMBER value of the tree holds a blank or a line feed. -/
def NoBlank : grpc_json → Prop
  | .nil => True
  | .node ty key value child next =>
    noBlank key
      ∧ ((ty = GRPC_JSON_STRING ∨ ty = GRPC_JSON_NUMBER) → noBlank value)
      ∧ ((ty = GRPC_JSON_OBJECT ∨ ty = GRPC_JSON_ARRAY) → NoBlank child)
      ∧ NoBlank next

/-- Deletes every `0x20` and `0x0A` byte. -/
def stripBlanks (s : List Nat) : List Nat := s.filter (fun c => c ≠ 32 ∧ c ≠ 10)

/-- The tree `[", "]` whose two NUMBER values are the single byte `"`. -/
def quoteTree : grpc_json :=
  .node GRPC_JSON_ARRAY [] []
    (.node GRPC_JSON_NUMBER [] [34] .nil (.node GRPC_JSON_NUMBER [] [34] .nil .nil)) .nil

/-- The tree with the keys that the claim lets vary replaced by the empty string: the keys
of the nodes of a sibling chain that is not the chain of members of an OBJECT. -/
def eraseKeys (in_object : Bool) : grpc_json → grpc_json
  | .nil => .nil
  | .node ty key value child next =>
    .node ty (if in_object then key else []) value
      (match ty with
        | GRPC_JSON_OBJECT => eraseKeys true child
        | GRPC_JSON_ARRAY => eraseKeys false child
        | _ => child)
      (eraseKeys in_object next)

/-- The bookkeeping invariant of the output buffer, over the natural numbers. -/
def bookkeeping (w : grpc_json_writer) : Prop :=
  w.string_len + w.free_space = w.allocated

instance (w : grpc_json_writer) : Decidable (bookkeeping w) := by
  unfold bookkeeping; infer_instance

/-- The deficit rounded up to the next multiple of 256. -/
def roundUp256 (deficit : Nat) : Nat := (deficit + 255) / 256 * 256

/-- Greatest number of containers that are open at once in the walk of the sibling chain:
the greatest amount by which `depth` exceeds its value at the start. -/
def containerDepth : grpc_json → Nat
  | .nil => 0
  | .node ty _ _ child next =>
    max (match ty with
        | GRPC_JSON_OBJECT => containerDepth child + 1
        | GRPC_JSON_ARRAY => containerDepth child + 1
        | _ => 0)
      (containerDepth next)

/-- Appends the `depth` of the writer to the list of the values `depth` has taken. -/
def record (trace : List Int) (writer : grpc_json_writer) : grpc_json_writer × List Int :=
  (writer, trace ++ [writer.depth])

/-- Source: `json_dump_recursive`, with a second component that lists the value of `depth`
after each writer operation of the walk, in the order of the calls. -/
def json_dump_trace (st : grpc_json_writer × List Int) :
    grpc_json → Bool → Option (grpc_json_writer × List Int)
  | .nil, _ => some st
  | .node type key value child next, in_object =>
    (if in_object then (grpc_json_writer_object_key st.1 (cstr key)).map (record st.2)
      else some st).bind
      fun st =>
        (match type with
          | GRPC_JSON_OBJECT =>
            let st := record st.2 (grpc_json_writer_container_begins st.1 GRPC_JSON_OBJECT)
            (if child.isNull then some st
              else json_dump_trace st child true).map
              fun (st : grpc_json_writer × List Int) =>
                record st.2 (grpc_json_writer_container_ends st.1 GRPC_JSON_OBJECT)
          | GRPC_JSON_ARRAY =>
            let st := record st.2 (grpc_json_writer_container_begins st.1 GRPC_JSON_ARRAY)
            (if child.isNull then some st
              else json_dump_trace st child false).map
              fun (st : grpc_json_writer × List Int) =>
                record st.2 (grpc_json_writer_container_ends st.1 GRPC_JSON_ARRAY)
          | GRPC_JSON_STRING =>
            (grpc_json_writer_value_string st.1 (cstr value)).map (record st.2)
          | GRPC_JSON_NUMBER =>
            (grpc_json_writer_value_raw st.1 (cstr value)).map (record st.2)
          | GRPC_JSON_TRUE =>
            some (record st.2
              (grpc_json_writer_value_raw_with_len st.1 [116, 114, 117, 101, 0] 4))
          | GRPC_JSON_FALSE =>
            some (record st.2
              (grpc_json_writer_value_raw_with_len st.1 [102, 97, 108, 115, 101, 0] 5))
          | GRPC_JSON_NULL =>
            some (record st.2
              (grpc_json_writer_value_raw_with_len st.1 [110, 117, 108, 108, 0] 4))).bind
          fun st => json_dump_trace st next in_object

/-- The property of a walk started in `w` with the trace `tr`: it returns, its writer is
the one of `json_dump_recursive`, the final depth is the initial one, and every recorded
depth lies between the initial depth and the initial depth plus `containerDepth t`. -/
def Balanced (w : grpc_json_writer) (tr : List Int) (t : grpc_json) (io : Bool) : Prop :=
  ∃ w' ds, json_dump_trace (w, tr) t io = some (w', tr ++ ds)
    ∧ json_dump_recursive w t io = some w'
    ∧ w'.depth = w.depth ∧ ∀ d ∈ ds, w.depth ≤ d ∧ d ≤ w.depth + containerDepth t

/-! ## Theorems -/

@[simp] theorem View.put_indent (v : View) (bs) : (v.put bs).indent = v.indent := rfl
@[simp] theorem View.put_depth (v : View) (bs) : (v.put bs).depth = v.depth := rfl
@[simp] theorem View.put_container_empty (v : View) (bs) :
    (v.put bs).container_empty = v.container_empty := rfl
@[simp] theorem View.put_got_key (v : View) (bs) : (v.put bs).got_key = v.got_key := rfl
@[simp] theorem View.put_output (v : View) (bs) : (v.put bs).output = v.output ++ bs := rfl
@[simp] theorem View.put_put (v : View) (a b) : (v.put a).put b = v.put (a ++ b) := by
  simp [View.put]
@[simp] theorem View.put_nil (v : View) : v.put [] = v := by simp [View.put]

@[simp] theorem view_indent (w) : (view w).indent = w.indent := rfl
@[simp] theorem view_depth (w) : (view w).depth = w.depth := rfl
@[simp] theorem view_container_empty (w) : (view w).container_empty = w.container_empty := rfl
@[simp] theorem view_got_key (w) : (view w).got_key = w.got_key := rfl
@[simp] theorem view_output (w) : (view w).output = w.output := rfl

theorem view_output_check (w n) : view (json_writer_output_check w n) = view w := by
  unfold json_writer_output_check
  split <;> rfl

theorem view_output_char (w c) : view (json_writer_output_char w c) = (view w).put [c] := by
  have h := view_output_check w 1
  simp only [view, View.mk.injEq] at h
  obtain ⟨h1, h2, h3, h4, h5⟩ := h
  simp [json_writer_output_char, view, View.put, h1, h2, h3, h4, h5]

theorem view_output_string_with_len (w s n) :
    view (json_writer_output_string_with_len w s n) = (view w).put (s.take n) := by
  have h := view_output_check w n
  simp only [view, View.mk.injEq] at h
  obtain ⟨h1, h2, h3, h4, h5⟩ := h
  simp [json_writer_output_string_with_len, view, View.put, h1, h2, h3, h4, h5]

theorem spacesstr_slice : ∀ sp, sp < 64 →
    (spacesstr.drop (65 - 1 - sp)).take sp = List.replicate sp 32 := by
  decide

theorem spacesstr_take : spacesstr.take 64 = List.replicate 64 32 := by decide

theorem view_indent_loop : ∀ (fuel : Nat) (w : grpc_json_writer) (spaces : Nat),
    spaces ≤ 64 * fuel + 63 → spaces < 2 ^ 32 →
    view (json_writer_output_indent_loop fuel w spaces).1
        = (view w).put (List.replicate (spaces - (json_writer_output_indent_loop fuel w spaces).2) 32)
      ∧ (json_writer_output_indent_loop fuel w spaces).2 < 64
      ∧ (json_writer_output_indent_loop fuel w spaces).2 ≤ spaces := by
  intro fuel
  induction fuel with
  | zero =>
    intro w spaces h _
    simp [json_writer_output_indent_loop]
    omega
  | succ n ih =>
    intro w spaces h h32
    unfold json_writer_output_indent_loop
    by_cases h64 : spaces ≥ 64
    · have hlt : (spaces - 64) % 2 ^ 32 = spaces - 64 := Nat.mod_eq_of_lt (by omega)
      obtain ⟨h1, h2, h3⟩ := ih (json_writer_output_string_with_len w spacesstr 64)
        ((spaces - 64) % 2 ^ 32) (by omega) (by omega)
      simp only [h64, if_true]
      refine ⟨?_, h2, by omega⟩
      rw [h1, view_output_string_with_len, spacesstr_take, View.put_put, ← List.replicate_add]
      congr 2
      omega
    · simp only [h64, if_false]
      simp
      omega

theorem view_output_indent (w : grpc_json_writer) :
    view (json_writer_output_indent w)
      = (view w).put (indentBytes w.indent w.depth w.got_key) := by
  unfold json_writer_output_indent indentBytes
  by_cases hi : w.indent = 0
  · simp [hi]
  · by_cases hg : w.got_key = 0
    · simp only [hi, hg, if_false, ne_eq, not_true_eq_false]
      have hnn : 0 ≤ (w.depth * w.indent) % 2 ^ 32 := Int.emod_nonneg _ (by norm_num)
      have hlt : (w.depth * w.indent) % 2 ^ 32 < 2 ^ 32 := Int.emod_lt_of_pos _ (by norm_num)
      have hsp : ((w.depth * w.indent) % 2 ^ 32).toNat < 2 ^ 32 := by omega
      generalize ((w.depth * w.indent) % 2 ^ 32).toNat = sp at hsp
      obtain ⟨h1, h2, h3⟩ := view_indent_loop sp w sp (by omega) hsp
      generalize json_writer_output_indent_loop sp w sp = r at h1 h2 h3
      by_cases h0 : r.2 = 0
      · simp only [h0, if_true]
        rw [h1, h0]; rfl
      · simp only [h0, if_false]
        rw [view_output_string_with_len, h1, spacesstr_slice _ h2, View.put_put,
          ← List.replicate_add]
        congr 2
        omega
    · simp [hi, hg, view_output_char]

@[simp] theorem output_char_indent (w c) : (json_writer_output_char w c).indent = w.indent :=
  congrArg View.indent (view_output_char w c)

theorem view_value_end (w : grpc_json_writer) :
    view (json_writer_value_end w)
      = { (view w).put (valueEndBytes w.indent w.depth w.container_empty) with
          container_empty := 0 } := by
  unfold json_writer_value_end valueEndBytes
  by_cases hc : w.container_empty = 0
  · by_cases hi : w.indent = 0
    · simp [hc, hi, view_output_char]
      simp [View.put, view, hc, hi]
    · simp [hc, hi, view_output_char]
      simp [View.put, view, hc]
  · by_cases hi : w.indent = 0 ∨ w.depth = 0
    · simp [hc, hi]
      simp [View.put, view]
    · simp [hc, hi, view_output_char]
      simp [View.put, view]

theorem view_escape_utf16 (w u) :
    view (json_writer_escape_utf16 w u) = (view w).put (utf16Bytes u) := by
  simp [json_writer_escape_utf16, view_output_char, view_output_string_with_len, utf16Bytes]

theorem continuation_length : ∀ (extra utf32 : Nat) (s : List Nat) (v : Bool) (u : Nat)
    (s' : List Nat), json_writer_escape_continuation extra utf32 s = some (v, u, s') →
    s'.length ≤ s.length := by
  intro extra
  induction extra with
  | zero =>
    intro utf32 s v u s' h
    simp [json_writer_escape_continuation] at h
    rw [h.2.2]
  | succ n ih =>
    intro utf32 s v u s' h
    cases s with
    | nil => simp [json_writer_escape_continuation] at h
    | cons b rest =>
      simp only [json_writer_escape_continuation] at h
      split at h
      · simp at h
        simp [← h.2.2]
      · have := ih _ _ _ _ _ h
        simp; omega

theorem escape_loop_fuel : ∀ (f1 f2 : Nat) (w : grpc_json_writer) (s : List Nat),
    s.length ≤ f1 → s.length ≤ f2 →
    json_writer_escape_loop f1 w s = json_writer_escape_loop f2 w s := by
  intro f1
  induction f1 with
  | zero =>
    intro f2 w s h1 h2
    have : s = [] := List.length_eq_zero.mp (by omega)
    subst this
    cases f2 <;> rfl
  | succ n ih =>
    intro f2 w s h1 h2
    cases s with
    | nil => cases f2 <;> rfl
    | cons b rest =>
      cases f2 with
      | zero => simp at h2
      | succ m =>
        simp only [List.length_cons, Nat.add_le_add_iff_right] at h1 h2
        simp only [json_writer_escape_loop]
        split
        · rfl
        split
        · exact ih m _ _ h1 h2
        split
        · exact ih m _ _ h1 h2
        split
        · rfl
        · split
          · rfl
          · rename_i hc
            have hl := continuation_length _ _ _ _ _ _ hc
            split
            · rfl
            split
            · rfl
            split
            · exact ih m _ _ (by omega) (by omega)
            · exact ih m _ _ (by omega) (by omega)

theorem escape_loop_rel : ∀ (fuel : Nat) (s : List Nat),
    ∃ res : Option (List Nat × Bool), ∀ w : grpc_json_writer,
      (json_writer_escape_loop fuel w s).map (fun r => (view r.1, r.2))
        = res.map (fun p => ((view w).put p.1, p.2)) := by
  intro fuel
  induction fuel with
  | zero => intro s; exact ⟨none, fun w => rfl⟩
  | succ n ih =>
    intro s
    cases s with
    | nil => exact ⟨none, fun w => rfl⟩
    | cons b rest =>
      have key : ∀ (bs : List Nat) (s' : List Nat) (f : grpc_json_writer → grpc_json_writer),
          (∀ w, view (f w) = (view w).put bs) →
          ∃ res : Option (List Nat × Bool), ∀ w : grpc_json_writer,
            (json_writer_escape_loop n (f w) s').map (fun r => (view r.1, r.2))
              = res.map (fun p => ((view w).put p.1, p.2)) := by
        intro bs s' f hf
        obtain ⟨res, hres⟩ := ih s'
        refine ⟨scanCons bs res, fun w => ?_⟩
        rw [hres (f w), hf w]
        cases res <;> simp [scanCons]
      simp only [json_writer_escape_loop]
      split
      · exact ⟨some ([], true), fun w => by simp⟩
      split
      · refine key (asciiBytes (b % 256)) rest _ (fun w => ?_)
        unfold asciiBytes
        split <;> simp [view_output_char]
      split
      · refine key (controlBytes (b % 256)) rest _ (fun w => ?_)
        unfold controlBytes
        repeat' split
        all_goals simp [view_output_string_with_len, view_escape_utf16]
      split
      · exact ⟨some ([], false), fun w => by simp⟩
      · split
        · exact ⟨none, fun w => rfl⟩
        · rename_i u3 s3 hc
          split
          · exact ⟨some ([], false), fun w => by simp⟩
          split
          · exact ⟨some ([], false), fun w => by simp⟩
          split
          · refine key (codepointBytes u3) _ _ (fun w => ?_)
            rename_i h
            simp [codepointBytes, h, view_escape_utf16]
          · refine key (codepointBytes u3) _ _ (fun w => ?_)
            rename_i h
            simp [codepointBytes, h, view_escape_utf16]

theorem escape_loop_view (fuel : Nat) (w : grpc_json_writer) (s : List Nat) :
    (json_writer_escape_loop fuel w s).map (fun r => (view r.1, r.2))
      = (escapeScan fuel s).map (fun p => ((view w).put p.1, p.2)) := by
  obtain ⟨res, hres⟩ := escape_loop_rel fuel s
  have h0 := hres (initial_writer 0)
  have : escapeScan fuel s = res := by
    unfold escapeScan
    have h1 := congrArg (Option.map (fun p : View × Bool => (p.1.output, p.2))) h0
    simp only [Option.map_map] at h1
    have e1 : ((fun p : View × Bool => (p.1.output, p.2)) ∘
        fun r : grpc_json_writer × Bool => (view r.1, r.2)) = fun r => (r.1.output, r.2) := by
      funext r; rfl
    have e2 : ((fun p : View × Bool => (p.1.output, p.2)) ∘
        fun p : List Nat × Bool => ((view (initial_writer 0)).put p.1, p.2)) = id := by
      funext p; simp [initial_writer, view, View.put]
    rw [e1, e2] at h1
    simpa using h1
  rw [this]
  exact hres w

theorem escape_loop_output (fuel : Nat) (w : grpc_json_writer) (s : List Nat) :
    (json_writer_escape_loop fuel w s).map (fun r => (r.1.output, r.2))
      = scanCons w.output (escapeScan fuel s) := by
  have h1 := congrArg (Option.map (fun p : View × Bool => (p.1.output, p.2)))
    (escape_loop_view fuel w s)
  simp only [Option.map_map] at h1
  exact h1

theorem escapeScan_succ_cons (fuel : Nat) (b : Nat) (s : List Nat) :
    escapeScan (fuel + 1) (b :: s) = scanStep (escapeScan fuel) b s := by
  have key : ∀ (bs : List Nat) (s' : List Nat) (w' : grpc_json_writer),
      view w' = (view (initial_writer 0)).put bs →
      (json_writer_escape_loop fuel w' s').map (fun r => (r.1.output, r.2))
        = scanCons bs (escapeScan fuel s') := by
    intro bs s' w' hw
    rw [escape_loop_output]
    have := congrArg View.output hw
    simp [initial_writer] at this
    rw [this]
  unfold scanStep
  show (json_writer_escape_loop (fuel + 1) (initial_writer 0) (b :: s)).map _ = _
  simp only [json_writer_escape_loop]
  by_cases h0 : b % 256 = 0
  · simp only [h0, if_true]; rfl
  simp only [h0, if_false]
  by_cases h1 : b % 256 ≥ 32 ∧ b % 256 ≤ 126
  · simp only [h1, and_self, if_true]
    refine key (asciiBytes (b % 256)) s _ ?_
    unfold asciiBytes
    split <;> simp [view_output_char]
  simp only [h1, if_false]
  by_cases h2 : b % 256 < 32 ∨ b % 256 = 127
  · simp only [h2, if_true]
    refine key (controlBytes (b % 256)) s _ ?_
    unfold controlBytes
    repeat' split
    all_goals simp [view_output_string_with_len, view_escape_utf16]
  simp only [h2, if_false]
  have hli : (if b % 256 &&& 0xe0 = 0xc0 then some (b % 256 &&& 0x1f, 1)
      else if b % 256 &&& 0xf0 = 0xe0 then some (b % 256 &&& 0x0f, 2)
      else if b % 256 &&& 0xf8 = 0xf0 then some (b % 256 &&& 0x07, 3)
      else none) = leadInfo (b % 256) := rfl
  rw [hli]
  cases leadInfo (b % 256) with
  | none => rfl
  | some ue =>
    obtain ⟨u, e⟩ := ue
    simp only []
    cases json_writer_escape_continuation e u s with
    | none => rfl
    | some r =>
      obtain ⟨v, u3, s3⟩ := r
      simp only []
      by_cases hv : (!v) = true
      · simp only [hv, if_true]; rfl
      simp only [hv, if_false]
      by_cases hr : (u3 ≥ 0xd800 ∧ u3 ≤ 0xdfff) ∨ u3 ≥ 0x110000
      · simp only [hr, if_true]; rfl
      simp only [hr, if_false]
      by_cases h4 : u3 ≥ 0x10000
      · simp only [h4, if_true]
        refine key (codepointBytes u3) _ _ ?_
        simp [codepointBytes, h4, view_escape_utf16]
      · simp only [h4, if_false]
        refine key (codepointBytes u3) _ _ ?_
        simp [codepointBytes, h4, view_escape_utf16]

theorem escapeScan_fuel (f1 f2 : Nat) (s : List Nat) (h1 : s.length ≤ f1)
    (h2 : s.length ≤ f2) : escapeScan f1 s = escapeScan f2 s := by
  unfold escapeScan
  rw [escape_loop_fuel f1 f2 _ s h1 h2]

theorem scanStep_congr (f g : List Nat → Option (List Nat × Bool)) (b : Nat) (s : List Nat)
    (h : ∀ s' : List Nat, s'.length ≤ s.length → f s' = g s') :
    scanStep f b s = scanStep g b s := by
  unfold scanStep
  simp only []
  split
  · rfl
  split
  · rw [h s le_rfl]
  split
  · rw [h s le_rfl]
  split
  · rfl
  · split
    · rfl
    · rename_i hc
      have hl := continuation_length _ _ _ _ _ _ hc
      rw [h _ hl]

theorem scan_nil : scan [] = none := rfl

theorem scan_cons (b : Nat) (s : List Nat) : scan (b :: s) = scanStep scan b s := by
  show escapeScan (s.length + 1) (b :: s) = _
  rw [escapeScan_succ_cons]
  apply scanStep_congr
  intro s' hs'
  exact escapeScan_fuel _ _ _ hs' le_rfl

theorem escape_string_view (w : grpc_json_writer) (s : List Nat) :
    (json_writer_escape_string w s).map view
      = (scan s).map (fun p => (view w).put ([34] ++ p.1 ++ [34])) := by
  unfold json_writer_escape_string scan
  have h := escape_loop_view s.length (json_writer_output_char w 34) s
  simp only [Option.map_map]
  have h1 := congrArg (Option.map (fun p : View × Bool => p.1.put [34])) h
  simp only [Option.map_map] at h1
  have e1 : (view ∘ fun r : grpc_json_writer × Bool => json_writer_output_char r.1 34)
      = ((fun p : View × Bool => p.1.put [34]) ∘ fun r => (view r.1, r.2)) := by
    funext r; simp [view_output_char]
  rw [e1, h1]
  congr 1
  funext p
  simp [view_output_char]

theorem continuation_zero : ∀ (extra utf32 : Nat) (s : List Nat),
    (∃ b ∈ s, b % 256 = 0) →
    ∃ v u s', json_writer_escape_continuation extra utf32 s = some (v, u, s')
      ∧ (v = true → ∃ b ∈ s', b % 256 = 0) := by
  intro extra
  induction extra with
  | zero =>
    intro utf32 s hz
    exact ⟨true, utf32, s, rfl, fun _ => hz⟩
  | succ n ih =>
    intro utf32 s hz
    cases s with
    | nil => simp at hz
    | cons b rest =>
      simp only [json_writer_escape_continuation]
      split
      · exact ⟨false, _, _, rfl, by simp⟩
      · rename_i hb
        have hb0 : b % 256 ≠ 0 := by
          intro h0; rw [h0] at hb; simp at hb
        have hz' : ∃ b ∈ rest, b % 256 = 0 := by
          obtain ⟨x, hx, hx0⟩ := hz
          rcases List.mem_cons.mp hx with rfl | hx
          · exact absurd hx0 hb0
          · exact ⟨x, hx, hx0⟩
        exact ih _ _ hz'

theorem scan_isSome : ∀ (n : Nat) (s : List Nat), s.length ≤ n → (∃ b ∈ s, b % 256 = 0) →
    (scan s).isSome = true := by
  intro n
  induction n with
  | zero =>
    intro s hl hz
    have : s = [] := List.length_eq_zero.mp (by omega)
    subst this; simp at hz
  | succ n ih =>
    intro s hl hz
    cases s with
    | nil => simp at hz
    | cons b rest =>
      simp only [List.length_cons, Nat.add_le_add_iff_right] at hl
      rw [scan_cons]
      unfold scanStep
      simp only []
      have hz' : b % 256 ≠ 0 → ∃ b ∈ rest, b % 256 = 0 := by
        intro hb0
        obtain ⟨x, hx, hx0⟩ := hz
        rcases List.mem_cons.mp hx with rfl | hx
        · exact absurd hx0 hb0
        · exact ⟨x, hx, hx0⟩
      split
      · rfl
      rename_i hb0
      have hs := ih rest hl (hz' hb0)
      split
      · simpa [scanCons] using hs
      split
      · simpa [scanCons] using hs
      split
      · rfl
      · rename_i u e _
        obtain ⟨v, u', s', hc, hv⟩ := continuation_zero e u rest (hz' hb0)
        rw [hc]
        simp only []
        have hl' := continuation_length _ _ _ _ _ _ hc
        split
        · rfl
        split
        · rfl
        · rename_i hv' _
          have : v = true := by simpa using hv'
          have hs' := ih s' (by omega) (hv this)
          simpa [scanCons] using hs'

theorem scan_cstr_isSome (s : List Nat) : (scan (cstr s)).isSome = true :=
  scan_isSome _ _ le_rfl ⟨0, by simp [cstr], rfl⟩

theorem escaped_eq (s : List Nat) : escaped s = [34] ++ escapedBody s ++ [34] := by
  unfold escaped escapedBody
  have h := escape_string_view (initial_writer 0) (cstr s)
  have hs := scan_cstr_isSome s
  obtain ⟨p, hp⟩ := Option.isSome_iff_exists.mp hs
  rw [hp] at h ⊢
  cases hw : json_writer_escape_string (initial_writer 0) (cstr s) with
  | none => rw [hw] at h; simp at h
  | some w' =>
    rw [hw] at h
    simp only [Option.map_some', Option.some.injEq] at h
    have := congrArg View.output h
    simp [initial_writer] at this
    simp [this]

theorem escape_string_cstr (w : grpc_json_writer) (s : List Nat) :
    ∃ w', json_writer_escape_string w (cstr s) = some w'
      ∧ view w' = (view w).put (escaped s) := by
  have h := escape_string_view w (cstr s)
  have hs := scan_cstr_isSome s
  obtain ⟨p, hp⟩ := Option.isSome_iff_exists.mp hs
  rw [hp] at h
  cases hw : json_writer_escape_string w (cstr s) with
  | none => rw [hw] at h; simp at h
  | some w' =>
    rw [hw] at h
    simp only [Option.map_some', Option.some.injEq] at h
    refine ⟨w', rfl, ?_⟩
    rw [h, escaped_eq]
    simp [escapedBody, hp]

theorem strlen_cstr (s : List Nat) : strlen (cstr s) = some (cbytes s).length := by
  induction s with
  | nil => simp [cstr, strlen, cbytes]
  | cons b rest ih =>
    simp only [cstr, List.cons_append, strlen, cbytes] at ih ⊢
    by_cases hb : b % 256 = 0
    · simp [hb, List.takeWhile]
    · simp [hb, List.takeWhile, ih]

theorem take_cstr (s : List Nat) : (cstr s).take (cbytes s).length = cbytes s := by
  induction s with
  | nil => simp [cstr, cbytes]
  | cons b rest ih =>
    simp only [cstr, List.cons_append, cbytes] at ih ⊢
    by_cases hb : b % 256 = 0
    · simp [hb, List.takeWhile]
    · simp [hb, List.takeWhile]
      simpa using ih

@[simp] theorem output_char_depth (w c) : (json_writer_output_char w c).depth = w.depth :=
  congrArg View.depth (view_output_char w c)
@[simp] theorem output_char_got_key (w c) : (json_writer_output_char w c).got_key = w.got_key :=
  congrArg View.got_key (view_output_char w c)
@[simp] theorem output_char_container_empty (w c) :
    (json_writer_output_char w c).container_empty = w.container_empty :=
  congrArg View.container_empty (view_output_char w c)
@[simp] theorem output_char_output (w c) :
    (json_writer_output_char w c).output = w.output ++ [c] :=
  congrArg View.output (view_output_char w c)

@[simp] theorem output_indent_indent (w) : (json_writer_output_indent w).indent = w.indent :=
  congrArg View.indent (view_output_indent w)
@[simp] theorem output_indent_depth (w) : (json_writer_output_indent w).depth = w.depth :=
  congrArg View.depth (view_output_indent w)
@[simp] theorem output_indent_got_key (w) : (json_writer_output_indent w).got_key = w.got_key :=
  congrArg View.got_key (view_output_indent w)
@[simp] theorem output_indent_container_empty (w) :
    (json_writer_output_indent w).container_empty = w.container_empty :=
  congrArg View.container_empty (view_output_indent w)

@[simp] theorem value_end_indent (w) : (json_writer_value_end w).indent = w.indent :=
  congrArg View.indent (view_value_end w)
@[simp] theorem value_end_depth (w) : (json_writer_value_end w).depth = w.depth :=
  congrArg View.depth (view_value_end w)
@[simp] theorem value_end_got_key (w) : (json_writer_value_end w).got_key = w.got_key :=
  congrArg View.got_key (view_value_end w)
@[simp] theorem value_end_container_empty (w) :
    (json_writer_value_end w).container_empty = 0 :=
  congrArg View.container_empty (view_value_end w)

theorem view_eq_iff (w : grpc_json_writer) (v : View) :
    view w = v ↔ w.indent = v.indent ∧ w.depth = v.depth
      ∧ w.container_empty = v.container_empty ∧ w.got_key = v.got_key
      ∧ w.output = v.output := by
  cases v
  simp [view]

theorem view_object_key (w : grpc_json_writer) (key : List Nat) :
    ∃ w', grpc_json_writer_object_key w (cstr key) = some w'
      ∧ view w' = { (view w).put (valueEndBytes w.indent w.depth w.container_empty
            ++ indentBytes w.indent w.depth w.got_key ++ escaped key ++ [58]) with
          container_empty := 0, got_key := 1 } := by
  unfold grpc_json_writer_object_key
  obtain ⟨w1, h1, h2⟩ := escape_string_cstr
    (json_writer_output_indent (json_writer_value_end w)) key
  simp only [h1, Option.map_some']
  refine ⟨_, rfl, ?_⟩
  rw [view_eq_iff] at h2 ⊢
  obtain ⟨a, b, c, d, e⟩ := h2
  simp only [View.put_indent, view_indent, output_indent_indent, value_end_indent,
    View.put_depth, view_depth, output_indent_depth, value_end_depth,
    View.put_container_empty, view_container_empty, output_indent_container_empty,
    value_end_container_empty, View.put_got_key, view_got_key, output_indent_got_key,
    value_end_got_key, View.put_output, view_output] at a b c d e
  have ho := congrArg View.output (view_output_indent (json_writer_value_end w))
  have hv := congrArg View.output (view_value_end w)
  simp at ho hv
  simp [a, b, c, e, ho, hv, view_output_char]

/-- Common start of the value operations: `if (!got_key) value_end; output_indent`. -/
theorem view_value_start (w : grpc_json_writer) :
    view (json_writer_output_indent
        (if w.got_key = 0 then json_writer_value_end w else w))
      = { (view w).put ((if w.got_key = 0 then
              valueEndBytes w.indent w.depth w.container_empty else [])
            ++ indentBytes w.indent w.depth w.got_key) with
          container_empty := if w.got_key = 0 then 0 else w.container_empty } := by
  rw [view_output_indent]
  by_cases hg : w.got_key = 0
  · simp only [hg, if_true, value_end_indent, value_end_depth, value_end_got_key, view_value_end]
    simp [View.put]
  · simp [hg, View.put, view]

@[simp] theorem output_indent_output (w) : (json_writer_output_indent w).output
    = w.output ++ indentBytes w.indent w.depth w.got_key :=
  congrArg View.output (view_output_indent w)
@[simp] theorem value_end_output (w) : (json_writer_value_end w).output
    = w.output ++ valueEndBytes w.indent w.depth w.container_empty :=
  congrArg View.output (view_value_end w)
@[simp] theorem output_string_with_len_indent (w s n) :
    (json_writer_output_string_with_len w s n).indent = w.indent :=
  congrArg View.indent (view_output_string_with_len w s n)
@[simp] theorem output_string_with_len_depth (w s n) :
    (json_writer_output_string_with_len w s n).depth = w.depth :=
  congrArg View.depth (view_output_string_with_len w s n)
@[simp] theorem output_string_with_len_got_key (w s n) :
    (json_writer_output_string_with_len w s n).got_key = w.got_key :=
  congrArg View.got_key (view_output_string_with_len w s n)
@[simp] theorem output_string_with_len_container_empty (w s n) :
    (json_writer_output_string_with_len w s n).container_empty = w.container_empty :=
  congrArg View.container_empty (view_output_string_with_len w s n)
@[simp] theorem output_string_with_len_output (w s n) :
    (json_writer_output_string_with_len w s n).output = w.output ++ s.take n :=
  congrArg View.output (view_output_string_with_len w s n)

theorem view_container_begins (w : grpc_json_writer) (ty : grpc_json_type) :
    view (grpc_json_writer_container_begins w ty)
      = { indent := w.indent, depth := w.depth + 1, container_empty := 1, got_key := 0,
          output := w.output ++ ((if w.got_key = 0 then
              valueEndBytes w.indent w.depth w.container_empty else [])
            ++ indentBytes w.indent w.depth w.got_key
            ++ [if ty = GRPC_JSON_OBJECT then 123 else 91]) } := by
  unfold grpc_json_writer_container_begins
  by_cases hg : w.got_key = 0 <;> simp [view, hg]

theorem view_container_ends (w : grpc_json_writer) (ty : grpc_json_type) :
    view (grpc_json_writer_container_ends w ty)
      = { indent := w.indent, depth := w.depth - 1, container_empty := 0, got_key := 0,
          output := w.output ++ ((if w.indent ≠ 0 ∧ w.container_empty = 0 then [10] else [])
            ++ (if w.container_empty = 0 then
                indentBytes w.indent (w.depth - 1) w.got_key else [])
            ++ [if ty = GRPC_JSON_OBJECT then 125 else 93]) } := by
  unfold grpc_json_writer_container_ends
  by_cases hc : w.container_empty = 0 <;> by_cases hi : w.indent = 0 <;> simp [view, hc, hi]

theorem view_value_raw_with_len (w : grpc_json_writer) (s : List Nat) (n : Nat) :
    view (grpc_json_writer_value_raw_with_len w s n)
      = { indent := w.indent, depth := w.depth,
          container_empty := if w.got_key = 0 then 0 else w.container_empty, got_key := 0,
          output := w.output ++ ((if w.got_key = 0 then
              valueEndBytes w.indent w.depth w.container_empty else [])
            ++ indentBytes w.indent w.depth w.got_key ++ s.take n) } := by
  unfold grpc_json_writer_value_raw_with_len
  by_cases hg : w.got_key = 0 <;> simp [view, hg]

theorem and_mask32 (x : Nat) (h : x < 2 ^ 32) : x &&& 0xffffff00 = x / 256 * 256 := by
  have hm : (0xffffff00 : Nat) = (2 ^ 24 - 1) <<< 8 := by decide
  have hx : x / 256 * 256 = (x >>> 8) <<< 8 := by
    simp [Nat.shiftLeft_eq, Nat.shiftRight_eq_div_pow]
  rw [hm, hx]
  apply Nat.eq_of_testBit_eq
  intro i
  simp only [Nat.testBit_and, Nat.testBit_shiftLeft, Nat.testBit_shiftRight,
    Nat.testBit_two_pow_sub_one]
  by_cases hi : 8 ≤ i
  · have e : 8 + (i - 8) = i := by omega
    simp only [hi, ge_iff_le, decide_True, Bool.true_and, e]
    by_cases h24 : i - 8 < 24
    · simp [h24]
    · have : x.testBit i = false := by
        apply Nat.testBit_lt_two_pow
        calc x < 2 ^ 32 := h
          _ ≤ 2 ^ i := Nat.pow_le_pow_right (by decide) (by omega)
      simp [this]
  · simp [hi]

/-- In every state the capacity check honours a request of fewer than `2^32 - 0xff`
bytes: the `memcpy` of that many bytes stays inside the allocation. -/
theorem output_check_exact (w : grpc_json_writer) (n : Nat) (h : n + 0xff < 2 ^ 32) :
    n ≤ (json_writer_output_check w n).free_space := by
  unfold json_writer_output_check
  by_cases hf : n ≤ w.free_space
  · simp [hf]
  · have h1 : (n - w.free_space + 255) % 2 ^ 64 = n - w.free_space + 255 :=
      Nat.mod_eq_of_lt (by omega)
    have h2 : (n - w.free_space + 255) &&& 0xffffff00 = (n - w.free_space + 255) / 256 * 256 :=
      and_mask32 _ (by omega)
    simp only [ge_iff_le, hf, if_false, h1, h2]
    have h3 : (w.free_space + (n - w.free_space + 255) / 256 * 256) % 2 ^ 64
        = w.free_space + (n - w.free_space + 255) / 256 * 256 := Nat.mod_eq_of_lt (by omega)
    rw [h3]
    omega

theorem output_string_cstr (w : grpc_json_writer) (v : List Nat)
    (hv : (cbytes v).length + 0xff < 2 ^ 32) :
    json_writer_output_string w (cstr v)
      = some (json_writer_output_string_with_len w (cstr v) (cbytes v).length) := by
  unfold json_writer_output_string
  have := output_check_exact w (cbytes v).length hv
  simp only [strlen_cstr, Option.some_bind]
  rw [if_neg (by omega)]

theorem view_value_raw (w : grpc_json_writer) (v : List Nat)
    (hv : (cbytes v).length + 0xff < 2 ^ 32) :
    ∃ w', grpc_json_writer_value_raw w (cstr v) = some w' ∧ view w'
      = { indent := w.indent, depth := w.depth,
          container_empty := if w.got_key = 0 then 0 else w.container_empty, got_key := 0,
          output := w.output ++ ((if w.got_key = 0 then
              valueEndBytes w.indent w.depth w.container_empty else [])
            ++ indentBytes w.indent w.depth w.got_key ++ cbytes v) } := by
  unfold grpc_json_writer_value_raw
  simp only [output_string_cstr _ v hv, Option.map_some']
  refine ⟨_, rfl, ?_⟩
  have h := view_value_raw_with_len w (cstr v) (cbytes v).length
  unfold grpc_json_writer_value_raw_with_len at h
  rw [take_cstr] at h
  exact h

theorem view_value_string (w : grpc_json_writer) (v : List Nat) :
    ∃ w', grpc_json_writer_value_string w (cstr v) = some w' ∧ view w'
      = { indent := w.indent, depth := w.depth,
          container_empty := if w.got_key = 0 then 0 else w.container_empty, got_key := 0,
          output := w.output ++ ((if w.got_key = 0 then
              valueEndBytes w.indent w.depth w.container_empty else [])
            ++ indentBytes w.indent w.depth w.got_key ++ escaped v) } := by
  unfold grpc_json_writer_value_string
  obtain ⟨w1, h1, h2⟩ := escape_string_cstr
    (json_writer_output_indent (if w.got_key = 0 then json_writer_value_end w else w)) v
  simp only [h1, Option.map_some']
  refine ⟨_, rfl, ?_⟩
  rw [view_eq_iff] at h2
  obtain ⟨a2, b2, c2, d2, e2⟩ := h2
  by_cases hg : w.got_key = 0 <;> simp [hg] at a2 b2 c2 e2 <;> simp [view, hg, a2, b2, c2, e2]

theorem view_object_key2 (w : grpc_json_writer) (key : List Nat) :
    ∃ w', grpc_json_writer_object_key w (cstr key) = some w' ∧ view w'
      = { indent := w.indent, depth := w.depth, container_empty := 0, got_key := 1,
          output := w.output ++ (valueEndBytes w.indent w.depth w.container_empty
            ++ indentBytes w.indent w.depth w.got_key ++ escaped key ++ [58]) } := by
  obtain ⟨w', h1, h2⟩ := view_object_key w key
  refine ⟨w', h1, ?_⟩
  rw [h2]
  simp [View.put]

theorem child_match (w : grpc_json_writer) (child : grpc_json) (io : Bool) :
    (if child.isNull then some w else json_dump_recursive w child io)
      = json_dump_recursive w child io := by
  cases child <;> simp [grpc_json.isNull, json_dump_recursive]

/-- State of the writer after the key of a node, when inside an object. -/
theorem key_step (w : grpc_json_writer) (io : Bool) (key : List Nat) (hg : w.got_key = 0) :
    ∃ w1, (if io then grpc_json_writer_object_key w (cstr key) else some w) = some w1
      ∧ w1.indent = w.indent ∧ w1.depth = w.depth
      ∧ (w1.got_key = 0 ∨ w1.container_empty = 0)
      ∧ w1.output ++ ((if w1.got_key = 0 then
              valueEndBytes w1.indent w1.depth w1.container_empty else [])
            ++ indentBytes w1.indent w1.depth w1.got_key)
          = w.output ++ leadBytes w.indent w.depth w.container_empty io key := by
  cases io with
  | false =>
    refine ⟨w, rfl, rfl, rfl, Or.inl hg, ?_⟩
    simp [hg, leadBytes]
  | true =>
    obtain ⟨w1, h1, h2⟩ := view_object_key2 w key
    rw [view_eq_iff] at h2
    obtain ⟨a, b, c, d, e⟩ := h2
    simp only at a b c d e
    refine ⟨w1, by simpa using h1, a, b, Or.inr c, ?_⟩
    simp [a, b, c, d, e, hg, leadBytes]

theorem dump_recursive_view : ∀ (t : grpc_json) (w : grpc_json_writer) (io : Bool),
    w.got_key = 0 → numbersShort t = true →
    ∃ w', json_dump_recursive w t io = some w' ∧ view w'
      = { indent := w.indent, depth := w.depth,
          container_empty := ceAfter w.container_empty t, got_key := 0,
          output := w.output ++ emitted w.indent w.depth io w.container_empty t } := by
  intro t
  induction t with
  | nil =>
    intro w io hg _
    refine ⟨w, rfl, ?_⟩
    simp [view, ceAfter, emitted, hg]
  | node ty key value child next ihc ihn =>
    intro w io hg hs
    have hsn : numbersShort next = true := by
      simp only [numbersShort, Bool.and_eq_true] at hs
      exact hs.2
    obtain ⟨w1, h1, hi1, hd1, hce1, ho1⟩ := key_step w io key hg
    rw [hi1, hd1] at ho1
    have ho1g : ∀ rest : List Nat, w1.output ++ ((if w1.got_key = 0 then
          valueEndBytes w.indent w.depth w1.container_empty else [])
        ++ (indentBytes w.indent w.depth w1.got_key ++ rest))
        = w.output ++ (leadBytes w.indent w.depth w.container_empty io key ++ rest) := by
      intro rest
      rw [← List.append_assoc, ← List.append_assoc, ← List.append_assoc w.output,
        List.append_assoc w1.output, ho1]
    have fin : ∀ (w2 : grpc_json_writer) (bytes : List Nat),
        view w2 = (⟨w.indent, w.depth, 0, 0,
          w.output ++ leadBytes w.indent w.depth w.container_empty io key ++ bytes⟩ : View) →
        ∃ w', json_dump_recursive w2 next io = some w' ∧ view w'
          = (⟨w.indent, w.depth, 0, 0,
              w.output ++ (leadBytes w.indent w.depth w.container_empty io key
                ++ bytes ++ emitted w.indent w.depth io 0 next)⟩ : View) := by
      intro w2 bytes hv2
      rw [view_eq_iff] at hv2
      obtain ⟨a, b, c, d, e⟩ := hv2
      simp only at a b c d e
      obtain ⟨w3, h3, hv3⟩ := ihn w2 io d hsn
      refine ⟨w3, h3, ?_⟩
      rw [hv3]
      cases next <;> simp [a, b, c, e, ceAfter, emitted]
    have cont : ∀ (ty : grpc_json_type) (io' : Bool), numbersShort child = true →
        ∃ w2, (json_dump_recursive (grpc_json_writer_container_begins w1 ty) child io').map
            (fun writer => grpc_json_writer_container_ends writer ty) = some w2
          ∧ view w2 = (⟨w.indent, w.depth, 0, 0,
              w.output ++ leadBytes w.indent w.depth w.container_empty io key
                ++ ([if ty = GRPC_JSON_OBJECT then 123 else 91]
                  ++ emitted w.indent (w.depth + 1) io' 1 child
                  ++ closeBytes w.indent w.depth child
                  ++ [if ty = GRPC_JSON_OBJECT then 125 else 93])⟩ : View) := by
      intro ty io' hsc
      have hb := view_container_begins w1 ty
      rw [view_eq_iff] at hb
      obtain ⟨a, b, c, d, e⟩ := hb
      simp only at a b c d e
      obtain ⟨wc, hc1, hc2⟩ := ihc (grpc_json_writer_container_begins w1 ty) io' d hsc
      rw [hc1]
      refine ⟨_, rfl, ?_⟩
      rw [view_container_ends]
      rw [view_eq_iff] at hc2
      obtain ⟨a', b', c', d', e'⟩ := hc2
      simp only at a' b' c' d' e'
      rw [a', b', c', d', e', a, b, c, e, hi1, hd1]
      simp only [List.append_assoc]
      rw [ho1g]
      cases child <;> simp [ceAfter, closeBytes, emitted, indentBytes]
    have scal : ∀ (w2 : grpc_json_writer) (bytes : List Nat),
        view w2 = (⟨w1.indent, w1.depth,
          if w1.got_key = 0 then 0 else w1.container_empty, 0,
          w1.output ++ ((if w1.got_key = 0 then
              valueEndBytes w1.indent w1.depth w1.container_empty else [])
            ++ indentBytes w1.indent w1.depth w1.got_key ++ bytes)⟩ : View) →
        view w2 = (⟨w.indent, w.depth, 0, 0,
          w.output ++ leadBytes w.indent w.depth w.container_empty io key ++ bytes⟩ : View) := by
      intro w2 bytes hv
      rw [hv, hi1, hd1]
      simp only [List.append_assoc]
      rw [ho1g]
      by_cases hg1 : w1.got_key = 0 <;> simp [hg1]
      exact hce1.resolve_left hg1
    cases ty with
    | GRPC_JSON_OBJECT =>
      obtain ⟨w2, h2, hv2⟩ := cont GRPC_JSON_OBJECT true
        (by simp only [numbersShort, Bool.and_eq_true] at hs; exact hs.1)
      obtain ⟨w3, h3, hv3⟩ := fin w2 _ hv2
      refine ⟨w3, ?_, ?_⟩
      · simp only [json_dump_recursive, h1, Option.some_bind, child_match, h2, h3]
      · rw [hv3]; simp [ceAfter, emitted]
    | GRPC_JSON_ARRAY =>
      obtain ⟨w2, h2, hv2⟩ := cont GRPC_JSON_ARRAY false
        (by simp only [numbersShort, Bool.and_eq_true] at hs; exact hs.1)
      obtain ⟨w3, h3, hv3⟩ := fin w2 _ hv2
      refine ⟨w3, ?_, ?_⟩
      · simp only [json_dump_recursive, h1, Option.some_bind, child_match, h2, h3]
      · rw [hv3]; simp [ceAfter, emitted]
    | GRPC_JSON_STRING =>
      obtain ⟨w2, h2, hv2⟩ := view_value_string w1 value
      obtain ⟨w3, h3, hv3⟩ := fin w2 _ (scal w2 _ hv2)
      refine ⟨w3, ?_, ?_⟩
      · simp only [json_dump_recursive, h1, Option.some_bind, h2, h3]
      · rw [hv3]; simp [ceAfter, emitted]
    | GRPC_JSON_NUMBER =>
      obtain ⟨w2, h2, hv2⟩ := view_value_raw w1 value
        (by simp only [numbersShort, Bool.and_eq_true, decide_eq_true_eq] at hs; exact hs.1)
      obtain ⟨w3, h3, hv3⟩ := fin w2 _ (scal w2 _ hv2)
      refine ⟨w3, ?_, ?_⟩
      · simp only [json_dump_recursive, h1, Option.some_bind, h2, h3]
      · rw [hv3]; simp [ceAfter, emitted]
    | GRPC_JSON_TRUE =>
      obtain ⟨w3, h3, hv3⟩ := fin _ _ (scal _ _ (view_value_raw_with_len w1 [116, 114, 117, 101, 0] 4))
      refine ⟨w3, ?_, ?_⟩
      · simp only [json_dump_recursive, h1, Option.some_bind, h3]
      · rw [hv3]; simp [ceAfter, emitted]
    | GRPC_JSON_FALSE =>
      obtain ⟨w3, h3, hv3⟩ := fin _ _ (scal _ _ (view_value_raw_with_len w1 [102, 97, 108, 115, 101, 0] 5))
      refine ⟨w3, ?_, ?_⟩
      · simp only [json_dump_recursive, h1, Option.some_bind, h3]
      · rw [hv3]; simp [ceAfter, emitted]
    | GRPC_JSON_NULL =>
      obtain ⟨w3, h3, hv3⟩ := fin _ _ (scal _ _ (view_value_raw_with_len w1 [110, 117, 108, 108, 0] 4))
      refine ⟨w3, ?_, ?_⟩
      · simp only [json_dump_recursive, h1, Option.some_bind, h3]
      · rw [hv3]; simp [ceAfter, emitted]

theorem dump_to_string_emitted (t : grpc_json) (k : Int) (hs : numbersShort t = true) :
    grpc_json_dump_to_string t k = some (emitted k 0 false 1 t ++ [0]) := by
  unfold grpc_json_dump_to_string
  obtain ⟨w', h1, h2⟩ := dump_recursive_view t (initial_writer k) false rfl hs
  rw [h1]
  have := congrArg View.output h2
  simp [initial_writer] at this
  simp [this]

theorem emitted_zero : ∀ (t : grpc_json) (d : Int) (io : Bool) (ce : Int),
    emitted 0 d io ce t
      = (if t.isNull then [] else if ce ≠ 0 then [] else [44]) ++ compact io t := by
  intro t
  induction t with
  | nil => intro d io ce; simp [emitted, compact, grpc_json.isNull]
  | node ty key value child next ihc ihn =>
    intro d io ce
    have hn : emitted 0 d io 0 next = (if next.isNull then [] else [44] ++ compact io next) := by
      rw [ihn]
      cases next <;> simp [grpc_json.isNull, compact]
    have hcl : closeBytes 0 d child = [] := by
      cases child <;> simp [closeBytes, indentBytes]
    have hch : ∀ io', emitted 0 (d + 1) io' 1 child = compact io' child := by
      intro io'
      rw [ihc]
      cases child <;> simp [grpc_json.isNull, compact]
    simp only [emitted, hn, hcl, hch, compact, leadBytes, valueEndBytes, indentBytes,
      grpc_json.isNull]
    cases ty <;> cases io <;> by_cases hce : ce = 0 <;> simp [hce]

theorem indentBytes_nat (k d : Nat) (hk : 0 < k) (h : d * k < 2 ^ 32) :
    indentBytes (k : Int) (d : Int) 0 = List.replicate (d * k) 32 := by
  unfold indentBytes
  have hk0 : (k : Int) ≠ 0 := by omega
  simp only [hk0, if_false, ne_eq, not_true_eq_false]
  congr 1
  have : ((d : Int) * (k : Int)) % 2 ^ 32 = ((d * k : Nat) : Int) := by
    rw [← Nat.cast_mul]
    have h2 : ((d * k : Nat) : Int) < 2 ^ 32 := by exact_mod_cast h
    exact Int.emod_eq_of_lt (by positivity) h2
  rw [this]
  exact Int.toNat_ofNat _

theorem nesting_next_le (ty : grpc_json_type) (key value : List Nat) (child next : grpc_json) :
    nesting next ≤ nesting (.node ty key value child next) := by
  simp [nesting]

theorem nesting_child_lt (ty : grpc_json_type) (key value : List Nat) (child next : grpc_json)
    (hty : ty = GRPC_JSON_OBJECT ∨ ty = GRPC_JSON_ARRAY) (hc : child.isNull = false) :
    nesting child + 1 ≤ nesting (.node ty key value child next) := by
  rcases hty with rfl | rfl <;> simp [nesting, hc]

theorem emitted_pretty (k : Nat) (hk : 0 < k) : ∀ (t : grpc_json) (d : Nat) (io : Bool)
    (ce : Int), (d + nesting t) * k < 2 ^ 32 →
    emitted (k : Int) (d : Int) io ce t
      = (if t.isNull then [] else valueEndBytes (k : Int) (d : Int) ce) ++ pretty k d io t := by
  intro t
  induction t with
  | nil => intro d io ce _; simp [emitted, pretty, grpc_json.isNull]
  | node ty key value child next ihc ihn =>
    intro d io ce hb
    have hk0 : (k : Int) ≠ 0 := by omega
    have hdk : d * k < 2 ^ 32 := by
      have : d * k ≤ (d + nesting (.node ty key value child next)) * k :=
        Nat.mul_le_mul_right k (Nat.le_add_right _ _)
      omega
    have hn : emitted (k : Int) (d : Int) io 0 next
        = (if next.isNull then [] else [44, 10] ++ pretty k d io next) := by
      rw [ihn d io 0 (by
        have := nesting_next_le ty key value child next
        have : (d + nesting next) * k ≤ (d + nesting (.node ty key value child next)) * k :=
          Nat.mul_le_mul_right k (by omega)
        omega)]
      cases next <;> simp [grpc_json.isNull, pretty, valueEndBytes, hk0]
    have hch : ∀ io', (ty = GRPC_JSON_OBJECT ∨ ty = GRPC_JSON_ARRAY) →
        emitted (k : Int) ((d : Int) + 1) io' 1 child
          = (if child.isNull then [] else [10] ++ pretty k (d + 1) io' child) := by
      intro io' hty
      cases hc : child.isNull with
      | true =>
        cases child with
        | nil => simp [emitted]
        | node _ _ _ _ _ => simp [grpc_json.isNull] at hc
      | false =>
        have h1 := nesting_child_lt ty key value child next hty hc
        have h2 : (d + 1 + nesting child) * k < 2 ^ 32 := by
          have : (d + 1 + nesting child) * k
              ≤ (d + nesting (.node ty key value child next)) * k :=
            Nat.mul_le_mul_right k (by omega)
          omega
        have := ihc (d + 1) io' 1 h2
        rw [Nat.cast_succ] at this
        rw [this]
        have hd1 : ((d : Int) + 1) ≠ 0 := by omega
        simp [hc, valueEndBytes, hk0, hd1]
    have hcl : closeBytes (k : Int) (d : Int) child
        = (if child.isNull then [] else [10] ++ List.replicate (d * k) 32) := by
      cases child <;> simp [closeBytes, grpc_json.isNull, indentBytes_nat k d hk hdk, hk0]
    have hi1 : indentBytes (k : Int) (d : Int) 1 = [32] := by simp [indentBytes, hk0]
    have hnn : (grpc_json.node ty key value child next).isNull = false := rfl
    simp only [emitted, hn, hcl, pretty, leadBytes, indentBytes_nat k d hk hdk, hi1, hnn]
    cases ty
    · rw [hch true (Or.inl rfl)]
      cases io <;> cases hc : child.isNull <;> simp [hc]
    · rw [hch false (Or.inr rfl)]
      cases io <;> cases hc : child.isNull <;> simp [hc]
    all_goals cases io <;> simp

theorem cbytes_of_nonzero (v : List Nat) (hv : ∀ b ∈ v, b % 256 ≠ 0) : cbytes v = v := by
  unfold cbytes
  rw [List.takeWhile_eq_self_iff]
  intro b hb
  simpa using hv b hb

theorem output_indent_initial (k : Int) :
    json_writer_output_indent (json_writer_value_end (initial_writer k))
      = { initial_writer k with container_empty := 0 } := by
  have h1 : json_writer_value_end (initial_writer k)
      = { initial_writer k with container_empty := 0 } := by
    simp [json_writer_value_end, initial_writer]
  rw [h1]
  unfold json_writer_output_indent
  by_cases hk : k = 0
  · simp [initial_writer, hk]
  · simp [initial_writer, hk, json_writer_output_indent_loop]

/-- A request of `2^32` bytes with no free byte grows the buffer by
`(2^32 + 0xff) & 0xffffff00 = 0` bytes. -/
theorem output_check_overrun (w : grpc_json_writer) (h : w.free_space = 0) :
    (json_writer_output_check w (2 ^ 32)).free_space = 0 := by
  unfold json_writer_output_check
  have hf : ¬w.free_space ≥ 2 ^ 32 := by rw [h]; decide
  rw [if_neg hf]
  show (w.free_space + (((2 ^ 32 - w.free_space + 0xff) % 2 ^ 64) &&& 0xffffff00)) % 2 ^ 64 = 0
  rw [h]
  decide

/-- The first node of the dump is a NUMBER whose value has `2^32` bytes: the capacity check
leaves the zeroed buffer as it is, and the copy of the value does not fit. -/
theorem value_raw_overrun (v : List Nat) (k : Int) (hz : ∀ b ∈ v, b % 256 ≠ 0)
    (hl : v.length = 2 ^ 32) :
    grpc_json_writer_value_raw (initial_writer k) (cstr v) = none := by
  unfold grpc_json_writer_value_raw
  have hg : (initial_writer k).got_key = 0 := rfl
  simp only [hg, if_true, output_indent_initial]
  unfold json_writer_output_string
  rw [strlen_cstr, cbytes_of_nonzero v hz, hl]
  rw [Option.some_bind, if_pos (by rw [output_check_overrun _ rfl]; decide)]
  rfl

theorem dump_number_overrun (key v : List Nat) (child next : grpc_json) (k : Int)
    (hz : ∀ b ∈ v, b % 256 ≠ 0) (hl : v.length = 2 ^ 32) :
    json_dump_recursive (initial_writer k) (.node GRPC_JSON_NUMBER key v child next) false
      = none := by
  rw [json_dump_recursive]
  simp [value_raw_overrun v k hz hl]

theorem replicate_nonzero (n : Nat) : ∀ b ∈ List.replicate n 49, b % 256 ≠ 0 := by
  intro b hb
  rw [List.eq_of_mem_replicate hb]
  decide

/-- C2 (as amended): for every tree whose NUMBER values are shorter than `2^32 - 0xff` bytes
and every `k > 0` such that `depth * k` stays below `2 ^ 31` at every depth reached, the dump
is the pretty rendering followed by `0x00`. -/
theorem C2_pretty_dump (t : grpc_json) (k : Nat) (hk : 0 < k)
    (hb : nesting t * k < 2 ^ 31) (hs : numbersShort t = true) :
    grpc_json_dump_to_string t (k : Int) = some (pretty k 0 false t ++ [0]) := by
  rw [dump_to_string_emitted t k hs]
  have := emitted_pretty k hk t 0 false 1 (by simp; omega)
  simp only [Nat.cast_zero] at this
  rw [this]
  cases t <;> simp [grpc_json.isNull, valueEndBytes]

/-- C2, witness: the tree `{"a": 1, "b": [true, null]}` with `k = 2`. -/
theorem C2_pretty_dump_witness :
    grpc_json_dump_to_string exampleTree 2
      = some [123, 10, 32, 32, 34, 97, 34, 58, 32, 49, 44, 10, 32, 32, 34, 98, 34, 58, 32,
          91, 10, 32, 32, 32, 32, 116, 114, 117, 101, 44, 10, 32, 32, 32, 32, 110, 117, 108,
          108, 10, 32, 32, 93, 10, 125, 0] :=
  (C2_pretty_dump exampleTree 2 (by decide) (by decide) rfl).trans rfl

theorem length_indentBytes (k d : Int) (hk : k ≠ 0) :
    (indentBytes k d 0).length = ((d * k) % 2 ^ 32).toNat := by
  simp [indentBytes, hk]

theorem length_emitted_deepTree (k : Int) (hk : k ≠ 0) :
    (emitted k 0 false 1 deepTree).length
      = 20 + 2 * (((1 * k) % 2 ^ 32).toNat + ((2 * k) % 2 ^ 32).toNat
          + ((3 * k) % 2 ^ 32).toNat) + ((4 * k) % 2 ^ 32).toNat
        + ((0 * k) % 2 ^ 32).toNat * 2 := by
  simp only [deepTree, emitted, leadBytes, valueEndBytes, closeBytes, List.length_append,
    length_indentBytes _ _ hk, hk, if_false, List.length_cons, List.length_nil]
  simp
  omega

theorem length_pretty_deepTree (k : Nat) :
    (pretty k 0 false deepTree).length = 20 + 2 * (k + 2 * k + 3 * k) + 4 * k := by
  simp [deepTree, pretty, grpc_json.isNull]
  ring

/-- C2, counterexample: for `[[[[null]]]]` and `k = 2 ^ 30` the product `depth * indent`
reaches `2 ^ 32` at depth 4, and the dump is not the pretty rendering. -/
theorem C2_pretty_dump_counterexample :
    grpc_json_dump_to_string deepTree ((2 ^ 30 : Nat) : Int)
      ≠ some (pretty (2 ^ 30) 0 false deepTree ++ [0]) := by
  rw [dump_to_string_emitted deepTree _ rfl]
  intro h
  have h1 := congrArg (fun o => (o.map List.length).getD 0) h
  simp only [Option.map_some', Option.getD_some, List.length_append, length_pretty_deepTree,
    length_emitted_deepTree _ (by decide : ((2 ^ 30 : Nat) : Int) ≠ 0)] at h1
  revert h1
  decide

theorem hex_getD : ∀ n, n < 16 → hex.getD n 0 = hexDigit n := by decide

theorem utf16Bytes_eq (x : Nat) : utf16Bytes x = uEscape x := by
  unfold utf16Bytes uEscape
  have h15 : (0x0f : Nat) = 2 ^ 4 - 1 := by norm_num
  simp only [h15, Nat.and_pow_two_sub_one_eq_mod, Nat.shiftRight_eq_div_pow]
  have h : ∀ y : Nat, hex.getD (y % 2 ^ 4) 0 = hexDigit (y % 16) := fun y =>
    hex_getD _ (Nat.mod_lt _ (by norm_num))
  rw [h, h, h, h]

theorem controlBytes_eq : ∀ c, c < 256 → controlBytes c = controlEscape c := by
  intro c hc
  unfold controlBytes controlEscape
  rw [utf16Bytes_eq]
  unfold uEscape
  have h1 : c / 4096 % 16 = 0 := by omega
  have h2 : c / 256 % 16 = 0 := by omega
  have h3 : c / 16 % 16 = c / 16 := by omega
  rw [h1, h2, h3]
  rfl

theorem asciiBytes_eq (c : Nat) : asciiBytes c = asciiEscape c := by
  unfold asciiBytes asciiEscape
  by_cases h : c = 34 ∨ c = 92
  · have h' : c = 92 ∨ c = 34 := h.symm
    simp [h, h']
  · have h' : ¬(c = 92 ∨ c = 34) := fun x => h x.symm
    simp [h, h']

theorem loop_step_ascii (b fuel : Nat) (w : grpc_json_writer) (rest : List Nat)
    (h1 : 32 ≤ b % 256) (h2 : b % 256 ≤ 126) :
    ∃ w', json_writer_escape_loop (fuel + 1) w (b :: rest)
        = json_writer_escape_loop fuel w' rest
      ∧ view w' = (view w).put (asciiEscape (b % 256)) := by
  have h0 : b % 256 ≠ 0 := by omega
  simp only [json_writer_escape_loop, h0, if_false, h1, h2, ge_iff_le, and_self, if_true]
  refine ⟨_, rfl, ?_⟩
  rw [← asciiBytes_eq]
  unfold asciiBytes
  split <;> simp [view_output_char]

theorem loop_step_control (b fuel : Nat) (w : grpc_json_writer) (rest : List Nat)
    (h0 : b % 256 ≠ 0) (h1 : b % 256 < 32 ∨ b % 256 = 127) :
    ∃ w', json_writer_escape_loop (fuel + 1) w (b :: rest)
        = json_writer_escape_loop fuel w' rest
      ∧ view w' = (view w).put (controlEscape (b % 256)) := by
  have h2 : ¬(b % 256 ≥ 32 ∧ b % 256 ≤ 126) := by omega
  simp only [json_writer_escape_loop, h0, if_false, h2, h1, if_true]
  refine ⟨_, rfl, ?_⟩
  rw [← controlBytes_eq _ (Nat.mod_lt _ (by norm_num))]
  unfold controlBytes
  repeat' split
  all_goals simp [view_output_string_with_len, view_escape_utf16]

theorem loop_step_multi (b fuel : Nat) (w : grpc_json_writer) (rest rest' : List Nat)
    (u e u' : Nat) (hb : 128 ≤ b % 256) (hl : leadInfo (b % 256) = some (u, e))
    (hc : json_writer_escape_continuation e u rest = some (true, u', rest'))
    (hv : ¬((u' ≥ 0xd800 ∧ u' ≤ 0xdfff) ∨ u' ≥ 0x110000)) :
    ∃ w', json_writer_escape_loop (fuel + 1) w (b :: rest)
        = json_writer_escape_loop fuel w' rest'
      ∧ view w' = (view w).put (codepointBytes u') := by
  have h0 : b % 256 ≠ 0 := by omega
  have h2 : ¬(b % 256 ≥ 32 ∧ b % 256 ≤ 126) := by omega
  have h3 : ¬(b % 256 < 32 ∨ b % 256 = 127) := by omega
  unfold leadInfo at hl
  simp only [json_writer_escape_loop, h0, if_false, h2, h3, hl, hc, hv, Bool.not_true]
  by_cases h4 : u' ≥ 0x10000
  · simp only [h4, if_true]
    refine ⟨_, rfl, ?_⟩
    simp [codepointBytes, h4, view_escape_utf16]
  · simp only [h4, if_false]
    refine ⟨_, rfl, ?_⟩
    simp [codepointBytes, h4, view_escape_utf16]

theorem cont_byte_bits : ∀ x, x < 64 →
    (128 + x) % 256 = 128 + x ∧ (128 + x) &&& 192 = 128 ∧ (128 + x) &&& 63 = x := by
  decide

theorem shift_or (u x : Nat) (hu : u * 64 < 2 ^ 32) (hx : x < 64) :
    ((u <<< 6) % 2 ^ 32) ||| x = u * 64 + x := by
  rw [Nat.shiftLeft_eq, Nat.mod_eq_of_lt (by simpa using hu)]
  have := Nat.mul_add_lt_is_or (i := 6) (b := x) (by simpa using hx) u
  rw [Nat.mul_comm u (2 ^ 6), ← this]

theorem continuation_step (e u x : Nat) (rest : List Nat) (hu : u * 64 < 2 ^ 32)
    (hx : x < 64) :
    json_writer_escape_continuation (e + 1) u ((128 + x) :: rest)
      = json_writer_escape_continuation e (u * 64 + x) rest := by
  obtain ⟨h1, h2, h3⟩ := cont_byte_bits x hx
  simp only [json_writer_escape_continuation, h1, h2, h3, ne_eq, not_true_eq_false, if_false,
    shift_or u x hu hx]

theorem lead2 : ∀ a, a < 32 → (192 + a) % 256 = 192 + a ∧ leadInfo (192 + a) = some (a, 1) := by
  decide

theorem lead3 : ∀ a, a < 16 → (224 + a) % 256 = 224 + a ∧ leadInfo (224 + a) = some (a, 2) := by
  decide

theorem lead4 : ∀ a, a < 8 → (240 + a) % 256 = 240 + a ∧ leadInfo (240 + a) = some (a, 3) := by
  decide

theorem surrogate_values (cp : Nat) (h1 : 0x10000 ≤ cp) (h2 : cp ≤ 0x10FFFF) :
    highSurrogate cp = 0xD800 + (cp - 0x10000) / 1024
      ∧ lowSurrogate cp = 0xDC00 + (cp - 0x10000) % 1024 := by
  unfold highSurrogate lowSurrogate
  have e1 : (0x3FF : Nat) = 2 ^ 10 - 1 := by norm_num
  rw [e1, Nat.and_pow_two_sub_one_eq_mod, Nat.shiftRight_eq_div_pow]
  have hx : (cp - 0x10000) / 2 ^ 10 < 2 ^ 10 := by
    have : (2:Nat) ^ 10 = 1024 := by norm_num
    omega
  have hy : (cp - 0x10000) % 2 ^ 10 < 2 ^ 10 := Nat.mod_lt _ (by norm_num)
  have a := Nat.mul_add_lt_is_or hx 54
  have b := Nat.mul_add_lt_is_or hy 55
  have e2 : (0xD800 : Nat) = 2 ^ 10 * 54 := by norm_num
  have e3 : (0xDC00 : Nat) = 2 ^ 10 * 55 := by norm_num
  rw [e2, e3, ← a, ← b]
  norm_num

theorem scan_zero (b : Nat) (rest : List Nat) (h : b % 256 = 0) :
    scan (b :: rest) = some ([], true) := by
  rw [scan_cons]; simp [scanStep, h]

theorem scan_ascii (b : Nat) (rest : List Nat) (h1 : 32 ≤ b % 256) (h2 : b % 256 ≤ 126) :
    scan (b :: rest) = scanCons (asciiEscape (b % 256)) (scan rest) := by
  have h0 : b % 256 ≠ 0 := by omega
  rw [scan_cons]; simp [scanStep, h0, h1, h2, asciiBytes_eq]

theorem scan_control (b : Nat) (rest : List Nat) (h0 : b % 256 ≠ 0)
    (h1 : b % 256 < 32 ∨ b % 256 = 127) :
    scan (b :: rest) = scanCons (controlEscape (b % 256)) (scan rest) := by
  have h2 : ¬(32 ≤ b % 256 ∧ b % 256 ≤ 126) := by omega
  rw [scan_cons]
  simp only [scanStep, h0, if_false, ge_iff_le, h2, h1, if_true,
    controlBytes_eq _ (Nat.mod_lt b (by norm_num : 256 > 0))]

theorem scan_bad_lead (b : Nat) (rest : List Nat) (hb : 128 ≤ b % 256)
    (hl : leadInfo (b % 256) = none) : scan (b :: rest) = some ([], false) := by
  have h0 : b % 256 ≠ 0 := by omega
  have h2 : ¬(32 ≤ b % 256 ∧ b % 256 ≤ 126) := by omega
  have h3 : ¬(b % 256 < 32 ∨ b % 256 = 127) := by omega
  rw [scan_cons]
  simp only [scanStep, h0, if_false, ge_iff_le, h2, h3, hl]

theorem scan_multi_invalid (b : Nat) (rest rest' : List Nat) (u e u' : Nat)
    (hb : 128 ≤ b % 256) (hl : leadInfo (b % 256) = some (u, e))
    (hc : json_writer_escape_continuation e u rest = some (false, u', rest')) :
    scan (b :: rest) = some ([], false) := by
  have h0 : b % 256 ≠ 0 := by omega
  have h2 : ¬(32 ≤ b % 256 ∧ b % 256 ≤ 126) := by omega
  have h3 : ¬(b % 256 < 32 ∨ b % 256 = 127) := by omega
  rw [scan_cons]
  simp only [scanStep, h0, if_false, ge_iff_le, h2, h3, hl, hc, Bool.not_false, if_true]

theorem scan_multi_reject (b : Nat) (rest rest' : List Nat) (u e u' : Nat)
    (hb : 128 ≤ b % 256) (hl : leadInfo (b % 256) = some (u, e))
    (hc : json_writer_escape_continuation e u rest = some (true, u', rest'))
    (hv : (u' ≥ 0xd800 ∧ u' ≤ 0xdfff) ∨ u' ≥ 0x110000) :
    scan (b :: rest) = some ([], false) := by
  have h0 : b % 256 ≠ 0 := by omega
  have h2 : ¬(32 ≤ b % 256 ∧ b % 256 ≤ 126) := by omega
  have h3 : ¬(b % 256 < 32 ∨ b % 256 = 127) := by omega
  rw [scan_cons]
  simp only [scanStep, h0, if_false, ge_iff_le, h2, h3, hl, hc, Bool.not_true, hv, if_true]
  simp

theorem scan_multi_ok (b : Nat) (rest rest' : List Nat) (u e u' : Nat)
    (hb : 128 ≤ b % 256) (hl : leadInfo (b % 256) = some (u, e))
    (hc : json_writer_escape_continuation e u rest = some (true, u', rest'))
    (hv : ¬((u' ≥ 0xd800 ∧ u' ≤ 0xdfff) ∨ u' ≥ 0x110000)) :
    scan (b :: rest) = scanCons (codepointBytes u') (scan rest') := by
  have h0 : b % 256 ≠ 0 := by omega
  have h2 : ¬(32 ≤ b % 256 ∧ b % 256 ≤ 126) := by omega
  have h3 : ¬(b % 256 < 32 ∨ b % 256 = 127) := by omega
  rw [scan_cons]
  simp only [scanStep, h0, if_false, ge_iff_le, h2, h3, hl, hc, Bool.not_true, hv]
  simp

theorem escape_string_of_scan (w : grpc_json_writer) (s body : List Nat) (flag : Bool)
    (h : scan s = some (body, flag)) :
    ∃ w', json_writer_escape_string w s = some w'
      ∧ w'.output = w.output ++ [34] ++ body ++ [34] := by
  have hv := escape_string_view w s
  rw [h] at hv
  cases hw : json_writer_escape_string w s with
  | none => rw [hw] at hv; simp at hv
  | some w' =>
    rw [hw] at hv
    simp only [Option.map_some', Option.some.injEq] at hv
    refine ⟨w', rfl, ?_⟩
    have := congrArg View.output hv
    simpa using this

theorem scan_printable (s : List Nat) (hs : ∀ b ∈ s, 0x20 ≤ b ∧ b ≤ 0x7E) :
    scan (cstr s) = some (s.flatMap asciiEscape, true) := by
  induction s with
  | nil => exact scan_zero 0 [] rfl
  | cons b rest ih =>
    have hb := hs b (List.mem_cons_self _ _)
    have hm : b % 256 = b := Nat.mod_eq_of_lt (by omega)
    have := scan_ascii b (cstr rest) (by omega) (by omega)
    rw [hm] at this
    show scan (b :: cstr rest) = _
    rw [this, ih (fun x hx => hs x (List.mem_cons_of_mem _ hx))]
    simp [scanCons]

/-- C9: for a string of printable ASCII bytes `0x20..0x7E` the escaper writes `"`, each
byte in order (verbatim, `"` and `\` each preceded by one backslash), then `"`. -/
theorem C9_printable_ascii (s : List Nat) (hs : ∀ b ∈ s, 0x20 ≤ b ∧ b ≤ 0x7E)
    (w : grpc_json_writer) :
    ∃ w', json_writer_escape_string w (cstr s) = some w'
      ∧ w'.output = w.output ++ [34] ++ s.flatMap asciiEscape ++ [34] :=
  escape_string_of_scan w (cstr s) _ true (scan_printable s hs)

/-- C9, witness: the input `a"b\c` is written as `"a\"b\\c"`. -/
theorem C9_printable_ascii_witness :
    ∃ w', json_writer_escape_string (initial_writer 0) (cstr [97, 34, 98, 92, 99]) = some w'
      ∧ w'.output = [34, 97, 92, 34, 98, 92, 92, 99, 34] :=
  C9_printable_ascii [97, 34, 98, 92, 99] (by decide) (initial_writer 0)

/-- C10: when the loop reads a control byte `c` (`0x01 ≤ c < 0x20` or `c = 0x7F`) it writes
the two-character escape for `\b \f \n \r \t`, otherwise the six characters `\u00XX` in
lowercase hexadecimal, and goes on with the next byte; the string that consists of `c` alone
is written as that escape between quotes. -/
theorem C10_control_byte (c : Nat) (hc : (0x01 ≤ c ∧ c < 0x20) ∨ c = 0x7F) (fuel : Nat)
    (w : grpc_json_writer) (rest : List Nat) :
    (∃ w', json_writer_escape_loop (fuel + 1) w (c :: rest)
          = json_writer_escape_loop fuel w' rest
        ∧ w'.output = w.output ++ controlEscape c)
      ∧ ∃ w', json_writer_escape_string w (cstr [c]) = some w'
        ∧ w'.output = w.output ++ [34] ++ controlEscape c ++ [34] := by
  have hm : c % 256 = c := Nat.mod_eq_of_lt (by omega)
  constructor
  · obtain ⟨w', h1, h2⟩ := loop_step_control c fuel w rest (by omega) (by omega)
    refine ⟨w', h1, ?_⟩
    have := congrArg View.output h2
    rw [hm] at this
    simpa using this
  · have hs : scan (cstr [c]) = some (controlEscape c, true) := by
      show scan (c :: [0]) = _
      rw [scan_control c _ (by omega) (by omega), hm, scan_zero 0 [] rfl]
      simp [scanCons]
    exact escape_string_of_scan w _ _ _ hs

/-- C10, witness: the byte `0x07` is written as `\u0007`. -/
theorem C10_control_byte_witness :
    (∃ w', json_writer_escape_loop 2 (initial_writer 0) [0x07, 0]
          = json_writer_escape_loop 1 w' [0]
        ∧ w'.output = [92, 117, 48, 48, 48, 55])
      ∧ ∃ w', json_writer_escape_string (initial_writer 0) (cstr [0x07]) = some w'
        ∧ w'.output = [34, 92, 117, 48, 48, 48, 55, 34] :=
  C10_control_byte 0x07 (by decide) 1 (initial_writer 0) [0]

set_option maxRecDepth 100000 in
theorem bad_lead_info : ∀ b, b < 256 → (0x80 ≤ b ∧ b ≤ 0xBF) ∨ (0xF8 ≤ b ∧ b ≤ 0xFF) →
    leadInfo b = none := by
  decide

set_option maxRecDepth 100000 in
theorem leadExtra_info : ∀ b, b < 256 → ∀ e, leadExtra b = some e →
    128 ≤ b ∧ ∃ u, leadInfo b = some (u, e) := by
  intro b hb e he
  have key : ∀ b, b < 256 → (leadExtra b).isSome = true →
      128 ≤ b ∧ (leadInfo b).map (·.2) = leadExtra b := by decide
  obtain ⟨h1, h2⟩ := key b hb (by rw [he]; rfl)
  refine ⟨h1, ?_⟩
  rw [he] at h2
  cases hl : leadInfo b with
  | none => rw [hl] at h2; simp at h2
  | some p =>
    rw [hl] at h2
    simp at h2
    exact ⟨p.1, by rw [← h2]⟩

theorem leadExtra_lt (b e : Nat) (h : leadExtra b = some e) : b < 256 := by
  unfold leadExtra at h
  split at h
  · omega
  split at h
  · omega
  split at h
  · omega
  · simp at h

set_option maxRecDepth 100000 in
theorem cont_bits : ∀ c, c < 256 → ((0x80 ≤ c ∧ c ≤ 0xBF) ↔ c &&& 0xc0 = 0x80) := by
  decide

theorem continuation_defect : ∀ (conts : List Nat) (e u x : Nat) (tail : List Nat),
    conts.length < e → (∀ c ∈ conts, isContinuation c) → ¬isContinuation (x % 256) →
    ∃ u' rest', json_writer_escape_continuation e u (conts ++ x :: tail)
      = some (false, u', rest') := by
  intro conts
  induction conts with
  | nil =>
    intro e u x tail hl _ hx
    obtain ⟨n, rfl⟩ : ∃ n, e = n + 1 := ⟨e - 1, by simp at hl; omega⟩
    have hx' : x % 256 &&& 0xc0 ≠ 0x80 := fun h =>
      hx ((cont_bits _ (Nat.mod_lt _ (by norm_num))).mpr h)
    simp only [List.nil_append, json_writer_escape_continuation, ne_eq, hx',
      not_false_eq_true, if_true]
    exact ⟨_, _, rfl⟩
  | cons c rest ih =>
    intro e u x tail hl hc hx
    obtain ⟨n, rfl⟩ : ∃ n, e = n + 1 := ⟨e - 1, by simp at hl; omega⟩
    have hcc := hc c (List.mem_cons_self _ _)
    have hc256 : c % 256 = c := Nat.mod_eq_of_lt (by unfold isContinuation at hcc; omega)
    have hcb : c &&& 0xc0 = 0x80 :=
      (cont_bits c (by unfold isContinuation at hcc; omega)).mp hcc
    simp only [List.cons_append, json_writer_escape_continuation, hc256, hcb, ne_eq,
      not_true_eq_false, if_false]
    exact ih n _ x tail (by simp at hl; omega) (fun y hy => hc y (List.mem_cons_of_mem _ hy)) hx

theorem scan_defective (q : List Nat) (hq : Defective q) :
    scan (cstr q) = some ([], false) := by
  rcases hq with ⟨b, tail, rfl, hb⟩ | ⟨l, e, conts, x, tail, rfl, hl, hlen, hc, hx⟩
    | ⟨l, e, conts, rfl, hl, hlen, hc⟩
  · have h256 : b < 256 := by omega
    have hm : b % 256 = b := Nat.mod_eq_of_lt h256
    exact scan_bad_lead b _ (by omega) (by rw [hm]; exact bad_lead_info b h256 hb)
  · have h256 := leadExtra_lt l e hl
    have hm : l % 256 = l := Nat.mod_eq_of_lt h256
    obtain ⟨h128, u, hu⟩ := leadExtra_info l h256 e hl
    obtain ⟨u', rest', hcont⟩ := continuation_defect conts e u x (tail ++ [0]) hlen hc hx
    refine scan_multi_invalid l _ rest' u e u' (by omega) (by rw [hm]; exact hu) ?_
    simpa [cstr] using hcont
  · have h256 := leadExtra_lt l e hl
    have hm : l % 256 = l := Nat.mod_eq_of_lt h256
    obtain ⟨h128, u, hu⟩ := leadExtra_info l h256 e hl
    obtain ⟨u', rest', hcont⟩ := continuation_defect conts e u 0 [] hlen hc
      (by unfold isContinuation; omega)
    exact scan_multi_invalid l _ rest' u e u' (by omega) (by rw [hm]; exact hu) hcont

theorem scanCons_nil (r : Option (List Nat × Bool)) : scanCons [] r = r := by
  cases r <;> simp [scanCons]

theorem scanCons_scanCons (a b : List Nat) (r : Option (List Nat × Bool)) :
    scanCons a (scanCons b r) = scanCons (a ++ b) r := by
  cases r <;> simp [scanCons]

theorem scanCons_eq_some (a : List Nat) (r : Option (List Nat × Bool)) (body : List Nat)
    (f : Bool) (h : scanCons a r = some (body, f)) :
    ∃ body', r = some (body', f) ∧ body = a ++ body' := by
  cases r with
  | none => simp [scanCons] at h
  | some p =>
    simp [scanCons] at h
    exact ⟨p.1, by rw [← h.2], h.1.symm⟩

theorem continuation_append : ∀ (e u : Nat) (a : List Nat) (u' : Nat) (s' : List Nat),
    json_writer_escape_continuation e u (a ++ [0]) = some (true, u', s') →
    ∃ a', s' = a' ++ [0] ∧ a'.length ≤ a.length ∧ (∀ x ∈ a', x ∈ a)
      ∧ ∀ rest, json_writer_escape_continuation e u (a ++ rest) = some (true, u', a' ++ rest) := by
  intro e
  induction e with
  | zero =>
    intro u a u' s' h
    simp only [json_writer_escape_continuation, Option.some.injEq, Prod.mk.injEq, true_and] at h
    obtain ⟨rfl, rfl⟩ := h
    exact ⟨a, rfl, le_rfl, fun _ hx => hx, fun rest => rfl⟩
  | succ n ih =>
    intro u a u' s' h
    cases a with
    | nil =>
      simp [json_writer_escape_continuation] at h
    | cons x a1 =>
      simp only [List.cons_append, json_writer_escape_continuation] at h ⊢
      split at h
      · simp at h
      · rename_i hx
        obtain ⟨a', h1, h2, hm, h3⟩ := ih _ a1 u' s' h
        refine ⟨a', h1, by simp; omega, fun y hy => List.mem_cons_of_mem _ (hm y hy),
          fun rest => ?_⟩
        simp only [hx, if_false]
        exact h3 rest

theorem scan_consumed_append : ∀ (n : Nat) (p : List Nat), p.length ≤ n →
    (∀ b ∈ p, b % 256 ≠ 0) → ∀ body, scan (p ++ [0]) = some (body, true) →
    ∀ rest, scan (p ++ rest) = scanCons body (scan rest) := by
  intro n
  induction n with
  | zero =>
    intro p hl _ body h rest
    have : p = [] := List.length_eq_zero.mp (by omega)
    subst this
    rw [List.nil_append, scan_zero 0 [] rfl] at h
    simp only [Option.some.injEq, Prod.mk.injEq, and_true] at h
    rw [← h, scanCons_nil]; rfl
  | succ n ih =>
    intro p hl hz body h rest
    cases p with
    | nil =>
      rw [List.nil_append, scan_zero 0 [] rfl] at h
      simp only [Option.some.injEq, Prod.mk.injEq, and_true] at h
      rw [← h, scanCons_nil]; rfl
    | cons b p' =>
      have hb0 : b % 256 ≠ 0 := hz b (List.mem_cons_self _ _)
      have hz' : ∀ x ∈ p', x % 256 ≠ 0 := fun x hx => hz x (List.mem_cons_of_mem _ hx)
      simp only [List.length_cons, Nat.add_le_add_iff_right] at hl
      simp only [List.cons_append] at h ⊢
      by_cases ha : 32 ≤ b % 256 ∧ b % 256 ≤ 126
      · rw [scan_ascii b _ ha.1 ha.2] at h ⊢
        obtain ⟨body', h1, rfl⟩ := scanCons_eq_some _ _ _ _ h
        rw [ih p' hl hz' body' h1 rest, scanCons_scanCons]
      by_cases hc : b % 256 < 32 ∨ b % 256 = 127
      · rw [scan_control b _ hb0 hc] at h ⊢
        obtain ⟨body', h1, rfl⟩ := scanCons_eq_some _ _ _ _ h
        rw [ih p' hl hz' body' h1 rest, scanCons_scanCons]
      have h128 : 128 ≤ b % 256 := by omega
      cases hl1 : leadInfo (b % 256) with
      | none =>
        rw [scan_bad_lead b _ h128 hl1] at h
        simp at h
      | some ue =>
        obtain ⟨u, e⟩ := ue
        cases hcn : json_writer_escape_continuation e u (p' ++ [0]) with
        | none =>
          rw [scan_cons] at h
          have h0' : ¬(b % 256 ≥ 32 ∧ b % 256 ≤ 126) := ha
          simp [scanStep, hb0, h0', hc, hl1, hcn] at h
        | some r =>
          obtain ⟨v, u', s'⟩ := r
          cases v with
          | false =>
            rw [scan_multi_invalid b _ s' u e u' h128 hl1 hcn] at h
            simp at h
          | true =>
            by_cases hv : (u' ≥ 0xd800 ∧ u' ≤ 0xdfff) ∨ u' ≥ 0x110000
            · rw [scan_multi_reject b _ s' u e u' h128 hl1 hcn hv] at h
              simp at h
            · obtain ⟨a', rfl, hlen, hmem, happ⟩ := continuation_append e u p' u' s' hcn
              rw [scan_multi_ok b _ _ u e u' h128 hl1 hcn hv] at h
              rw [scan_multi_ok b _ _ u e u' h128 hl1 (happ rest) hv]
              obtain ⟨body', h1, rfl⟩ := scanCons_eq_some _ _ _ _ h
              have hz'' : ∀ x ∈ a', x % 256 ≠ 0 := fun x hx => hz' x (hmem x hx)
              rw [ih a' (by omega) hz'' body' h1 rest, scanCons_scanCons]

theorem scan_of_consumed (p : List Nat) (hp : ConsumedCompletely p) :
    ∃ body, scan (cstr p) = some (body, true) := by
  obtain ⟨_, r, hr⟩ := hp
  refine ⟨r.output, ?_⟩
  have hl : (cstr p).length = p.length + 1 := by simp [cstr]
  unfold scan escapeScan
  rw [hl, hr]
  rfl

/-- C6 (the code at the failing input): the bytes `C1 81`, an overlong form that is not
well-formed UTF-8, are converted to `A` instead of cutting the conversion short; no
UTF-8 encoding of a code point starts with the byte `C1`. -/
theorem C6_overlong_converted :
    (json_writer_escape_string (initial_writer 0) (cstr [0xC1, 0x81])).map (·.output)
        = some [34, 92, 117, 48, 48, 52, 49, 34]
      ∧ ∀ cp, (utf8Encode cp).head? ≠ some 0xC1 := by
  refine ⟨rfl, fun cp => ?_⟩
  unfold utf8Encode
  split
  · simp; omega
  split
  · simp; omega
  split
  · simp; omega
  · simp; omega

/-- C7: when the escaper consumes `p` completely and the input goes on with a defective
sequence, the escaper writes exactly what it writes for `p` alone, closed with `"`. -/
theorem C7_defect_truncates (p q : List Nat) (hp : ConsumedCompletely p) (hq : Defective q)
    (w : grpc_json_writer) :
    ∃ w1 w2 body, json_writer_escape_string w (cstr (p ++ q)) = some w1
      ∧ json_writer_escape_string w (cstr p) = some w2
      ∧ w1.output = w2.output ∧ w2.output = w.output ++ [34] ++ body ++ [34] := by
  obtain ⟨body, hb⟩ := scan_of_consumed p hp
  have h1 := scan_consumed_append p.length p le_rfl hp.1 body hb (cstr q)
  rw [scan_defective q hq] at h1
  have h1' : scan (cstr (p ++ q)) = some (body, false) := by
    have : cstr (p ++ q) = p ++ cstr q := by simp [cstr]
    rw [this, h1]
    simp [scanCons]
  obtain ⟨w1, e1, o1⟩ := escape_string_of_scan w _ _ _ h1'
  obtain ⟨w2, e2, o2⟩ := escape_string_of_scan w _ _ _ hb
  exact ⟨w1, w2, body, e1, e2, by rw [o1, o2], o2⟩

/-- C7, witness: the input bytes `'a','b',0x80` are written as `"ab"`. -/
theorem C7_defect_truncates_witness :
    (∃ w1 w2 body,
        json_writer_escape_string (initial_writer 0) (cstr ([97, 98] ++ [0x80])) = some w1
        ∧ json_writer_escape_string (initial_writer 0) (cstr [97, 98]) = some w2
        ∧ w1.output = w2.output
        ∧ w2.output = (initial_writer 0).output ++ [34] ++ body ++ [34])
      ∧ (json_writer_escape_string (initial_writer 0) (cstr [97, 98, 0x80])).map (·.output)
        = some [34, 97, 98, 34] :=
  ⟨C7_defect_truncates [97, 98] [0x80] ⟨by decide, ⟨_, rfl⟩⟩
    (Or.inl ⟨0x80, [], rfl, Or.inl (by decide)⟩) (initial_writer 0), rfl⟩

theorem hexValue_hexDigit : ∀ n, n < 16 → hexValue (hexDigit n) = some n := by decide

theorem hexValue4_uEscape (x : Nat) (hx : x < 65536) :
    hexValue4 (hexDigit (x / 4096 % 16)) (hexDigit (x / 256 % 16)) (hexDigit (x / 16 % 16))
      (hexDigit (x % 16)) = some x := by
  unfold hexValue4
  rw [hexValue_hexDigit _ (by omega), hexValue_hexDigit _ (by omega),
    hexValue_hexDigit _ (by omega), hexValue_hexDigit _ (by omega)]
  simp only [Option.some.injEq]
  omega

theorem decode_uEscape_plain (x : Nat) (rest : List Nat) (hx : x < 65536)
    (hs : ¬(0xD800 ≤ x ∧ x ≤ 0xDFFF)) :
    jsonDecodeStep (uEscape x ++ rest) = some (x, rest) := by
  have h1 : ¬(0xD800 ≤ x ∧ x ≤ 0xDBFF) := by omega
  have h2 : ¬(0xDC00 ≤ x ∧ x ≤ 0xDFFF) := by omega
  simp [uEscape, jsonDecodeStep, hexValue4_uEscape x hx, h1, h2]

theorem decode_uEscape_pair (hi lo : Nat) (rest : List Nat)
    (h1 : 0xD800 ≤ hi ∧ hi ≤ 0xDBFF) (h2 : 0xDC00 ≤ lo ∧ lo ≤ 0xDFFF) :
    jsonDecodeStep (uEscape hi ++ uEscape lo ++ rest)
      = some (0x10000 + (hi - 0xD800) * 1024 + (lo - 0xDC00), rest) := by
  simp [uEscape, jsonDecodeStep, hexValue4_uEscape hi (by omega),
    hexValue4_uEscape lo (by omega), h1, h2]

theorem decode_ascii (c : Nat) (rest : List Nat) (h : 0x20 ≤ c ∧ c ≤ 0x7E) :
    jsonDecodeStep (asciiEscape c ++ rest) = some (c, rest) := by
  unfold asciiEscape
  by_cases hq : c = 34
  · subst hq; simp [jsonDecodeStep, simpleEscape]
  by_cases hb : c = 92
  · subst hb; simp [jsonDecodeStep, simpleEscape]
  have h7 : c ≤ 0x7F := by omega
  simp [jsonDecodeStep, hq, hb, h.1, h7]

theorem controlEscape_uEscape (c : Nat) (hc : c < 256)
    (h : c ≠ 8 ∧ c ≠ 12 ∧ c ≠ 10 ∧ c ≠ 13 ∧ c ≠ 9) : controlEscape c = uEscape c := by
  unfold controlEscape uEscape
  have h1 : c / 4096 % 16 = 0 := by omega
  have h2 : c / 256 % 16 = 0 := by omega
  have h3 : c / 16 % 16 = c / 16 := by omega
  rw [h1, h2, h3, if_neg h.1, if_neg h.2.1, if_neg h.2.2.1, if_neg h.2.2.2.1,
    if_neg h.2.2.2.2]
  rfl

theorem decode_control (c : Nat) (rest : List Nat) (h : (1 ≤ c ∧ c < 0x20) ∨ c = 0x7F) :
    jsonDecodeStep (controlEscape c ++ rest) = some (c, rest) := by
  by_cases h8 : c = 8
  · subst h8; simp [controlEscape, jsonDecodeStep, simpleEscape]
  by_cases h12 : c = 12
  · subst h12; simp [controlEscape, jsonDecodeStep, simpleEscape]
  by_cases h10 : c = 10
  · subst h10; simp [controlEscape, jsonDecodeStep, simpleEscape]
  by_cases h13 : c = 13
  · subst h13; simp [controlEscape, jsonDecodeStep, simpleEscape]
  by_cases h9 : c = 9
  · subst h9; simp [controlEscape, jsonDecodeStep, simpleEscape]
  rw [controlEscape_uEscape c (by omega) ⟨h8, h12, h10, h13, h9⟩]
  exact decode_uEscape_plain c rest (by omega) (by omega)

theorem decode_cpEscape (cp : Nat) (rest : List Nat) (h : isScalar cp) :
    jsonDecodeStep (cpEscape cp ++ rest) = some (cp, rest) := by
  obtain ⟨h1, h2, h3⟩ := h
  unfold cpEscape
  split
  · split
    · exact decode_ascii cp rest (by assumption)
    · exact decode_control cp rest (by omega)
  split
  · exact decode_uEscape_plain cp rest (by omega) h3
  · obtain ⟨hH, hL⟩ := surrogate_values cp (by omega) h2
    rw [decode_uEscape_pair _ _ rest (by omega) (by omega), hH, hL]
    have e : 0x10000 + (0xD800 + (cp - 0x10000) / 1024 - 0xD800) * 1024
        + (0xDC00 + (cp - 0x10000) % 1024 - 0xDC00) = cp := by omega
    rw [e]

theorem decode_body : ∀ (cps : List Nat) (fuel : Nat), (∀ cp ∈ cps, isScalar cp) →
    cps.length < fuel → jsonDecodeBody fuel (cps.flatMap cpEscape ++ [34]) = some cps := by
  intro cps
  induction cps with
  | nil =>
    intro fuel _ hf
    obtain ⟨n, rfl⟩ : ∃ n, fuel = n + 1 := ⟨fuel - 1, by simp at hf; omega⟩
    simp [jsonDecodeBody]
  | cons cp rest ih =>
    intro fuel hs hf
    obtain ⟨n, rfl⟩ : ∃ n, fuel = n + 1 := ⟨fuel - 1, by simp at hf; omega⟩
    have hcp := hs cp (List.mem_cons_self _ _)
    have hstep := decode_cpEscape cp (rest.flatMap cpEscape ++ [34]) hcp
    have hne : cpEscape cp ++ (rest.flatMap cpEscape ++ [34]) ≠ [34] := by
      intro h
      rw [h] at hstep
      simp [jsonDecodeStep] at hstep
    simp only [List.flatMap_cons, List.append_assoc, jsonDecodeBody, hne, if_false, hstep]
    rw [ih n (fun x hx => hs x (List.mem_cons_of_mem _ hx)) (by simp at hf; omega)]
    rfl

theorem codepointBytes_eq (cp : Nat) (h1 : 0x80 ≤ cp) (h2 : cp ≤ 0x10FFFF) :
    codepointBytes cp = cpEscape cp := by
  have c1 : ¬cp < 0x80 := by omega
  by_cases h : cp < 0x10000
  · have c2 : ¬cp ≥ 0x10000 := by omega
    have c3 : cp % 2 ^ 16 = cp := Nat.mod_eq_of_lt (by omega)
    simp only [codepointBytes, cpEscape, if_neg c1, if_pos h, if_neg c2, utf16Bytes_eq, c3]
  · have c2 : cp ≥ 0x10000 := by omega
    obtain ⟨hH, hL⟩ := surrogate_values cp c2 h2
    have hh : (0xd800 ||| (cp - 0x10000) >>> 10) = highSurrogate cp := rfl
    have hl : (0xdc00 ||| (cp - 0x10000) &&& 0x3ff) = lowSurrogate cp := rfl
    have c3 : highSurrogate cp % 2 ^ 16 = highSurrogate cp := Nat.mod_eq_of_lt (by omega)
    have c4 : lowSurrogate cp % 2 ^ 16 = lowSurrogate cp := Nat.mod_eq_of_lt (by omega)
    simp only [codepointBytes, cpEscape, if_neg c1, if_neg h, if_pos c2, utf16Bytes_eq, hh, hl,
      c3, c4]

theorem scan_utf8Encode (cp : Nat) (h : isScalar cp) (rest : List Nat) :
    scan (utf8Encode cp ++ rest) = scanCons (cpEscape cp) (scan rest) := by
  obtain ⟨h1, h2, h3⟩ := h
  by_cases c1 : cp < 0x80
  · have hm : cp % 256 = cp := Nat.mod_eq_of_lt (by omega)
    have hE : utf8Encode cp = [cp] := by unfold utf8Encode; rw [if_pos c1]
    rw [hE]
    by_cases ha : 0x20 ≤ cp ∧ cp ≤ 0x7E
    · have := scan_ascii cp rest (by omega) (by omega)
      rw [hm] at this
      simp only [List.cons_append, List.nil_append, this, cpEscape, if_pos c1, if_pos ha]
    · have := scan_control cp rest (by omega) (by omega)
      rw [hm] at this
      simp only [List.cons_append, List.nil_append, this, cpEscape, if_pos c1, if_neg ha]
  rw [← codepointBytes_eq cp (by omega) h2]
  by_cases c2 : cp < 0x800
  · have hE : utf8Encode cp = [192 + cp / 64, 128 + cp % 64] := by
      unfold utf8Encode; rw [if_neg c1, if_pos c2]
    obtain ⟨l1, l2⟩ := lead2 (cp / 64) (by omega)
    have hc : json_writer_escape_continuation 1 (cp / 64) ([128 + cp % 64] ++ rest)
        = some (true, cp, rest) := by
      simp only [List.cons_append, List.nil_append]
      rw [continuation_step _ _ _ _ (by omega) (by omega)]
      simp only [json_writer_escape_continuation]
      have : cp / 64 * 64 + cp % 64 = cp := by omega
      rw [this]
    rw [hE]
    exact scan_multi_ok (192 + cp / 64) _ rest _ _ cp (by omega) (by rw [l1]; exact l2) hc
      (by omega)
  by_cases c3 : cp < 0x10000
  · have hE : utf8Encode cp = [224 + cp / 4096, 128 + cp / 64 % 64, 128 + cp % 64] := by
      unfold utf8Encode; rw [if_neg c1, if_neg c2, if_pos c3]
    obtain ⟨l1, l2⟩ := lead3 (cp / 4096) (by omega)
    have hc : json_writer_escape_continuation 2 (cp / 4096)
        ([128 + cp / 64 % 64, 128 + cp % 64] ++ rest) = some (true, cp, rest) := by
      simp only [List.cons_append, List.nil_append]
      rw [continuation_step _ _ _ _ (by omega) (by omega),
        continuation_step _ _ _ _ (by omega) (by omega)]
      simp only [json_writer_escape_continuation]
      have : (cp / 4096 * 64 + cp / 64 % 64) * 64 + cp % 64 = cp := by omega
      rw [this]
    rw [hE]
    exact scan_multi_ok (224 + cp / 4096) _ rest _ _ cp (by omega) (by rw [l1]; exact l2) hc
      (by omega)
  · have hE : utf8Encode cp = [240 + cp / 262144, 128 + cp / 4096 % 64, 128 + cp / 64 % 64,
        128 + cp % 64] := by
      unfold utf8Encode; rw [if_neg c1, if_neg c2, if_neg c3]
    obtain ⟨l1, l2⟩ := lead4 (cp / 262144) (by omega)
    have hc : json_writer_escape_continuation 3 (cp / 262144)
        ([128 + cp / 4096 % 64, 128 + cp / 64 % 64, 128 + cp % 64] ++ rest)
        = some (true, cp, rest) := by
      simp only [List.cons_append, List.nil_append]
      rw [continuation_step _ _ _ _ (by omega) (by omega),
        continuation_step _ _ _ _ (by omega) (by omega),
        continuation_step _ _ _ _ (by omega) (by omega)]
      simp only [json_writer_escape_continuation]
      have : ((cp / 262144 * 64 + cp / 4096 % 64) * 64 + cp / 64 % 64) * 64 + cp % 64 = cp := by
        omega
      rw [this]
    rw [hE]
    exact scan_multi_ok (240 + cp / 262144) _ rest _ _ cp (by omega) (by rw [l1]; exact l2) hc
      (by omega)

theorem utf8Encode_nonzero (cp : Nat) (h : isScalar cp) :
    ∀ b ∈ utf8Encode cp, b % 256 ≠ 0 := by
  obtain ⟨h1, h2, h3⟩ := h
  intro b hb
  unfold utf8Encode at hb
  split at hb
  · simp at hb; omega
  split at hb
  · simp at hb; omega
  split at hb
  · simp at hb; omega
  · simp at hb; omega

theorem scan_utf8 (cps : List Nat) (hs : ∀ cp ∈ cps, isScalar cp) :
    scan (cstr (cps.flatMap utf8Encode)) = some (cps.flatMap cpEscape, true) := by
  induction cps with
  | nil => exact scan_zero 0 [] rfl
  | cons cp rest ih =>
    have hcp := hs cp (List.mem_cons_self _ _)
    have : cstr ((cp :: rest).flatMap utf8Encode)
        = utf8Encode cp ++ cstr (rest.flatMap utf8Encode) := by
      simp [cstr]
    rw [this, scan_utf8Encode cp hcp, ih (fun x hx => hs x (List.mem_cons_of_mem _ hx))]
    simp [scanCons]

theorem consumed_of_scan (p body : List Nat) (hz : ∀ b ∈ p, b % 256 ≠ 0)
    (h : scan (cstr p) = some (body, true)) : ConsumedCompletely p := by
  refine ⟨hz, ?_⟩
  have hl : (cstr p).length = p.length + 1 := by simp [cstr]
  unfold scan escapeScan at h
  rw [hl] at h
  cases hr : json_writer_escape_loop (p.length + 1) (initial_writer 0) (cstr p) with
  | none => rw [hr] at h; simp at h
  | some r =>
    rw [hr] at h
    simp only [Option.map_some', Option.some.injEq, Prod.mk.injEq] at h
    exact ⟨r.1, by rw [← h.2]⟩

theorem cpEscape_length (cp : Nat) : 1 ≤ (cpEscape cp).length := by
  unfold cpEscape asciiEscape controlEscape uEscape
  repeat' split
  all_goals simp

theorem flatMap_cpEscape_length (cps : List Nat) :
    cps.length ≤ (cps.flatMap cpEscape).length := by
  induction cps with
  | nil => simp
  | cons cp rest ih =>
    have := cpEscape_length cp
    simp only [List.flatMap_cons, List.length_append, List.length_cons]
    omega

/-- C5: for a sequence of non-zero Unicode scalar values the escaper consumes the whole
UTF-8 encoding and appends a string literal that a JSON string decoder decodes back to the
same sequence. -/
theorem C5_escape_roundtrip (cps : List Nat) (hs : ∀ cp ∈ cps, isScalar cp)
    (w : grpc_json_writer) :
    ConsumedCompletely (cps.flatMap utf8Encode)
      ∧ ∃ w' lit, json_writer_escape_string w (cstr (cps.flatMap utf8Encode)) = some w'
        ∧ w'.output = w.output ++ lit ∧ jsonDecode lit = some cps := by
  have hscan := scan_utf8 cps hs
  have hz : ∀ b ∈ cps.flatMap utf8Encode, b % 256 ≠ 0 := by
    intro b hb
    obtain ⟨cp, hcp, hb'⟩ := List.mem_flatMap.mp hb
    exact utf8Encode_nonzero cp (hs cp hcp) b hb'
  refine ⟨consumed_of_scan _ _ hz hscan, ?_⟩
  obtain ⟨w', e1, e2⟩ := escape_string_of_scan w _ _ _ hscan
  refine ⟨w', [34] ++ cps.flatMap cpEscape ++ [34], e1, by rw [e2]; simp, ?_⟩
  simp only [jsonDecode, List.singleton_append, List.cons_append, if_true]
  apply decode_body cps _ hs
  have := flatMap_cpEscape_length cps
  simp only [List.length_append, List.length_cons, List.length_nil]
  omega

/-- C5, witness: the code points U+0041, U+00E9, U+20AC, U+1F600 and U+000A. -/
theorem C5_escape_roundtrip_witness :
    ConsumedCompletely ([0x41, 0xE9, 0x20AC, 0x1F600, 0x0A].flatMap utf8Encode)
      ∧ ∃ w' lit, json_writer_escape_string (initial_writer 0)
            (cstr ([0x41, 0xE9, 0x20AC, 0x1F600, 0x0A].flatMap utf8Encode)) = some w'
        ∧ w'.output = (initial_writer 0).output ++ lit
        ∧ jsonDecode lit = some [0x41, 0xE9, 0x20AC, 0x1F600, 0x0A] :=
  C5_escape_roundtrip [0x41, 0xE9, 0x20AC, 0x1F600, 0x0A] (by decide) (initial_writer 0)

theorem EscapedText.mono {s s' : List Nat} (h : ∀ x ∈ s, x ∈ s') {b : List Nat}
    (hb : EscapedText s b) : EscapedText s' b := by
  induction hb with
  | nil => exact .nil
  | ascii c t hc h1 h2 _ ih => exact .ascii c t (h c hc) h1 h2 ih
  | control c t h1 _ ih => exact .control c t h1 ih
  | unicode x t _ ih => exact .unicode x t ih

theorem codepointBytes_escaped (s : List Nat) (u : Nat) (t : List Nat)
    (h : EscapedText s t) : EscapedText s (codepointBytes u ++ t) := by
  unfold codepointBytes
  split
  · rw [utf16Bytes_eq, utf16Bytes_eq, List.append_assoc]
    exact .unicode _ _ (.unicode _ _ h)
  · rw [utf16Bytes_eq]
    exact .unicode _ _ h

theorem continuation_mem : ∀ (e u : Nat) (s : List Nat) (v : Bool) (u' : Nat) (s' : List Nat),
    json_writer_escape_continuation e u s = some (v, u', s') → ∀ x ∈ s', x ∈ s := by
  intro e
  induction e with
  | zero =>
    intro u s v u' s' h x hx
    simp [json_writer_escape_continuation] at h
    rw [h.2.2]; exact hx
  | succ n ih =>
    intro u s v u' s' h x hx
    cases s with
    | nil => simp [json_writer_escape_continuation] at h
    | cons b rest =>
      simp only [json_writer_escape_continuation] at h
      split at h
      · simp at h
        rw [← h.2.2] at hx
        exact List.mem_cons_of_mem _ hx
      · exact List.mem_cons_of_mem _ (ih _ _ _ _ _ h x hx)

theorem scan_escaped : ∀ (n : Nat) (s : List Nat), s.length ≤ n → ∀ body f,
    scan s = some (body, f) → EscapedText s body := by
  intro n
  induction n with
  | zero =>
    intro s hl body f h
    have : s = [] := List.length_eq_zero.mp (by omega)
    subst this
    rw [scan_nil] at h; simp at h
  | succ n ih =>
    intro s hl body f h
    cases s with
    | nil => rw [scan_nil] at h; simp at h
    | cons b rest =>
      simp only [List.length_cons, Nat.add_le_add_iff_right] at hl
      have hsub : ∀ x ∈ rest, x ∈ b :: rest := fun x hx => List.mem_cons_of_mem _ hx
      by_cases hb0 : b % 256 = 0
      · rw [scan_zero b rest hb0] at h
        simp only [Option.some.injEq, Prod.mk.injEq] at h
        rw [← h.1]; exact .nil
      by_cases ha : 32 ≤ b % 256 ∧ b % 256 ≤ 126
      · rw [scan_ascii b _ ha.1 ha.2] at h
        obtain ⟨body', h1, rfl⟩ := scanCons_eq_some _ _ _ _ h
        exact .ascii b _ (List.mem_cons_self _ _) ha.1 ha.2 ((ih rest hl _ _ h1).mono hsub)
      by_cases hc : b % 256 < 32 ∨ b % 256 = 127
      · rw [scan_control b _ hb0 hc] at h
        obtain ⟨body', h1, rfl⟩ := scanCons_eq_some _ _ _ _ h
        exact .control b _ hc ((ih rest hl _ _ h1).mono hsub)
      have h128 : 128 ≤ b % 256 := by omega
      cases hl1 : leadInfo (b % 256) with
      | none =>
        rw [scan_bad_lead b _ h128 hl1] at h
        simp only [Option.some.injEq, Prod.mk.injEq] at h
        rw [← h.1]; exact .nil
      | some ue =>
        obtain ⟨u, e⟩ := ue
        cases hcn : json_writer_escape_continuation e u rest with
        | none =>
          rw [scan_cons] at h
          have h0' : ¬(b % 256 ≥ 32 ∧ b % 256 ≤ 126) := ha
          simp [scanStep, hb0, h0', hc, hl1, hcn] at h
        | some r =>
          obtain ⟨v, u', s'⟩ := r
          cases v with
          | false =>
            rw [scan_multi_invalid b _ s' u e u' h128 hl1 hcn] at h
            simp only [Option.some.injEq, Prod.mk.injEq] at h
            rw [← h.1]; exact .nil
          | true =>
            by_cases hv : (u' ≥ 0xd800 ∧ u' ≤ 0xdfff) ∨ u' ≥ 0x110000
            · rw [scan_multi_reject b _ s' u e u' h128 hl1 hcn hv] at h
              simp only [Option.some.injEq, Prod.mk.injEq] at h
              rw [← h.1]; exact .nil
            · rw [scan_multi_ok b _ _ u e u' h128 hl1 hcn hv] at h
              obtain ⟨body', h1, rfl⟩ := scanCons_eq_some _ _ _ _ h
              have hlen := continuation_length _ _ _ _ _ _ hcn
              have hm := continuation_mem _ _ _ _ _ _ hcn
              exact codepointBytes_escaped _ _ _
                ((ih s' (by omega) _ _ h1).mono (fun x hx => hsub x (hm x hx)))

theorem escapedBody_escaped (s : List Nat) : EscapedText (cstr s) (escapedBody s) := by
  have hs := scan_cstr_isSome s
  obtain ⟨p, hp⟩ := Option.isSome_iff_exists.mp hs
  have := scan_escaped _ (cstr s) le_rfl p.1 p.2 (by rw [hp])
  simpa [escapedBody, hp] using this

theorem JChars_append {a b : List Nat} (ha : JChars a) (hb : JChars b) : JChars (a ++ b) := by
  induction ha with
  | nil => exact hb
  | plain c t h1 h2 h3 h4 _ ih => exact .plain c _ h1 h2 h3 h4 ih
  | esc e t he _ ih => exact .esc e _ he ih
  | unicode h1 h2 h3 h4 t a1 a2 a3 a4 _ ih => exact .unicode h1 h2 h3 h4 _ a1 a2 a3 a4 ih

theorem hexDigit_isHex (n : Nat) : IsHexChar (hexDigit (n % 16)) := by
  unfold IsHexChar
  rw [hexValue_hexDigit _ (Nat.mod_lt _ (by norm_num))]
  rfl

theorem JChars_uEscape (x : Nat) (t : List Nat) (h : JChars t) : JChars (uEscape x ++ t) :=
  .unicode _ _ _ _ _ (hexDigit_isHex _) (hexDigit_isHex _) (hexDigit_isHex _)
    (hexDigit_isHex _) h

theorem JChars_asciiEscape (c : Nat) (t : List Nat) (h1 : 32 ≤ c) (h2 : c ≤ 126)
    (h : JChars t) : JChars (asciiEscape c ++ t) := by
  unfold asciiEscape
  by_cases hq : c = 34 ∨ c = 92
  · rw [if_pos hq]
    rcases hq with rfl | rfl
    · exact .esc _ _ (by decide) h
    · exact .esc _ _ (by decide) h
  · rw [if_neg hq]
    exact .plain c _ h1 (by omega) (fun e => hq (Or.inl e)) (fun e => hq (Or.inr e)) h

theorem JChars_controlEscape (c : Nat) (t : List Nat) (hc : c < 256) (h : JChars t) :
    JChars (controlEscape c ++ t) := by
  by_cases h8 : c = 8
  · subst h8; exact .esc _ _ (by decide) h
  by_cases h12 : c = 12
  · subst h12; exact .esc _ _ (by decide) h
  by_cases h10 : c = 10
  · subst h10; exact .esc _ _ (by decide) h
  by_cases h13 : c = 13
  · subst h13; exact .esc _ _ (by decide) h
  by_cases h9 : c = 9
  · subst h9; exact .esc _ _ (by decide) h
  rw [controlEscape_uEscape c hc ⟨h8, h12, h10, h13, h9⟩]
  exact JChars_uEscape c t h

theorem JChars_of_escaped {s b : List Nat} (h : EscapedText s b) : JChars b := by
  induction h with
  | nil => exact .nil
  | ascii c t _ h1 h2 _ ih => exact JChars_asciiEscape _ _ h1 h2 ih
  | control c t _ _ ih => exact JChars_controlEscape _ _ (Nat.mod_lt _ (by norm_num)) ih
  | unicode x t _ ih => exact JChars_uEscape x t ih

theorem escaped_isJsonString (s : List Nat) : IsJsonString (escaped s) :=
  ⟨escapedBody s, escaped_eq s, JChars_of_escaped (escapedBody_escaped s)⟩

theorem emitted_node (k d : Int) (io : Bool) (ce : Int) (ty : grpc_json_type)
    (key value : List Nat) (child next : grpc_json) :
    emitted k d io ce (.node ty key value child next)
      = leadBytes k d ce io key ++ emittedValue k d ty value child ++ emitted k d io 0 next := by
  cases ty <;> rfl

theorem emitted_nil (k d : Int) (io : Bool) (ce : Int) : emitted k d io ce .nil = [] := rfl

theorem isWs_nil : IsWs [] := by simp [IsWs]

theorem isWs_append {a b : List Nat} (ha : IsWs a) (hb : IsWs b) : IsWs (a ++ b) := by
  intro c hc
  rcases List.mem_append.mp hc with h | h
  · exact ha c h
  · exact hb c h

theorem isWs_indentBytes (k d g : Int) : IsWs (indentBytes k d g) := by
  unfold indentBytes
  split
  · exact isWs_nil
  split
  · simp [IsWs]
  · intro c hc
    exact Or.inl (List.eq_of_mem_replicate hc)

theorem valueEndBytes_split (k d ce : Int) :
    ∃ w, IsWs w ∧ valueEndBytes k d ce = commaBytes ce ++ w := by
  unfold valueEndBytes commaBytes
  by_cases hce : ce = 0
  · by_cases hk : k = 0
    · exact ⟨[], isWs_nil, by simp [hce, hk]⟩
    · exact ⟨[10], by simp [IsWs], by simp [hce, hk]⟩
  · by_cases h : k = 0 ∨ d = 0
    · exact ⟨[], isWs_nil, by simp [hce, h]⟩
    · exact ⟨[10], by simp [IsWs], by simp [hce, h]⟩

theorem isWs_closeBytes (k d : Int) (child : grpc_json) : IsWs (closeBytes k d child) := by
  cases child with
  | nil => exact isWs_nil
  | node _ _ _ _ _ =>
    simp only [closeBytes]
    apply isWs_append _ (isWs_indentBytes _ _ _)
    split
    · exact isWs_nil
    · simp [IsWs]

theorem emitted_grammar : ∀ (t : grpc_json), NumbersValid t → ∀ (k d : Int),
    (∀ ty key value child next, t = .node ty key value child next →
        JValue (emittedValue k d ty value child))
      ∧ (t.isNull = false → ∀ ce,
          (∃ e, JElements e ∧ emitted k d false ce t = commaBytes ce ++ e)
            ∧ (∃ m, JMembers m ∧ emitted k d true ce t = commaBytes ce ++ m)) := by
  intro t
  induction t with
  | nil =>
    intro _ k d
    exact ⟨fun _ _ _ _ _ h => (by cases h), fun h => (by simp [grpc_json.isNull] at h)⟩
  | node ty key value child next ihc ihn =>
    intro hv k d
    have hv' : (ty = GRPC_JSON_NUMBER → IsJsonNumber (cbytes value))
        ∧ ((ty = GRPC_JSON_OBJECT ∨ ty = GRPC_JSON_ARRAY) → NumbersValid child)
        ∧ NumbersValid next := hv
    obtain ⟨hnum, hchild, hnext⟩ := hv'
    have hval : JValue (emittedValue k d ty value child) := by
      cases ty with
      | GRPC_JSON_OBJECT =>
        cases hc : child.isNull with
        | true =>
          cases child with
          | nil =>
            have := JValue.emptyObject [] isWs_nil
            simpa [emittedValue, emitted_nil, closeBytes] using this
          | node _ _ _ _ _ => simp [grpc_json.isNull] at hc
        | false =>
          obtain ⟨m, hm, he⟩ := (((ihc (hchild (Or.inl rfl)) k (d + 1)).2 hc) 1).2
          have := JValue.object m _ hm (isWs_closeBytes k d child)
          simpa [emittedValue, he, commaBytes] using this
      | GRPC_JSON_ARRAY =>
        cases hc : child.isNull with
        | true =>
          cases child with
          | nil =>
            have := JValue.emptyArray [] isWs_nil
            simpa [emittedValue, emitted_nil, closeBytes] using this
          | node _ _ _ _ _ => simp [grpc_json.isNull] at hc
        | false =>
          obtain ⟨e, hm, he⟩ := (((ihc (hchild (Or.inr rfl)) k (d + 1)).2 hc) 1).1
          have := JValue.array e _ hm (isWs_closeBytes k d child)
          simpa [emittedValue, he, commaBytes] using this
      | GRPC_JSON_STRING => exact .string _ (escaped_isJsonString value)
      | GRPC_JSON_NUMBER => exact .number _ (hnum rfl)
      | GRPC_JSON_TRUE => exact .true
      | GRPC_JSON_FALSE => exact .false
      | GRPC_JSON_NULL => exact .null
    refine ⟨?_, fun _ ce => ?_⟩
    · intro ty' key' value' child' next' h
      cases h
      exact hval
    · obtain ⟨w, hw, hve⟩ := valueEndBytes_split k d ce
      have hwi := isWs_append hw (isWs_indentBytes k d 0)
      cases hn : next.isNull with
      | true =>
        have hnil : next = .nil := by
          cases next with
          | nil => rfl
          | node _ _ _ _ _ => simp [grpc_json.isNull] at hn
        subst hnil
        constructor
        · refine ⟨_, JElements.one _ _ hwi hval, ?_⟩
          simp [emitted_node, leadBytes, hve, emitted_nil]
        · refine ⟨_, JMembers.one _ _ [] _ _ hwi (escaped_isJsonString key) isWs_nil
            (isWs_indentBytes k d 1) hval, ?_⟩
          simp [emitted_node, leadBytes, hve, emitted_nil]
      | false =>
        obtain ⟨⟨e, he1, he2⟩, ⟨m, hm1, hm2⟩⟩ := (ihn hnext k d).2 hn 0
        constructor
        · refine ⟨_, JElements.more _ _ [] _ hwi hval isWs_nil he1, ?_⟩
          simp [emitted_node, leadBytes, hve, he2, commaBytes]
        · refine ⟨_, JMembers.more _ _ [] _ _ [] _ hwi (escaped_isJsonString key) isWs_nil
            (isWs_indentBytes k d 1) hval isWs_nil hm1, ?_⟩
          simp [emitted_node, leadBytes, hve, hm2, commaBytes]

theorem isJsonNumber_ne_nil (s : List Nat) (h : IsJsonNumber s) : s ≠ [] := by
  obtain ⟨sign, int, frac, exp, rfl, _, hi, _, _⟩ := h
  rcases hi with rfl | ⟨d, ds, rfl, _⟩ <;> simp

theorem jvalue_ne_nil {s : List Nat} (h : JValue s) : s ≠ [] := by
  cases h with
  | string s hs =>
    obtain ⟨body, rfl, _⟩ := hs
    simp
  | number s hn => exact isJsonNumber_ne_nil s hn
  | true => simp
  | false => simp
  | null => simp
  | emptyArray w _ => simp
  | array e w _ _ => simp
  | emptyObject w _ => simp
  | object m w _ _ => simp

/-- C3 (as amended): for a root node without a following sibling whose NUMBER values are
JSON number text shorter than `2^32 - 0xff` bytes, and every `indent ≥ 0`, the dump is a JSON
text (exactly one JSON value) followed by `0x00`, whatever the bytes of the keys and STRING
values. -/
theorem C3_valid_json (ty : grpc_json_type) (key value : List Nat) (child : grpc_json)
    (k : Int) (_hk : 0 ≤ k) (hn : NumbersValid (.node ty key value child .nil))
    (hs : numbersShort (.node ty key value child .nil) = true) :
    ∃ text, grpc_json_dump_to_string (.node ty key value child .nil) k = some (text ++ [0])
      ∧ IsJsonText text := by
  refine ⟨_, dump_to_string_emitted _ k hs, ?_⟩
  have hval := (emitted_grammar _ hn k 0).1 ty key value child .nil rfl
  obtain ⟨w, hw, hve⟩ := valueEndBytes_split k 0 1
  refine ⟨w ++ indentBytes k 0 0, emittedValue k 0 ty value child, [], ?_,
    isWs_append hw (isWs_indentBytes k 0 0), hval, isWs_nil⟩
  simp [emitted_node, leadBytes, hve, emitted_nil, commaBytes]

/-- C3, witness: the tree `{"a": 1, "b": [true, null]}` with `indent = 2`. -/
theorem C3_valid_json_witness :
    ∃ text, grpc_json_dump_to_string exampleTree 2 = some (text ++ [0]) ∧ IsJsonText text :=
  C3_valid_json GRPC_JSON_OBJECT [] []
    (.node GRPC_JSON_NUMBER [97] [49] .nil
      (.node GRPC_JSON_ARRAY [98] []
        (.node GRPC_JSON_TRUE [] [] .nil (.node GRPC_JSON_NULL [] [] .nil .nil)) .nil))
    2 (by decide)
    ⟨by simp, fun _ =>
      ⟨fun _ => ⟨[], [49], [], [], rfl, Or.inl rfl,
          Or.inr ⟨49, [], rfl, by decide, by decide, by simp [IsDigits]⟩, Or.inl rfl,
          Or.inl rfl⟩,
        by simp,
        ⟨by simp, fun _ => ⟨by simp, by simp, ⟨by simp, by simp, trivial⟩⟩, trivial⟩⟩,
      trivial⟩
    rfl

/-- C3, counterexample: for the null root the dump is the empty text, which is no JSON
value. -/
theorem C3_valid_json_counterexample :
    ¬∃ text, grpc_json_dump_to_string .nil 0 = some (text ++ [0]) ∧ IsJsonText text := by
  rintro ⟨text, h1, w, v, w', h2, _, hv, _⟩
  have h0 : grpc_json_dump_to_string .nil 0 = some [0] := rfl
  rw [h0] at h1
  simp only [Option.some.injEq] at h1
  have ht : text = [] := by
    cases text with
    | nil => rfl
    | cons a t =>
      have := congrArg List.length h1
      simp at this
  rw [ht] at h2
  have : v = [] := by
    have := congrArg List.length h2
    simp at this
    exact List.length_eq_zero.mp (by omega)
  exact jvalue_ne_nil hv this

theorem lex_ws (w s : List Nat) (hw : IsWs w) : lexer .outside (w ++ s) = lexer .outside s := by
  induction w with
  | nil => rfl
  | cons c t ih =>
    have hc : isWsChar c = true := by
      rcases hw c (List.mem_cons_self _ _) with h | h | h | h <;> subst h <;> rfl
    simp only [List.cons_append, lexer, hc, if_true]
    exact ih (fun x hx => hw x (List.mem_cons_of_mem _ hx))

theorem lex_punct (c : Nat) (s : List Nat) (hc : isPunctChar c = true)
    (hw : isWsChar c = false) :
    lexer .outside (c :: s) = (lexer .outside s).map (fun t => [Token.punct c] ++ t) := by
  simp [lexer, hc, hw]

theorem isHexChar_ne (c : Nat) (h : IsHexChar c) : c ≠ 34 ∧ c ≠ 92 := by
  unfold IsHexChar hexValue at h
  constructor <;> rintro rfl <;> simp at h

theorem lex_string_body {body : List Nat} (hb : JChars body) : ∀ (acc s : List Nat),
    lexer (.inString acc false) (body ++ 34 :: s)
      = (lexer .outside s).map (fun t => Token.string (acc ++ body) :: t) := by
  induction hb with
  | nil => intro acc s; simp [lexer]
  | plain c t _ _ h3 h4 _ ih =>
    intro acc s
    simp only [List.cons_append, lexer, Bool.false_eq_true, if_false, h4, h3]
    refine (ih _ s).trans ?_
    simp
  | esc e t _ _ ih =>
    intro acc s
    simp only [List.cons_append, lexer, Bool.false_eq_true, if_false, if_true]
    refine (ih _ s).trans ?_
    simp
  | unicode h1 h2 h3 h4 t a1 a2 a3 a4 _ ih =>
    intro acc s
    have b1 := isHexChar_ne _ a1
    have b2 := isHexChar_ne _ a2
    have b3 := isHexChar_ne _ a3
    have b4 := isHexChar_ne _ a4
    simp only [List.cons_append, lexer, Bool.false_eq_true, if_false, if_true, b1.1, b1.2,
      b2.1, b2.2, b3.1, b3.2, b4.1, b4.2]
    refine (ih _ s).trans ?_
    simp

theorem lex_escaped (x s : List Nat) :
    lexer .outside (escaped x ++ s)
      = (lexer .outside s).map (fun t => [Token.string (escapedBody x)] ++ t) := by
  rw [escaped_eq]
  have hb := JChars_of_escaped (escapedBody_escaped x)
  have := lex_string_body hb [] s
  simp only [List.nil_append] at this
  have e : [34] ++ escapedBody x ++ [34] ++ s = 34 :: (escapedBody x ++ 34 :: s) := by simp
  rw [e]
  have hw : isWsChar 34 = false := rfl
  have hp : isPunctChar 34 = false := rfl
  simp only [lexer, hw, hp, Bool.false_eq_true, if_false, if_true]
  exact this

theorem lex_atom_delim (a s : List Nat) (hs : DelimStart s) :
    lexer (.inAtom a) s = (lexer .outside s).map (fun t => Token.atom a :: t) := by
  rcases hs with rfl | ⟨d, t, rfl, hd⟩
  · rfl
  · by_cases hw : isWsChar d = true
    · simp [lexer, hw]
    by_cases hp : isPunctChar d = true
    · have hw' : isWsChar d = false := by simpa using hw
      simp only [lexer, hw', hp, Bool.false_eq_true, if_false, if_true, Option.map_map]
      rfl
    · have h34 : d = 34 := by
        rcases hd with h | h | h
        · exact absurd h hw
        · exact absurd h hp
        · exact h
      subst h34
      have hw : isWsChar 34 = false := rfl
      have hp : isPunctChar 34 = false := rfl
      simp only [lexer, hw, hp, Bool.false_eq_true, if_false, if_true]

theorem lex_atom_cont (a : List Nat) (ha : ∀ c ∈ a, IsAtomChar c) (s : List Nat)
    (hs : DelimStart s) : ∀ acc, lexer (.inAtom acc) (a ++ s)
      = (lexer .outside s).map (fun t => Token.atom (acc ++ a) :: t) := by
  induction a with
  | nil => intro acc; simpa using lex_atom_delim acc s hs
  | cons c t ih =>
    intro acc
    obtain ⟨h1, h2, h3⟩ := ha c (List.mem_cons_self _ _)
    have e : (c :: t) ++ s = c :: (t ++ s) := rfl
    rw [e]
    simp only [lexer, h1, h2, h3, Bool.false_eq_true, if_false]
    refine (ih (fun x hx => ha x (List.mem_cons_of_mem _ hx)) _).trans ?_
    simp

theorem lex_atom (a : List Nat) (hne : a ≠ []) (ha : ∀ c ∈ a, IsAtomChar c) (s : List Nat)
    (hs : DelimStart s) :
    lexer .outside (a ++ s) = (lexer .outside s).map (fun t => [Token.atom a] ++ t) := by
  cases a with
  | nil => exact absurd rfl hne
  | cons c t =>
    obtain ⟨h1, h2, h3⟩ := ha c (List.mem_cons_self _ _)
    have e : (c :: t) ++ s = c :: (t ++ s) := rfl
    rw [e]
    simp only [lexer, h1, h2, h3, Bool.false_eq_true, if_false]
    refine (lex_atom_cont t (fun x hx => ha x (List.mem_cons_of_mem _ hx)) s hs _).trans ?_
    simp

theorem tokCons_nil (r : Option (List Token)) : tokCons [] r = r := by
  cases r <;> simp [tokCons]

theorem tokCons_tokCons (a b : List Token) (r : Option (List Token)) :
    tokCons a (tokCons b r) = tokCons (a ++ b) r := by
  cases r <;> simp [tokCons]

theorem isAtomChar_of_number (s : List Nat) (h : IsJsonNumber s) : ∀ c ∈ s, IsAtomChar c := by
  have key : ∀ c, (c = 45 ∨ c = 43 ∨ c = 46 ∨ c = 101 ∨ c = 69 ∨ (48 ≤ c ∧ c ≤ 57)) →
      IsAtomChar c := by
    intro c hc
    have h1 : c ≠ 32 ∧ c ≠ 9 ∧ c ≠ 10 ∧ c ≠ 13 ∧ c ≠ 123 ∧ c ≠ 125 ∧ c ≠ 91 ∧ c ≠ 93
        ∧ c ≠ 44 ∧ c ≠ 58 ∧ c ≠ 34 := by omega
    simp [IsAtomChar, isWsChar, isPunctChar, h1]
  obtain ⟨sign, int, frac, exp, rfl, hs, hi, hf, he⟩ := h
  intro c hc
  apply key
  simp only [List.mem_append] at hc
  rcases hc with ((hc | hc) | hc) | hc
  · rcases hs with rfl | rfl
    · simp at hc
    · simp at hc; omega
  · rcases hi with rfl | ⟨d, ds, rfl, h1, h2, h3⟩
    · simp at hc; omega
    · rcases List.mem_cons.mp hc with rfl | hc
      · omega
      · have := h3 c hc; omega
  · rcases hf with rfl | ⟨d, ds, rfl, h3⟩
    · simp at hc
    · rcases List.mem_cons.mp hc with rfl | hc
      · omega
      · have := h3 c hc; omega
  · rcases he with rfl | ⟨e, sg, d, ds, rfl, h1, h2, h3⟩
    · simp at hc
    · rcases List.mem_cons.mp hc with rfl | hc
      · omega
      · rcases List.mem_append.mp hc with hc | hc
        · rcases h2 with rfl | rfl | rfl
          · simp at hc
          · simp at hc; omega
          · simp at hc; omega
        · have := h3 c hc; omega

theorem delimStart_punct (c : Nat) (t : List Nat) (hc : isPunctChar c = true) :
    DelimStart (c :: t) := Or.inr ⟨c, t, rfl, Or.inr (Or.inl hc)⟩

theorem delimStart_ws_punct (w : List Nat) (c : Nat) (t : List Nat) (hw : IsWs w)
    (hc : isPunctChar c = true) : DelimStart (w ++ c :: t) := by
  cases w with
  | nil => exact delimStart_punct c t hc
  | cons a r =>
    refine Or.inr ⟨a, r ++ c :: t, rfl, Or.inl ?_⟩
    rcases hw a (List.mem_cons_self _ _) with h | h | h | h <;> subst h <;> rfl

theorem delimStart_emitted (t : grpc_json) (k d : Int) (io : Bool) (x : List Nat)
    (hx : DelimStart x) : DelimStart (emitted k d io 0 t ++ x) := by
  cases t with
  | nil => simpa [emitted_nil] using hx
  | node ty key value child next =>
    rw [emitted_node]
    obtain ⟨w, _, hve⟩ := valueEndBytes_split k d 0
    simp only [leadBytes, hve, commaBytes, ne_eq, not_true_eq_false, if_false,
      List.append_assoc, List.singleton_append]
    exact delimStart_punct 44 _ rfl

theorem lex_comma (ce : Int) (s : List Nat) :
    lexer .outside (commaBytes ce ++ s)
      = tokCons (if ce ≠ 0 then [] else [Token.punct 44]) (lexer .outside s) := by
  unfold commaBytes
  by_cases h : ce = 0
  · simp only [h, ne_eq, not_true_eq_false, if_false, List.singleton_append]
    rw [lex_punct 44 s rfl rfl]; rfl
  · simp only [h, ne_eq, not_false_eq_true, if_true, List.nil_append, tokCons_nil]

theorem lex_punct_tok (c : Nat) (s : List Nat) (hc : isPunctChar c = true)
    (hw : isWsChar c = false) :
    lexer .outside (c :: s) = tokCons [Token.punct c] (lexer .outside s) :=
  lex_punct c s hc hw

theorem lex_lead (k d ce : Int) (io : Bool) (key s : List Nat) :
    lexer .outside (leadBytes k d ce io key ++ s)
      = tokCons ((if ce ≠ 0 then [] else [Token.punct 44])
          ++ (if io then [Token.string (escapedBody key), Token.punct 58] else []))
        (lexer .outside s) := by
  obtain ⟨w, hw, hve⟩ := valueEndBytes_split k d ce
  have hwi := isWs_append hw (isWs_indentBytes k d 0)
  cases io with
  | false =>
    have e : leadBytes k d ce false key ++ s
        = commaBytes ce ++ ((w ++ indentBytes k d 0) ++ s) := by
      simp [leadBytes, hve]
    rw [e, lex_comma, lex_ws _ _ hwi]
    simp
  | true =>
    have e : leadBytes k d ce true key ++ s
        = commaBytes ce ++ ((w ++ indentBytes k d 0)
            ++ (escaped key ++ (58 :: (indentBytes k d 1 ++ s)))) := by
      simp [leadBytes, hve]
    rw [e, lex_comma, lex_ws _ _ hwi, lex_escaped, lex_punct_tok 58 _ rfl rfl,
      lex_ws _ _ (isWs_indentBytes k d 1)]
    show tokCons _ (tokCons _ (tokCons _ _)) = _
    rw [tokCons_tokCons, tokCons_tokCons]
    simp

theorem lex_literal (a : List Nat) (hne : a ≠ []) (ha : ∀ c ∈ a, IsAtomChar c) (s : List Nat)
    (hs : DelimStart s) :
    lexer .outside (a ++ s) = tokCons [Token.atom a] (lexer .outside s) :=
  lex_atom a hne ha s hs

theorem emitted_tokens : ∀ (t : grpc_json), NumbersValid t →
    (∀ ty key value child next, t = .node ty key value child next →
        ∃ vt, ∀ (k d : Int) (x : List Nat), DelimStart x →
          lexer .outside (emittedValue k d ty value child ++ x)
            = tokCons vt (lexer .outside x))
      ∧ ∀ (io : Bool) (ce : Int), ∃ toks, ∀ (k d : Int) (x : List Nat), DelimStart x →
          lexer .outside (emitted k d io ce t ++ x) = tokCons toks (lexer .outside x) := by
  intro t
  induction t with
  | nil =>
    intro _
    refine ⟨fun _ _ _ _ _ h => (by cases h), fun io ce => ⟨[], fun k d x _ => ?_⟩⟩
    rw [emitted_nil, tokCons_nil]; rfl
  | node ty key value child next ihc ihn =>
    intro hv
    have hv' : (ty = GRPC_JSON_NUMBER → IsJsonNumber (cbytes value))
        ∧ ((ty = GRPC_JSON_OBJECT ∨ ty = GRPC_JSON_ARRAY) → NumbersValid child)
        ∧ NumbersValid next := hv
    obtain ⟨hnum, hchild, hnext⟩ := hv'
    have hcont : ∀ (o c : Nat) (io' : Bool), isPunctChar o = true → isWsChar o = false →
        isPunctChar c = true → isWsChar c = false → NumbersValid child →
        ∃ vt, ∀ (k d : Int) (x : List Nat), DelimStart x →
          lexer .outside ([o] ++ emitted k (d + 1) io' 1 child ++ closeBytes k d child
              ++ [c] ++ x) = tokCons vt (lexer .outside x) := by
      intro o c io' ho ho' hc hc' hch
      obtain ⟨ct, hct⟩ := (ihc hch).2 io' 1
      refine ⟨[Token.punct o] ++ ct ++ [Token.punct c], fun k d x hx => ?_⟩
      have e : [o] ++ emitted k (d + 1) io' 1 child ++ closeBytes k d child ++ [c] ++ x
          = o :: (emitted k (d + 1) io' 1 child ++ (closeBytes k d child ++ c :: x)) := by
        simp
      rw [e, lex_punct_tok o _ ho ho',
        hct k (d + 1) _ (delimStart_ws_punct _ c x (isWs_closeBytes k d child) hc),
        lex_ws _ _ (isWs_closeBytes k d child), lex_punct_tok c _ hc hc',
        tokCons_tokCons, tokCons_tokCons]
    have hval : ∃ vt, ∀ (k d : Int) (x : List Nat), DelimStart x →
        lexer .outside (emittedValue k d ty value child ++ x)
          = tokCons vt (lexer .outside x) := by
      cases ty with
      | GRPC_JSON_OBJECT => exact hcont 123 125 true rfl rfl rfl rfl (hchild (Or.inl rfl))
      | GRPC_JSON_ARRAY => exact hcont 91 93 false rfl rfl rfl rfl (hchild (Or.inr rfl))
      | GRPC_JSON_STRING =>
        exact ⟨[Token.string (escapedBody value)], fun k d x _ => lex_escaped value x⟩
      | GRPC_JSON_NUMBER =>
        exact ⟨[Token.atom (cbytes value)], fun k d x hx =>
          lex_literal (cbytes value) (isJsonNumber_ne_nil _ (hnum rfl))
            (isAtomChar_of_number _ (hnum rfl)) x hx⟩
      | GRPC_JSON_TRUE =>
        exact ⟨[Token.atom [116, 114, 117, 101]], fun k d x hx =>
          lex_literal [116, 114, 117, 101] (by simp) (by simp [IsAtomChar, isWsChar, isPunctChar]) x hx⟩
      | GRPC_JSON_FALSE =>
        exact ⟨[Token.atom [102, 97, 108, 115, 101]], fun k d x hx =>
          lex_literal [102, 97, 108, 115, 101] (by simp) (by simp [IsAtomChar, isWsChar, isPunctChar]) x hx⟩
      | GRPC_JSON_NULL =>
        exact ⟨[Token.atom [110, 117, 108, 108]], fun k d x hx =>
          lex_literal [110, 117, 108, 108] (by simp) (by simp [IsAtomChar, isWsChar, isPunctChar]) x hx⟩
    refine ⟨?_, fun io ce => ?_⟩
    · intro ty' key' value' child' next' h
      cases h
      exact hval
    · obtain ⟨vt, hvt⟩ := hval
      obtain ⟨nt, hnt⟩ := (ihn hnext).2 io 0
      refine ⟨((if ce ≠ 0 then [] else [Token.punct 44])
          ++ (if io then [Token.string (escapedBody key), Token.punct 58] else []))
          ++ vt ++ nt, fun k d x hx => ?_⟩
      rw [emitted_node, List.append_assoc, List.append_assoc, lex_lead,
        hvt k d _ (delimStart_emitted next k d io x hx), hnt k d x hx,
        tokCons_tokCons, tokCons_tokCons]

theorem jsonTokens_emitted (t : grpc_json) (hn : NumbersValid t) (k : Int) :
    jsonTokens (emitted k 0 false 1 t) = jsonTokens (emitted 0 0 false 1 t)
      ∧ (jsonTokens (emitted 0 0 false 1 t)).isSome = true := by
  obtain ⟨toks, h⟩ := (emitted_tokens t hn).2 false 1
  have h1 := h k 0 [] (Or.inl rfl)
  have h2 := h 0 0 [] (Or.inl rfl)
  simp only [List.append_nil] at h1 h2
  unfold jsonTokens
  rw [h1, h2]
  exact ⟨rfl, rfl⟩

theorem stripBlanks_append (a b : List Nat) :
    stripBlanks (a ++ b) = stripBlanks a ++ stripBlanks b := by
  simp [stripBlanks]

theorem stripBlanks_id (s : List Nat) (h : ∀ b ∈ s, b ≠ 32 ∧ b ≠ 10) : stripBlanks s = s := by
  unfold stripBlanks
  rw [List.filter_eq_self]
  intro b hb
  simpa using h b hb

theorem stripBlanks_ws (s : List Nat) (h : ∀ b ∈ s, b = 32 ∨ b = 10) : stripBlanks s = [] := by
  unfold stripBlanks
  rw [List.filter_eq_nil_iff]
  intro b hb
  rcases h b hb with rfl | rfl <;> simp

theorem hexDigit_ne (n : Nat) : hexDigit n ≠ 32 ∧ hexDigit n ≠ 10 := by
  unfold hexDigit
  split <;> omega

theorem uEscape_noBlank (x : Nat) : ∀ b ∈ uEscape x, b ≠ 32 ∧ b ≠ 10 := by
  intro b hb
  simp only [uEscape, List.mem_cons, List.mem_singleton, List.not_mem_nil, or_false] at hb
  rcases hb with rfl | rfl | rfl | rfl | rfl | rfl
  · omega
  · omega
  all_goals exact hexDigit_ne _

theorem controlEscape_noBlank (c : Nat) : ∀ b ∈ controlEscape c, b ≠ 32 ∧ b ≠ 10 := by
  intro b hb
  unfold controlEscape at hb
  repeat' split at hb
  all_goals simp only [List.mem_cons, List.mem_singleton, List.not_mem_nil, or_false] at hb
  all_goals first
    | (rcases hb with rfl | rfl <;> omega)
    | (rcases hb with rfl | rfl | rfl | rfl | rfl | rfl
       · omega
       · omega
       · omega
       · omega
       · exact hexDigit_ne _
       · exact hexDigit_ne _)

theorem escapedText_noBlank {s body : List Nat} (h : EscapedText s body)
    (hs : ∀ c ∈ s, c % 256 ≠ 0 → c % 256 ≠ 32 ∧ c % 256 ≠ 10) :
    ∀ b ∈ body, b ≠ 32 ∧ b ≠ 10 := by
  induction h with
  | nil => intro b hb; simp at hb
  | ascii c t hc h1 h2 _ ih =>
    intro b hb
    rcases List.mem_append.mp hb with hb | hb
    · have := hs c hc (by omega)
      unfold asciiEscape at hb
      split at hb
      · simp at hb; rcases hb with rfl | rfl
        · omega
        · exact this
      · simp at hb; subst hb; exact this
    · exact ih b hb
  | control c t _ _ ih =>
    intro b hb
    rcases List.mem_append.mp hb with hb | hb
    · exact controlEscape_noBlank _ b hb
    · exact ih b hb
  | unicode x t _ ih =>
    intro b hb
    rcases List.mem_append.mp hb with hb | hb
    · exact uEscape_noBlank _ b hb
    · exact ih b hb

theorem escaped_noBlank (s : List Nat) (hs : noBlank s) : stripBlanks (escaped s) = escaped s := by
  apply stripBlanks_id
  rw [escaped_eq]
  intro b hb
  simp only [List.mem_append, List.mem_singleton] at hb
  rcases hb with (rfl | hb) | rfl
  · omega
  · refine escapedText_noBlank (escapedBody_escaped s) ?_ b hb
    intro c hc hc0
    simp only [cstr, List.mem_append, List.mem_singleton] at hc
    rcases hc with hc | rfl
    · exact hs c hc
    · simp at hc0
  · omega

theorem cbytes_noBlank (s : List Nat) (hs : noBlank s) : stripBlanks (cbytes s) = cbytes s := by
  apply stripBlanks_id
  intro b hb
  have hm : b ∈ s := List.takeWhile_subset _ hb
  have := hs b hm
  constructor <;> rintro rfl <;> simp at this

theorem stripBlanks_indentBytes (k d g : Int) : stripBlanks (indentBytes k d g) = [] := by
  apply stripBlanks_ws
  intro b hb
  unfold indentBytes at hb
  split at hb
  · simp at hb
  split at hb
  · simp at hb; exact Or.inl hb
  · exact Or.inl (List.eq_of_mem_replicate hb)

theorem stripBlanks_valueEndBytes (k d ce : Int) :
    stripBlanks (valueEndBytes k d ce) = valueEndBytes 0 d ce := by
  unfold valueEndBytes
  by_cases hce : ce = 0 <;> by_cases hk : k = 0 <;> by_cases hd : d = 0 <;>
    simp [hce, hk, hd, stripBlanks]

theorem stripBlanks_closeBytes (k d : Int) (child : grpc_json) :
    stripBlanks (closeBytes k d child) = closeBytes 0 d child := by
  cases child with
  | nil => rfl
  | node _ _ _ _ _ =>
    simp only [closeBytes, stripBlanks_append, stripBlanks_indentBytes]
    by_cases hk : k = 0 <;> simp [hk, stripBlanks, indentBytes]

theorem stripBlanks_emitted : ∀ (t : grpc_json), NoBlank t → ∀ (k d : Int) (io : Bool)
    (ce : Int), stripBlanks (emitted k d io ce t) = emitted 0 d io ce t := by
  intro t
  induction t with
  | nil => intro _ k d io ce; rfl
  | node ty key value child next ihc ihn =>
    intro hb k d io ce
    have hb' : noBlank key
        ∧ ((ty = GRPC_JSON_STRING ∨ ty = GRPC_JSON_NUMBER) → noBlank value)
        ∧ ((ty = GRPC_JSON_OBJECT ∨ ty = GRPC_JSON_ARRAY) → NoBlank child)
        ∧ NoBlank next := hb
    obtain ⟨hkey, hvalue, hchild, hnext⟩ := hb'
    have hi0 : ∀ g : Int, indentBytes 0 d g = [] := fun g => by simp [indentBytes]
    have h58 : stripBlanks [58] = [58] := rfl
    have hnil : stripBlanks [] = [] := rfl
    have hlead : stripBlanks (leadBytes k d ce io key) = leadBytes 0 d ce io key := by
      cases io
      · simp only [leadBytes, stripBlanks_append, stripBlanks_valueEndBytes,
          stripBlanks_indentBytes, hi0, Bool.false_eq_true, if_false, hnil]
      · simp only [leadBytes, stripBlanks_append, stripBlanks_valueEndBytes,
          stripBlanks_indentBytes, hi0, if_true, escaped_noBlank key hkey, h58]
    have hval : stripBlanks (emittedValue k d ty value child)
        = emittedValue 0 d ty value child := by
      cases ty with
      | GRPC_JSON_OBJECT =>
        simp only [emittedValue, stripBlanks_append, ihc (hchild (Or.inl rfl)),
          stripBlanks_closeBytes]
        rfl
      | GRPC_JSON_ARRAY =>
        simp only [emittedValue, stripBlanks_append, ihc (hchild (Or.inr rfl)),
          stripBlanks_closeBytes]
        rfl
      | GRPC_JSON_STRING => exact escaped_noBlank value (hvalue (Or.inl rfl))
      | GRPC_JSON_NUMBER => exact cbytes_noBlank value (hvalue (Or.inr rfl))
      | GRPC_JSON_TRUE => rfl
      | GRPC_JSON_FALSE => rfl
      | GRPC_JSON_NULL => rfl
    rw [emitted_node, emitted_node, stripBlanks_append, stripBlanks_append, hlead, hval,
      ihn hnext]

/-- C4 (as amended): for a tree whose NUMBER values are shorter than `2^32 - 0xff` bytes, the
dumps at `k > 0` and at `0` return and yield the same sequence of JSON tokens when the NUMBER
values are JSON number text; and when no key, STRING value or NUMBER value holds a blank or a
line feed, deleting every `0x20` and `0x0A` byte from the dump at `k` gives the dump at
`0`. -/
theorem C4_same_data (t : grpc_json) (k : Int) (_hk : 0 < k)
    (hs : numbersShort t = true) :
    ∃ a b, grpc_json_dump_to_string t k = some (a ++ [0])
      ∧ grpc_json_dump_to_string t 0 = some (b ++ [0])
      ∧ (NumbersValid t → jsonTokens a = jsonTokens b ∧ (jsonTokens b).isSome = true)
      ∧ (NoBlank t → stripBlanks a = b) :=
  ⟨emitted k 0 false 1 t, emitted 0 0 false 1 t, dump_to_string_emitted t k hs,
    dump_to_string_emitted t 0 hs, fun hn => jsonTokens_emitted t hn k,
    fun hb => stripBlanks_emitted t hb k 0 false 1⟩

/-- C4, witness: the tree `{"a": 1, "b": [true, null]}` with `k = 2`. -/
theorem C4_same_data_witness :
    ∃ a b, grpc_json_dump_to_string exampleTree 2 = some (a ++ [0])
      ∧ grpc_json_dump_to_string exampleTree 0 = some (b ++ [0])
      ∧ jsonTokens a = jsonTokens b ∧ stripBlanks a = b :=
  match C4_same_data exampleTree 2 (by decide) rfl with
  | ⟨a, b, ha, hb, h1, h2⟩ =>
    ⟨a, b, ha, hb,
      (h1 ⟨by simp, fun _ =>
        ⟨fun _ => ⟨[], [49], [], [], rfl, Or.inl rfl,
            Or.inr ⟨49, [], rfl, by decide, by decide, by simp [IsDigits]⟩, Or.inl rfl,
            Or.inl rfl⟩,
          by simp,
          ⟨by simp, fun _ => ⟨by simp, by simp, ⟨by simp, by simp, trivial⟩⟩, trivial⟩⟩,
        trivial⟩).1,
      h2 (by simp [exampleTree, NoBlank, noBlank])⟩

/-- C4, counterexample: for the array of the two NUMBER values `"` and `k = 1` the two dumps
`[","]` and `[\n ",\n "\n]` do not yield the same tokens. -/
theorem C4_same_data_counterexample :
    ∃ a b, grpc_json_dump_to_string quoteTree 1 = some (a ++ [0])
      ∧ grpc_json_dump_to_string quoteTree 0 = some (b ++ [0])
      ∧ jsonTokens a ≠ jsonTokens b :=
  ⟨[91, 10, 32, 34, 44, 10, 32, 34, 10, 93], [91, 34, 44, 34, 93], rfl, rfl, by decide⟩

/-- C8: a code point `0x10000 ≤ cp ≤ 0x10FFFF`, given by its 4-byte UTF-8 encoding, is
written as the two escapes `\uHHHH\uLLLL` (lowercase hex) of its high and low surrogate,
at any position of the input and as a string of its own; the surrogates lie in their
ranges, fit 16 bits and recombine to `cp`. -/
theorem C8_surrogate_pair (cp : Nat) (h1 : 0x10000 ≤ cp) (h2 : cp ≤ 0x10FFFF) (fuel : Nat)
    (w : grpc_json_writer) (rest : List Nat) :
    (∃ w', json_writer_escape_loop (fuel + 1) w (utf8Encode cp ++ rest)
          = json_writer_escape_loop fuel w' rest
        ∧ w'.output = w.output ++ uEscape (highSurrogate cp) ++ uEscape (lowSurrogate cp))
      ∧ (∃ w', json_writer_escape_string w (cstr (utf8Encode cp)) = some w'
        ∧ w'.output = w.output ++ [34] ++ uEscape (highSurrogate cp)
            ++ uEscape (lowSurrogate cp) ++ [34])
      ∧ 0xD800 ≤ highSurrogate cp ∧ highSurrogate cp ≤ 0xDBFF
      ∧ 0xDC00 ≤ lowSurrogate cp ∧ lowSurrogate cp ≤ 0xDFFF
      ∧ 0x10000 + ((highSurrogate cp - 0xD800) <<< 10) + (lowSurrogate cp - 0xDC00) = cp
      ∧ highSurrogate cp % 2 ^ 16 = highSurrogate cp
      ∧ lowSurrogate cp % 2 ^ 16 = lowSurrogate cp := by
  obtain ⟨hH, hL⟩ := surrogate_values cp h1 h2
  have hcpE : cpEscape cp = uEscape (highSurrogate cp) ++ uEscape (lowSurrogate cp) := by
    unfold cpEscape
    rw [if_neg (by omega), if_neg (by omega)]
  refine ⟨?_, ?_, by omega, by omega, by omega, by omega, ?_, by omega, by omega⟩
  · have hE : utf8Encode cp = [240 + cp / 262144, 128 + cp / 4096 % 64, 128 + cp / 64 % 64,
        128 + cp % 64] := by
      unfold utf8Encode
      rw [if_neg (by omega), if_neg (by omega), if_neg (by omega)]
    obtain ⟨l1, l2⟩ := lead4 (cp / 262144) (by omega)
    have hc : json_writer_escape_continuation 3 (cp / 262144)
        ([128 + cp / 4096 % 64, 128 + cp / 64 % 64, 128 + cp % 64] ++ rest)
        = some (true, cp, rest) := by
      simp only [List.cons_append, List.nil_append]
      rw [continuation_step _ _ _ _ (by omega) (by omega),
        continuation_step _ _ _ _ (by omega) (by omega),
        continuation_step _ _ _ _ (by omega) (by omega)]
      simp only [json_writer_escape_continuation]
      have : ((cp / 262144 * 64 + cp / 4096 % 64) * 64 + cp / 64 % 64) * 64 + cp % 64 = cp := by
        omega
      rw [this]
    obtain ⟨w', e1, e2⟩ := loop_step_multi (240 + cp / 262144) fuel w _ rest _ _ cp
      (by omega) (by rw [l1]; exact l2) hc (by omega)
    refine ⟨w', by rw [hE]; exact e1, ?_⟩
    have := congrArg View.output e2
    simp only [view_output, View.put_output] at this
    rw [this, codepointBytes_eq cp (by omega) h2, hcpE, List.append_assoc]
  · have hs : scan (cstr (utf8Encode cp))
        = some (uEscape (highSurrogate cp) ++ uEscape (lowSurrogate cp), true) := by
      have := scan_utf8Encode cp ⟨by omega, h2, by omega⟩ [0]
      rw [scan_zero 0 [] rfl, hcpE] at this
      simpa [cstr, scanCons] using this
    obtain ⟨w', e1, e2⟩ := escape_string_of_scan w _ _ _ hs
    exact ⟨w', e1, by rw [e2]; simp⟩
  · rw [Nat.shiftLeft_eq, hH, hL]
    omega

/-- C8, witness: U+1F600 (bytes `F0 9F 98 80`) is written as the two escapes `d83d`,
`de00`. -/
theorem C8_surrogate_pair_witness :
    (∃ w', json_writer_escape_loop 2 (initial_writer 0) ([0xF0, 0x9F, 0x98, 0x80] ++ [0])
          = json_writer_escape_loop 1 w' [0]
        ∧ w'.output = [92, 117, 100, 56, 51, 100, 92, 117, 100, 101, 48, 48])
      ∧ ∃ w', json_writer_escape_string (initial_writer 0) (cstr [0xF0, 0x9F, 0x98, 0x80])
          = some w'
        ∧ w'.output = [34, 92, 117, 100, 56, 51, 100, 92, 117, 100, 101, 48, 48, 34] :=
  ⟨(C8_surrogate_pair 0x1F600 (by decide) (by decide) 1 (initial_writer 0) [0]).1,
    (C8_surrogate_pair 0x1F600 (by decide) (by decide) 1 (initial_writer 0) [0]).2.1⟩

theorem hexDigit_printable (n : Nat) (h : n < 16) : 0x20 ≤ hexDigit n ∧ hexDigit n ≤ 0x7E := by
  unfold hexDigit
  split <;> omega

theorem uEscape_printable (x : Nat) : ∀ b ∈ uEscape x, 0x20 ≤ b ∧ b ≤ 0x7E := by
  intro b hb
  simp only [uEscape, List.mem_cons, List.mem_singleton, List.not_mem_nil, or_false] at hb
  rcases hb with rfl | rfl | rfl | rfl | rfl | rfl
  · omega
  · omega
  all_goals exact hexDigit_printable _ (Nat.mod_lt _ (by norm_num))

theorem controlEscape_printable (c : Nat) (hc : c < 256) :
    ∀ b ∈ controlEscape c, 0x20 ≤ b ∧ b ≤ 0x7E := by
  intro b hb
  by_cases h : c ≠ 8 ∧ c ≠ 12 ∧ c ≠ 10 ∧ c ≠ 13 ∧ c ≠ 9
  · rw [controlEscape_uEscape c hc h] at hb
    exact uEscape_printable c b hb
  · have h' : c = 8 ∨ c = 12 ∨ c = 10 ∨ c = 13 ∨ c = 9 := by omega
    rcases h' with rfl | rfl | rfl | rfl | rfl <;>
      (simp [controlEscape] at hb; rcases hb with rfl | rfl <;> omega)

theorem escapedText_printable {s body : List Nat} (h : EscapedText s body) :
    ∀ b ∈ body, 0x20 ≤ b ∧ b ≤ 0x7E := by
  induction h with
  | nil => intro b hb; simp at hb
  | ascii c t _ h1 h2 _ ih =>
    intro b hb
    rcases List.mem_append.mp hb with hb | hb
    · unfold asciiEscape at hb
      split at hb
      · simp at hb; rcases hb with rfl | rfl <;> omega
      · simp at hb; subst hb; omega
    · exact ih b hb
  | control c t _ _ ih =>
    intro b hb
    rcases List.mem_append.mp hb with hb | hb
    · exact controlEscape_printable _ (Nat.mod_lt _ (by norm_num)) b hb
    · exact ih b hb
  | unicode x t _ ih =>
    intro b hb
    rcases List.mem_append.mp hb with hb | hb
    · exact uEscape_printable _ b hb
    · exact ih b hb

theorem escape_string_printable (w w' : grpc_json_writer) (s : List Nat)
    (h : json_writer_escape_string w s = some w') :
    ∃ lit, w'.output = w.output ++ lit ∧ ∀ b ∈ lit, 0x20 ≤ b ∧ b ≤ 0x7E := by
  have hv := escape_string_view w s
  rw [h] at hv
  cases hs : scan s with
  | none => rw [hs] at hv; simp at hv
  | some p =>
    rw [hs] at hv
    simp only [Option.map_some', Option.some.injEq] at hv
    have ho := congrArg View.output hv
    simp only [view_output, View.put_output] at ho
    refine ⟨[34] ++ p.1 ++ [34], ho, ?_⟩
    have hb := escapedText_printable (scan_escaped _ s le_rfl p.1 p.2 (by rw [hs]))
    intro b hm
    simp only [List.mem_append, List.mem_singleton] at hm
    rcases hm with (rfl | hm) | rfl
    · omega
    · exact hb b hm
    · omega

/-- C11: for every input string, valid UTF-8 or not, the escaper returns and every byte it
appends to the buffer is printable ASCII in `0x20..0x7E`: no byte `≥ 0x80`, no control
byte and no `0x00`. -/
theorem C11_ascii_output (w : grpc_json_writer) (s : List Nat) :
    ∃ w' lit, json_writer_escape_string w (cstr s) = some w'
      ∧ w'.output = w.output ++ lit ∧ ∀ b ∈ lit, 0x20 ≤ b ∧ b ≤ 0x7E := by
  obtain ⟨w', h1, _⟩ := escape_string_cstr w s
  obtain ⟨lit, h2, h3⟩ := escape_string_printable w w' _ h1
  exact ⟨w', lit, h1, h2, h3⟩

theorem dump_single (ty : grpc_json_type) (key value : List Nat) (child : grpc_json)
    (k : Int) (hs : numbersShort (.node ty key value child .nil) = true) :
    grpc_json_dump_to_string (.node ty key value child .nil) k
      = some (emittedValue k 0 ty value child ++ [0]) := by
  rw [dump_to_string_emitted _ k hs, emitted_node, emitted_nil]
  have h1 : valueEndBytes k 0 1 = [] := by simp [valueEndBytes]
  have h2 : indentBytes k 0 0 = [] := by
    unfold indentBytes
    split
    · rfl
    · simp
  simp [leadBytes, h1, h2]

/-- C13: in every writer state, `grpc_json_writer_container_begins` followed at once by
`grpc_json_writer_container_ends` of the same kind writes the opening bracket directly
followed by the closing bracket; a root OBJECT or ARRAY without child dumps as `{}` or `[]`
at every indent width. -/
theorem C13_empty_container (w : grpc_json_writer) (ty : grpc_json_type) :
    (∃ lead, (grpc_json_writer_container_begins w ty).output
          = w.output ++ lead ++ [if ty = GRPC_JSON_OBJECT then 123 else 91]
        ∧ (grpc_json_writer_container_ends (grpc_json_writer_container_begins w ty) ty).output
          = w.output ++ lead ++ [if ty = GRPC_JSON_OBJECT then 123 else 91,
              if ty = GRPC_JSON_OBJECT then 125 else 93])
      ∧ ∀ (key value : List Nat) (k : Int),
          grpc_json_dump_to_string (.node GRPC_JSON_OBJECT key value .nil .nil) k
              = some [123, 125, 0]
            ∧ grpc_json_dump_to_string (.node GRPC_JSON_ARRAY key value .nil .nil) k
              = some [91, 93, 0] := by
  constructor
  · have hb := view_container_begins w ty
    rw [view_eq_iff] at hb
    obtain ⟨a, b, c, d, e⟩ := hb
    simp only at a b c d e
    refine ⟨(if w.got_key = 0 then valueEndBytes w.indent w.depth w.container_empty else [])
      ++ indentBytes w.indent w.depth w.got_key, ?_, ?_⟩
    · rw [e]; simp
    · have he := congrArg View.output (view_container_ends (grpc_json_writer_container_begins w ty) ty)
      simp only [view_output] at he
      rw [he, c, e]
      simp
  · intro key value k
    constructor
    · rw [dump_single GRPC_JSON_OBJECT key value .nil k rfl]; rfl
    · rw [dump_single GRPC_JSON_ARRAY key value .nil k rfl]; rfl

theorem closeBytes_eraseKeys (k d : Int) (io : Bool) (t : grpc_json) :
    closeBytes k d (eraseKeys io t) = closeBytes k d t := by
  cases t <;> rfl

theorem emitted_eraseKeys (k : Int) : ∀ (t : grpc_json) (d : Int) (io : Bool) (ce : Int),
    emitted k d io ce (eraseKeys io t) = emitted k d io ce t := by
  intro t
  induction t with
  | nil => intro d io ce; rfl
  | node ty key value child next ihc ihn =>
    intro d io ce
    have hl : leadBytes k d ce io (if io then key else []) = leadBytes k d ce io key := by
      cases io <;> simp [leadBytes]
    cases ty <;>
      simp only [eraseKeys, emitted_node, emittedValue, hl, ihc, ihn, closeBytes_eraseKeys]

theorem isNull_eraseKeys (io : Bool) (t : grpc_json) :
    (eraseKeys io t).isNull = t.isNull := by
  cases t <;> rfl

theorem dump_recursive_eraseKeys : ∀ (t : grpc_json) (w : grpc_json_writer) (io : Bool),
    json_dump_recursive w (eraseKeys io t) io = json_dump_recursive w t io := by
  intro t
  induction t with
  | nil => intro w io; rfl
  | node ty key value child next ihc ihn =>
    intro w io
    cases io <;> cases ty <;>
      simp only [eraseKeys, json_dump_recursive, ihc, ihn, isNull_eraseKeys, if_true,
        if_false, Bool.false_eq_true]

theorem output_check_bounded (w : grpc_json_writer) (n : Nat)
    (hn : n - w.free_space + 255 < 2 ^ 32)
    (hf : w.free_space + roundUp256 (n - w.free_space) < 2 ^ 64)
    (ha : w.allocated + roundUp256 (n - w.free_space) < 2 ^ 64) :
    json_writer_output_check w n
        = (if n ≤ w.free_space then w
          else { w with
            free_space := w.free_space + roundUp256 (n - w.free_space)
            allocated := w.allocated + roundUp256 (n - w.free_space) })
      ∧ n ≤ (json_writer_output_check w n).free_space := by
  unfold json_writer_output_check
  by_cases h : n ≤ w.free_space
  · simp [h]
  · have h1 : (n - w.free_space + 255) % 2 ^ 64 = n - w.free_space + 255 :=
      Nat.mod_eq_of_lt (by omega)
    have h2 : (n - w.free_space + 255) &&& 0xffffff00 = roundUp256 (n - w.free_space) :=
      and_mask32 _ hn
    have h3 : n - w.free_space ≤ roundUp256 (n - w.free_space) := by
      unfold roundUp256; omega
    simp only [ge_iff_le, h, if_false, h1, h2, Nat.mod_eq_of_lt hf, Nat.mod_eq_of_lt ha,
      true_and]
    omega

theorem output_check_bookkeeping (w : grpc_json_writer) (n : Nat) (hb : bookkeeping w)
    (hn : n - w.free_space + 255 < 2 ^ 32)
    (ha : w.allocated + roundUp256 (n - w.free_space) < 2 ^ 64) :
    bookkeeping (json_writer_output_check w n)
      ∧ n ≤ (json_writer_output_check w n).free_space
      ∧ (json_writer_output_check w n).allocated
          = (if n ≤ w.free_space then w.allocated
            else w.allocated + roundUp256 (n - w.free_space)) := by
  unfold bookkeeping at hb
  obtain ⟨h1, h2⟩ := output_check_bounded w n hn (by omega) ha
  refine ⟨?_, h2, ?_⟩
  · rw [h1]
    unfold bookkeeping
    by_cases h : n ≤ w.free_space
    · simpa [h] using hb
    · simp only [h, if_false]; omega
  · rw [h1]
    by_cases h : n ≤ w.free_space <;> simp [h]

theorem output_string_with_len_bookkeeping (w : grpc_json_writer) (str : List Nat)
    (len : Nat) (hb : bookkeeping w) (hn : len - w.free_space + 255 < 2 ^ 32)
    (ha : w.allocated + roundUp256 (len - w.free_space) < 2 ^ 64) :
    bookkeeping (json_writer_output_string_with_len w str len)
      ∧ (json_writer_output_string_with_len w str len).free_space
          = (json_writer_output_check w len).free_space - len := by
  obtain ⟨h1, h2, h3⟩ := output_check_bookkeeping w len hb hn ha
  unfold bookkeeping at h1 hb
  have h4 : (json_writer_output_check w len).allocated < 2 ^ 64 := by
    rw [h3]; split <;> omega
  unfold bookkeeping json_writer_output_string_with_len
  simp only
  omega

theorem output_char_bookkeeping (w : grpc_json_writer) (c : Nat) (hb : bookkeeping w)
    (ha : w.allocated + 256 < 2 ^ 64) :
    bookkeeping (json_writer_output_char w c)
      ∧ (json_writer_output_char w c).free_space
          = (json_writer_output_check w 1).free_space - 1 := by
  have hr : roundUp256 (1 - w.free_space) ≤ 256 := by
    unfold roundUp256; omega
  obtain ⟨h1, h2, h3⟩ := output_check_bookkeeping w 1 hb (by omega) (by omega)
  unfold bookkeeping at h1 hb
  have h4 : (json_writer_output_check w 1).allocated < 2 ^ 64 := by
    rw [h3]; split <;> omega
  unfold bookkeeping json_writer_output_char
  simp only
  omega

/-- C16: in the zeroed writer a request of `2^32` bytes leaves the state unchanged: the
mask `~0xffU` is 32 bits wide, so the rounded deficit `(2^32 + 0xff) & 0xffffff00` is 0
where the deficit rounded up to a multiple of 256 is `2^32`, and the free capacity stays
0, below the request. -/
theorem C16_capacity_not_ensured :
    json_writer_output_check (initial_writer 0) (2 ^ 32) = initial_writer 0
      ∧ (json_writer_output_check (initial_writer 0) (2 ^ 32)).free_space = 0
      ∧ ((2 ^ 32 - (initial_writer 0).free_space + 0xff) % 2 ^ 64) &&& 0xffffff00 = 0
      ∧ roundUp256 (2 ^ 32 - (initial_writer 0).free_space) = 2 ^ 32 := by
  refine ⟨?_, ?_, ?_, ?_⟩ <;> decide

/-- C17: the invariant holds in the zeroed writer, but an append of `2^32` bytes to it
makes `free_space` underflow: the capacity check does not grow the buffer, `free_space`
wraps from 0 to `2^64 - 2^32` while `allocated` stays 0 and `string_len` becomes `2^32`, so
`string_len + free_space` is `2^64`, not `allocated`. -/
theorem C17_free_space_underflow (str : List Nat) :
    bookkeeping (initial_writer 0)
      ∧ (json_writer_output_check (initial_writer 0) (2 ^ 32)).free_space < 2 ^ 32
      ∧ (json_writer_output_string_with_len (initial_writer 0) str (2 ^ 32)).free_space
          = 2 ^ 64 - 2 ^ 32
      ∧ (json_writer_output_string_with_len (initial_writer 0) str (2 ^ 32)).string_len
          = 2 ^ 32
      ∧ (json_writer_output_string_with_len (initial_writer 0) str (2 ^ 32)).allocated = 0
      ∧ ¬ bookkeeping (json_writer_output_string_with_len (initial_writer 0) str (2 ^ 32)) := by
  have hc : json_writer_output_check (initial_writer 0) (2 ^ 32) = initial_writer 0 := by
    decide
  refine ⟨by decide, by decide, ?_, ?_, ?_, ?_⟩
  · simp only [json_writer_output_string_with_len, hc]; decide
  · simp only [json_writer_output_string_with_len, hc]; decide
  · simp only [json_writer_output_string_with_len, hc]; decide
  · simp only [bookkeeping, json_writer_output_string_with_len, hc]; decide

/-- C18: `json_writer_output_indent` with `indent > 0`, `got_key = 0` and
`0 <= depth * indent < 2^31` appends a run of `depth * indent` blanks and changes nothing
else of the formatter state; with `indent = 0` it leaves the writer as it is; with
`indent > 0` and `got_key` set it appends one blank. -/
theorem C18_indent_spaces (w : grpc_json_writer) :
    (0 < w.indent → w.got_key = 0 → 0 ≤ w.depth * w.indent → w.depth * w.indent < 2 ^ 31 →
        view (json_writer_output_indent w)
          = (view w).put (List.replicate (w.depth * w.indent).toNat 32))
      ∧ (w.indent = 0 → json_writer_output_indent w = w)
      ∧ (0 < w.indent → w.got_key ≠ 0 →
          view (json_writer_output_indent w) = (view w).put [32]) := by
  refine ⟨fun hi hg h0 h1 => ?_, fun hi => ?_, fun hi hg => ?_⟩
  · rw [view_output_indent]
    unfold indentBytes
    have hi0 : w.indent ≠ 0 := by omega
    have hm : (w.depth * w.indent) % 2 ^ 32 = w.depth * w.indent :=
      Int.emod_eq_of_lt h0 (by omega)
    simp only [hi0, if_false, hg, ne_eq, not_true_eq_false, hm]
  · unfold json_writer_output_indent
    simp [hi]
  · rw [view_output_indent]
    unfold indentBytes
    have hi0 : w.indent ≠ 0 := by omega
    simp [hi0, hg]

/-- C18, witness: indent 2 at the depths 0, 32 and 100 (no blank, 64 blanks, 200 blanks),
indent 0, and indent 2 after a key. -/
theorem C18_indent_spaces_witness :
    (json_writer_output_indent { initial_writer 2 with depth := 0 }).output = []
      ∧ (json_writer_output_indent { initial_writer 2 with depth := 32 }).output
          = List.replicate 64 32
      ∧ (json_writer_output_indent { initial_writer 2 with depth := 100 }).output
          = List.replicate 200 32
      ∧ json_writer_output_indent { initial_writer 0 with depth := 3 }
          = { initial_writer 0 with depth := 3 }
      ∧ (json_writer_output_indent { initial_writer 2 with depth := 3, got_key := 1 }).output
          = [32] :=
  ⟨congrArg View.output
      ((C18_indent_spaces { initial_writer 2 with depth := 0 }).1
        (by decide) rfl (by decide) (by decide)),
    congrArg View.output
      ((C18_indent_spaces { initial_writer 2 with depth := 32 }).1
        (by decide) rfl (by decide) (by decide)),
    congrArg View.output
      ((C18_indent_spaces { initial_writer 2 with depth := 100 }).1
        (by decide) rfl (by decide) (by decide)),
    (C18_indent_spaces { initial_writer 0 with depth := 3 }).2.1 rfl,
    congrArg View.output
      ((C18_indent_spaces { initial_writer 2 with depth := 3, got_key := 1 }).2.2
        (by decide) (by decide))⟩

theorem cbytes_nonzero (s : List Nat) : ∀ b ∈ cbytes s, b % 256 ≠ 0 := by
  intro b hb
  have := List.mem_takeWhile_imp hb
  simpa using this

theorem split_at_zero : ∀ (s : List Nat), (∃ b ∈ s, b % 256 = 0) →
    ∃ z rest, s = cbytes s ++ z :: rest ∧ z % 256 = 0 := by
  intro s
  induction s with
  | nil => intro h; simp at h
  | cons a t ih =>
    intro h
    by_cases ha : a % 256 = 0
    · refine ⟨a, t, ?_, ha⟩
      simp [cbytes, List.takeWhile, ha]
    · have ht : ∃ b ∈ t, b % 256 = 0 := by
        obtain ⟨x, hx, hx0⟩ := h
        rcases List.mem_cons.mp hx with rfl | hx
        · exact absurd hx0 ha
        · exact ⟨x, hx, hx0⟩
      obtain ⟨z, rest, h1, h2⟩ := ih ht
      refine ⟨z, rest, ?_, h2⟩
      have e : cbytes (a :: t) = a :: cbytes t := by
        simp [cbytes, List.takeWhile, ha]
      rw [e, List.cons_append, ← h1]

theorem continuation_trunc : ∀ (e u : Nat) (p : List Nat) (z : Nat) (rest : List Nat),
    (∀ b ∈ p, b % 256 ≠ 0) → z % 256 = 0 →
    (∃ u' r1 r2, json_writer_escape_continuation e u (p ++ z :: rest) = some (false, u', r1)
        ∧ json_writer_escape_continuation e u (p ++ [0]) = some (false, u', r2))
      ∨ (∃ u' a, json_writer_escape_continuation e u (p ++ z :: rest)
            = some (true, u', a ++ z :: rest)
        ∧ json_writer_escape_continuation e u (p ++ [0]) = some (true, u', a ++ [0])
        ∧ a.length ≤ p.length ∧ ∀ x ∈ a, x ∈ p) := by
  intro e
  induction e with
  | zero =>
    intro u p z rest hp hz
    exact Or.inr ⟨u, p, rfl, rfl, le_rfl, fun _ h => h⟩
  | succ n ih =>
    intro u p z rest hp hz
    cases p with
    | nil =>
      refine Or.inl ⟨(u <<< 6) % 2 ^ 32, rest, [], ?_, ?_⟩
      · simp [json_writer_escape_continuation, hz]
      · simp [json_writer_escape_continuation]
    | cons b p' =>
      have hp' : ∀ x ∈ p', x % 256 ≠ 0 := fun x hx => hp x (List.mem_cons_of_mem _ hx)
      by_cases hb : (b % 256) &&& 0xc0 = 0x80
      · rcases ih (((u <<< 6) % 2 ^ 32) ||| ((b % 256) &&& 0x3f)) p' z rest hp' hz with
          ⟨u', r1, r2, h1, h2⟩ | ⟨u', a, h1, h2, h3, h4⟩
        · refine Or.inl ⟨u', r1, r2, ?_, ?_⟩
          · simpa [json_writer_escape_continuation, hb] using h1
          · simpa [json_writer_escape_continuation, hb] using h2
        · refine Or.inr ⟨u', a, ?_, ?_, ?_, ?_⟩
          · simpa [json_writer_escape_continuation, hb] using h1
          · simpa [json_writer_escape_continuation, hb] using h2
          · simp; omega
          · intro x hx; exact List.mem_cons_of_mem _ (h4 x hx)
      · refine Or.inl ⟨(u <<< 6) % 2 ^ 32, p' ++ z :: rest, p' ++ [0], ?_, ?_⟩
        · simp [json_writer_escape_continuation, hb]
        · simp [json_writer_escape_continuation, hb]

theorem escape_loop_trunc : ∀ (n : Nat) (p : List Nat), p.length ≤ n →
    (∀ b ∈ p, b % 256 ≠ 0) →
    ∀ (z : Nat) (rest : List Nat) (w : grpc_json_writer) (f1 f2 : Nat), z % 256 = 0 →
    (p ++ z :: rest).length ≤ f1 → (p ++ [0]).length ≤ f2 →
    json_writer_escape_loop f1 w (p ++ z :: rest)
      = json_writer_escape_loop f2 w (p ++ [0]) := by
  intro n
  induction n with
  | zero =>
    intro p hl hp z rest w f1 f2 hz h1 h2
    have : p = [] := List.length_eq_zero.mp (by omega)
    subst this
    cases f1 with
    | zero => simp at h1
    | succ m1 =>
      cases f2 with
      | zero => simp at h2
      | succ m2 => simp [json_writer_escape_loop, hz]
  | succ n ih =>
    intro p hl hp z rest w f1 f2 hz h1 h2
    cases f1 with
    | zero => simp at h1
    | succ m1 =>
      cases f2 with
      | zero => simp at h2
      | succ m2 =>
        cases p with
        | nil => simp [json_writer_escape_loop, hz]
        | cons b p' =>
          have hb0 : b % 256 ≠ 0 := hp b (List.mem_cons_self _ _)
          have hp' : ∀ x ∈ p', x % 256 ≠ 0 := fun x hx => hp x (List.mem_cons_of_mem _ hx)
          simp only [List.length_cons, List.length_append, List.cons_append,
            Nat.add_le_add_iff_right, List.length_nil, Nat.zero_add] at hl h1 h2
          have hrec : ∀ (a : List Nat) (w' : grpc_json_writer), a.length ≤ p'.length →
              (∀ x ∈ a, x ∈ p') →
              json_writer_escape_loop m1 w' (a ++ z :: rest)
                = json_writer_escape_loop m2 w' (a ++ [0]) := by
            intro a w' ha hm
            apply ih a (by omega) (fun x hx => hp' x (hm x hx)) z rest w' m1 m2 hz
            · simp; omega
            · simp; omega
          have e1 : (b :: p') ++ z :: rest = b :: (p' ++ z :: rest) := rfl
          have e2 : (b :: p') ++ [0] = b :: (p' ++ [0]) := rfl
          rw [e1, e2]
          simp only [json_writer_escape_loop, hb0, if_false]
          split
          · exact hrec p' _ le_rfl (fun _ h => h)
          split
          · exact hrec p' _ le_rfl (fun _ h => h)
          split
          · rfl
          · rename_i u e _
            rcases continuation_trunc e u p' z rest hp' hz with
              ⟨u', r1, r2, c1, c2⟩ | ⟨u', a, c1, c2, c3, c4⟩
            · rw [c1, c2]
              simp
            · rw [c1, c2]
              simp only [Bool.not_true, Bool.false_eq_true, if_false]
              split
              · rfl
              split
              · exact hrec a _ c3 c4
              · exact hrec a _ c3 c4

/-- C20: on every buffer that holds a `0x00`, `json_writer_escape_string` returns, and its
result is the result on the buffer cut off right after the first `0x00`, where every read
past that byte fails: no byte after the first `0x00` is read. -/
theorem C20_reads_end_at_terminator (w : grpc_json_writer) (s : List Nat)
    (h : ∃ b ∈ s, b % 256 = 0) :
    ∃ w', json_writer_escape_string w s = some w'
      ∧ json_writer_escape_string w (cstr (cbytes s)) = some w' := by
  obtain ⟨w', h1, _⟩ := escape_string_cstr w (cbytes s)
  refine ⟨w', ?_, h1⟩
  obtain ⟨z, rest, hs, hz⟩ := split_at_zero s h
  rw [← h1]
  have hl := escape_loop_trunc (cbytes s).length (cbytes s) le_rfl (cbytes_nonzero s) z rest
    (json_writer_output_char w 34) (cbytes s ++ z :: rest).length
    (cstr (cbytes s)).length hz le_rfl le_rfl
  unfold json_writer_escape_string
  simp only []
  rw [← hs] at hl
  rw [hl]
  rfl

/-- C20, witness: the lead byte `E2` with one continuation byte, then the terminator and two
more bytes. -/
theorem C20_reads_end_at_terminator_witness :
    ∃ w', json_writer_escape_string (initial_writer 0) [226, 130, 0, 65, 66] = some w'
      ∧ json_writer_escape_string (initial_writer 0) (cstr (cbytes [226, 130, 0, 65, 66]))
          = some w' :=
  C20_reads_end_at_terminator (initial_writer 0) [226, 130, 0, 65, 66] ⟨0, by decide, rfl⟩

theorem object_key_depth (w : grpc_json_writer) (key : List Nat) :
    ∃ w', grpc_json_writer_object_key w (cstr key) = some w' ∧ w'.depth = w.depth := by
  obtain ⟨w', h1, h2⟩ := view_object_key2 w key
  exact ⟨w', h1, congrArg View.depth h2⟩

theorem value_string_depth (w : grpc_json_writer) (v : List Nat) :
    ∃ w', grpc_json_writer_value_string w (cstr v) = some w' ∧ w'.depth = w.depth := by
  obtain ⟨w', h1, h2⟩ := view_value_string w v
  exact ⟨w', h1, congrArg View.depth h2⟩

theorem value_raw_depth (w : grpc_json_writer) (v : List Nat)
    (hv : (cbytes v).length + 0xff < 2 ^ 32) :
    ∃ w', grpc_json_writer_value_raw w (cstr v) = some w' ∧ w'.depth = w.depth := by
  obtain ⟨w', h1, h2⟩ := view_value_raw w v hv
  exact ⟨w', h1, congrArg View.depth h2⟩

theorem value_raw_with_len_depth (w : grpc_json_writer) (s : List Nat) (n : Nat) :
    (grpc_json_writer_value_raw_with_len w s n).depth = w.depth :=
  congrArg View.depth (view_value_raw_with_len w s n)

theorem container_begins_depth (w : grpc_json_writer) (ty : grpc_json_type) :
    (grpc_json_writer_container_begins w ty).depth = w.depth + 1 :=
  congrArg View.depth (view_container_begins w ty)

theorem container_ends_depth (w : grpc_json_writer) (ty : grpc_json_type) :
    (grpc_json_writer_container_ends w ty).depth = w.depth - 1 :=
  congrArg View.depth (view_container_ends w ty)

theorem balanced_container (w1 : grpc_json_writer) (tr : List Int) (ty : grpc_json_type)
    (child : grpc_json) (io : Bool)
    (ih : ∀ (w : grpc_json_writer) (tr : List Int) (io : Bool), Balanced w tr child io) :
    ∃ w2 ds,
      ((if child.isNull then some (record tr (grpc_json_writer_container_begins w1 ty))
          else json_dump_trace (record tr (grpc_json_writer_container_begins w1 ty))
            child io).map
          fun (st : grpc_json_writer × List Int) =>
            record st.2 (grpc_json_writer_container_ends st.1 ty)) = some (w2, tr ++ ds)
      ∧ ((if child.isNull then some (grpc_json_writer_container_begins w1 ty)
          else json_dump_recursive (grpc_json_writer_container_begins w1 ty) child io).map
          fun writer => grpc_json_writer_container_ends writer ty) = some w2
      ∧ w2.depth = w1.depth
      ∧ ∀ d ∈ ds, w1.depth ≤ d ∧ d ≤ w1.depth + (containerDepth child + 1 : Nat) := by
  have hb := container_begins_depth w1 ty
  by_cases hn : child.isNull = true
  · refine ⟨grpc_json_writer_container_ends (grpc_json_writer_container_begins w1 ty) ty,
      [w1.depth + 1, w1.depth], ?_, ?_, ?_, ?_⟩
    · simp [hn, record, container_ends_depth, hb]
    · simp [hn]
    · rw [container_ends_depth, hb]; omega
    · intro d hd
      simp only [List.mem_cons, List.mem_singleton, List.not_mem_nil, or_false] at hd
      push_cast
      omega
  · obtain ⟨wc, dsc, c1, c2, c3, c4⟩ :=
      ih (grpc_json_writer_container_begins w1 ty) (tr ++ [w1.depth + 1]) io
    refine ⟨grpc_json_writer_container_ends wc ty, [w1.depth + 1] ++ dsc ++ [w1.depth],
      ?_, ?_, ?_, ?_⟩
    · simp [hn, record, hb, c1, container_ends_depth, c3]
    · simp [hn, c2]
    · rw [container_ends_depth, c3, hb]; omega
    · intro d hd
      simp only [List.mem_append, List.mem_singleton] at hd
      push_cast
      rcases hd with (hd | hd) | hd
      · omega
      · have := c4 d hd; omega
      · omega

theorem balanced_finish (w w2 : grpc_json_writer) (tr ds : List Int) (next : grpc_json)
    (io : Bool) (n : Nat) (hd : w2.depth = w.depth)
    (hds : ∀ d ∈ ds, w.depth ≤ d ∧ d ≤ w.depth + n) (hn : containerDepth next ≤ n)
    (ihn : Balanced w2 (tr ++ ds) next io) :
    ∃ w' ds', json_dump_trace (w2, tr ++ ds) next io = some (w', tr ++ ds')
      ∧ json_dump_recursive w2 next io = some w'
      ∧ w'.depth = w.depth ∧ ∀ d ∈ ds', w.depth ≤ d ∧ d ≤ w.depth + n := by
  obtain ⟨w3, ds3, n1, n2, n3, n4⟩ := ihn
  refine ⟨w3, ds ++ ds3, ?_, n2, by omega, ?_⟩
  · rw [n1, List.append_assoc]
  · intro d hd'
    rcases List.mem_append.mp hd' with h | h
    · exact hds d h
    · have := n4 d h; omega

theorem dump_trace_balanced : ∀ (t : grpc_json) (w : grpc_json_writer) (tr : List Int)
    (io : Bool), numbersShort t = true → Balanced w tr t io := by
  intro t
  induction t with
  | nil =>
    intro w tr io _
    exact ⟨w, [], by simp [json_dump_trace], rfl, rfl, by simp⟩
  | node ty key value child next ihc ihn =>
    intro w tr io hs
    have hsn : numbersShort next = true := by
      simp only [numbersShort, Bool.and_eq_true] at hs
      exact hs.2
    have hnn : containerDepth next ≤ containerDepth (.node ty key value child next) := by
      simp only [containerDepth]
      exact le_max_right _ _
    have hkey : ∃ w1 ds1,
        (if io then (grpc_json_writer_object_key w (cstr key)).map (record tr)
          else some (w, tr)) = some (w1, tr ++ ds1)
        ∧ (if io then grpc_json_writer_object_key w (cstr key) else some w) = some w1
        ∧ w1.depth = w.depth ∧ ∀ d ∈ ds1, d = w.depth := by
      cases io with
      | false => exact ⟨w, [], by simp, by simp, rfl, by simp⟩
      | true =>
        obtain ⟨w1, k1, k2⟩ := object_key_depth w key
        exact ⟨w1, [w.depth], by simp [k1, record, k2], by simp [k1], k2, by simp⟩
    obtain ⟨w1, ds1, k1, k2, k3, k4⟩ := hkey
    have hcont : ∀ (ty' : grpc_json_type) (io' : Bool), numbersShort child = true →
        containerDepth child + 1 ≤ containerDepth (.node ty key value child next) →
        ∃ w2 ds2,
        ((if child.isNull then
              some (record (tr ++ ds1) (grpc_json_writer_container_begins w1 ty'))
            else json_dump_trace
              (record (tr ++ ds1) (grpc_json_writer_container_begins w1 ty')) child io').map
            fun (st : grpc_json_writer × List Int) =>
              record st.2 (grpc_json_writer_container_ends st.1 ty'))
          = some (w2, tr ++ (ds1 ++ ds2))
        ∧ ((if child.isNull then some (grpc_json_writer_container_begins w1 ty')
            else json_dump_recursive (grpc_json_writer_container_begins w1 ty') child io').map
            fun writer => grpc_json_writer_container_ends writer ty') = some w2
        ∧ w2.depth = w.depth
        ∧ ∀ d ∈ ds1 ++ ds2, w.depth ≤ d
            ∧ d ≤ w.depth + containerDepth (.node ty key value child next) := by
      intro ty' io' hsc hle
      obtain ⟨w2, ds2, b1, b2, b3, b4⟩ := balanced_container w1 (tr ++ ds1) ty' child io'
        (fun w tr io => ihc w tr io hsc)
      refine ⟨w2, ds2, ?_, b2, by omega, ?_⟩
      · rw [b1, List.append_assoc]
      · intro d hd
        have hle' : ((containerDepth child + 1 : Nat) : Int)
            ≤ containerDepth (.node ty key value child next) := by exact_mod_cast hle
        rcases List.mem_append.mp hd with h | h
        · have := k4 d h; omega
        · have := b4 d h; omega
    have hscalar : ∀ w2 : grpc_json_writer, w2.depth = w1.depth →
        ∃ w' ds', json_dump_trace (record (tr ++ ds1) w2) next io = some (w', tr ++ ds')
          ∧ json_dump_recursive w2 next io = some w'
          ∧ w'.depth = w.depth
          ∧ ∀ d ∈ ds', w.depth ≤ d
              ∧ d ≤ w.depth + containerDepth (.node ty key value child next) := by
      intro w2 h2
      have e : record (tr ++ ds1) w2 = (w2, tr ++ (ds1 ++ [w.depth])) := by
        simp [record, h2, k3]
      rw [e]
      refine balanced_finish w w2 tr (ds1 ++ [w.depth]) next io _ (by omega) ?_ hnn
        (ihn _ _ _ hsn)
      intro d hd
      rcases List.mem_append.mp hd with h | h
      · have := k4 d h; omega
      · simp only [List.mem_singleton] at h; omega
    unfold Balanced
    rw [json_dump_trace, json_dump_recursive]
    simp only [k1, k2, Option.some_bind]
    cases ty with
    | GRPC_JSON_OBJECT =>
      obtain ⟨w2, ds2, b1, b2, b3, b4⟩ := hcont GRPC_JSON_OBJECT true
        (by simp only [numbersShort, Bool.and_eq_true] at hs; exact hs.1)
        (by simp only [containerDepth]; exact le_max_left _ _)
      simp only [b1, b2, Option.some_bind]
      exact balanced_finish w w2 tr (ds1 ++ ds2) next io _ b3 b4 hnn (ihn _ _ _ hsn)
    | GRPC_JSON_ARRAY =>
      obtain ⟨w2, ds2, b1, b2, b3, b4⟩ := hcont GRPC_JSON_ARRAY false
        (by simp only [numbersShort, Bool.and_eq_true] at hs; exact hs.1)
        (by simp only [containerDepth]; exact le_max_left _ _)
      simp only [b1, b2, Option.some_bind]
      exact balanced_finish w w2 tr (ds1 ++ ds2) next io _ b3 b4 hnn (ihn _ _ _ hsn)
    | GRPC_JSON_STRING =>
      obtain ⟨w2, v1, v2⟩ := value_string_depth w1 value
      simp only [v1, Option.map_some', Option.some_bind]
      exact hscalar w2 v2
    | GRPC_JSON_NUMBER =>
      obtain ⟨w2, v1, v2⟩ := value_raw_depth w1 value
        (by simp only [numbersShort, Bool.and_eq_true, decide_eq_true_eq] at hs; exact hs.1)
      simp only [v1, Option.map_some', Option.some_bind]
      exact hscalar w2 v2
    | GRPC_JSON_TRUE =>
      simp only [Option.some_bind]
      exact hscalar _ (value_raw_with_len_depth _ _ _)
    | GRPC_JSON_FALSE =>
      simp only [Option.some_bind]
      exact hscalar _ (value_raw_with_len_depth _ _ _)
    | GRPC_JSON_NULL =>
      simp only [Option.some_bind]
      exact hscalar _ (value_raw_with_len_depth _ _ _)

end JsonWriter
